import Mathlib

/-!
# goprotocol: a shallow embedding of the binary record codec

The development follows the Go sources `protocolBase.go`, `protocolWritter.go` and
`protocolReader.go`.

Modelling conventions.

* A byte is a natural number; a byte buffer is a `List Nat`.  Every byte the encoder
  produces is reduced `% 256`, as the Go conversion `byte(v)` does.
* Fixed-width unsigned integers are natural numbers; a Go conversion `uint16(x)` or
  `uint32(x)` is written `x % 65536` or `x % 4294967296`.
* A Go run-time panic (index out of range, slice bounds out of range, nil dereference) is
  the result `none`; a Go `error` value is `Except.error`.
* `reflect.Type` is `RType`; the identity of a type (the address the code hashes with
  `PtrOf`) is the `RType` term itself.  Struct declarations live in a `TypeEnv`, which plays
  the part of the information `reflect` hands out (`NumField`, `Field(i)`, `Size`).
* A `*TRegRttiData` is represented by the class id of the descriptor it points to: every
  descriptor is created by `RegisterDataClass` and stored under its own `ClassId` at once, and
  an id is registered at most one time, so the id names the descriptor object.
* The host is a 64-bit little-endian machine (word size 8), which is what the raw memory
  copies of the encoder assume.
-/

namespace Protocol

/-! ## `reflect.Kind` and `reflect.Type` -/

/-- The kinds of `reflect.Kind`, in the order of the Go declaration. -/
inductive Kind where
  | Invalid | Bool | Int | Int8 | Int16 | Int32 | Int64
  | Uint | Uint8 | Uint16 | Uint32 | Uint64 | Uintptr
  | Float32 | Float64 | Complex64 | Complex128
  | Array | Chan | Func | Interface | Map | Ptr | Slice | String | Struct | UnsafePointer
deriving DecidableEq, Repr

/-- The numeric value of a `reflect.Kind` constant. -/
def Kind.toNat : Kind → Nat
  | .Invalid => 0 | .Bool => 1 | .Int => 2 | .Int8 => 3 | .Int16 => 4 | .Int32 => 5
  | .Int64 => 6 | .Uint => 7 | .Uint8 => 8 | .Uint16 => 9 | .Uint32 => 10 | .Uint64 => 11
  | .Uintptr => 12 | .Float32 => 13 | .Float64 => 14 | .Complex64 => 15 | .Complex128 => 16
  | .Array => 17 | .Chan => 18 | .Func => 19 | .Interface => 20 | .Map => 21 | .Ptr => 22
  | .Slice => 23 | .String => 24 | .Struct => 25 | .UnsafePointer => 26

/-- Go: `isPod(kd) = kd >= reflect.Bool && kd <= reflect.Float64`. -/
def isPod (kd : Kind) : Bool :=
  decide (Kind.Bool.toNat ≤ kd.toNat) && decide (kd.toNat ≤ Kind.Float64.toNat)

/-- A Go type as `reflect` presents it.  `named id` is the struct type declared at index
`id` of the type environment. -/
inductive RType where
  | basic (k : Kind)
  | array (len : Nat) (elem : RType)
  | slice (elem : RType)
  | ptr (elem : RType)
  | named (id : Nat)
deriving DecidableEq, Repr

/-- One entry of `reflect.Type.Field(i)`: the field type and its byte offset. -/
structure StructField where
  ftype : RType
  Offset : Nat
deriving DecidableEq, Repr

/-- A struct declaration: its fields in declaration order and `Size()`. -/
structure StructDecl where
  fields : List StructField
  size : Nat
deriving DecidableEq, Repr

/-- The struct types of the program, indexed by the id used in `RType.named`. -/
abbrev TypeEnv := List StructDecl

/-- Go: `Type.Kind()`. -/
def RType.Kind : RType → Kind
  | .basic k => k
  | .array _ _ => .Array
  | .slice _ => .Slice
  | .ptr _ => .Ptr
  | .named _ => .Struct

/-- Go: `Type.Elem()`, which panics for a type without an element type. -/
def RType.Elem : RType → Option RType
  | .array _ e => some e
  | .slice e => some e
  | .ptr e => some e
  | _ => none

/-- Go: `Type.Len()` of an array type. -/
def RType.Len : RType → Nat
  | .array n _ => n
  | _ => 0

/-- Size in bytes of a value of a basic kind on a 64-bit host. -/
def Kind.size : Kind → Nat
  | .Bool => 1 | .Int8 => 1 | .Uint8 => 1
  | .Int16 => 2 | .Uint16 => 2
  | .Int32 => 4 | .Uint32 => 4 | .Float32 => 4
  | .Int => 8 | .Int64 => 8 | .Uint => 8 | .Uint64 => 8 | .Uintptr => 8 | .Float64 => 8
  | .Complex64 => 8 | .Complex128 => 16
  | .String => 16 | .Interface => 16 | .Slice => 24
  | .Chan => 8 | .Func => 8 | .Map => 8 | .Ptr => 8 | .UnsafePointer => 8
  | .Invalid => 0 | .Array => 0 | .Struct => 0

/-- Go: `Type.Size()`. -/
def RType.Size (env : TypeEnv) : RType → Nat
  | .basic k => k.size
  | .array n e => n * e.Size env
  | .slice _ => 24
  | .ptr _ => 8
  | .named id => match env[id]? with
    | some d => d.size
    | none => 0

/-! ## Descriptors and the registry (`protocolBase.go`) -/

def cSignFlagMask : Nat := 0xFFFC
def cSignFlag : Nat := 0x6D98
def stringLenSize : Nat := 2
def arrayLenSize : Nat := 4

/-- Go: `TRegFieldOffsetData`. `typeHash` is the identity of the field type. -/
structure TRegFieldOffsetData where
  rType : RType
  Kind : Protocol.Kind
  typeHash : RType
  offset : Nat
  podMergeCount : Nat
  podSize : Nat
  arraySize : Nat
  arrayLen : Nat
  arrayKind : Protocol.Kind
  arrayType : Option RType
deriving DecidableEq, Repr

/-- Go: `TRegRttiData`. -/
structure TRegRttiData where
  ClassId : Nat
  BigData : Bool
  rType : RType
  FieldData : List TRegFieldOffsetData
deriving DecidableEq, Repr

/-- The two global maps.  `G_DataClass` maps a type identity to the class id that names the
descriptor it points to.  A map is an association list whose first match wins, so that an
assignment `m[k] = v` is a `cons`. -/
structure Registry where
  G_ClassId : List (Nat × TRegRttiData)
  G_DataClass : List (RType × Nat)
deriving DecidableEq, Repr

/-- Go: `G_ClassId[classid]`. -/
def GetRegRttiDataByClassId (reg : Registry) (classid : Nat) : Option TRegRttiData :=
  reg.G_ClassId.lookup classid

/-- Go: `G_DataClass[hash]`, dereferenced. -/
def lookupDataClass (reg : Registry) (hash : RType) : Option TRegRttiData :=
  match reg.G_DataClass.lookup hash with
  | some cid => reg.G_ClassId.lookup cid
  | none => none

/-- Go: `GetRegRttiDataFromType`. -/
def GetRegRttiDataFromType (reg : Registry) (tp : RType) : Option TRegRttiData :=
  lookupDataClass reg tp

/-- Go: `TRegFieldOffsetData.isPod`. -/
def TRegFieldOffsetData.isPod (fd : TRegFieldOffsetData) : Bool := Protocol.isPod fd.Kind

/-- Replace the element at index `i` by its image under `f`. -/
def modifyAt {α : Type} (f : α → α) : Nat → List α → List α
  | _, [] => []
  | 0, x :: xs => f x :: xs
  | i + 1, x :: xs => x :: modifyAt f i xs

/-- The field loop of `RegisterDataClass` (lines 117-152).  `done` holds the entries
`FieldData[0 .. i)` written so far, so the index `i` of the current field is `done.length`.
The result is `none` when `ftp.Elem()` panics. -/
def registerLoop (env : TypeEnv) :
    List StructField → List TRegFieldOffsetData → Nat → Nat → Option (List TRegFieldOffsetData)
  | [], done, _, _ => some done
  | fd :: rest, done, sumOffset, mergeIdx =>
    let i := done.length
    let ftp := fd.ftype
    let d0 : TRegFieldOffsetData :=
      { rType := ftp, typeHash := ftp, offset := fd.Offset, podMergeCount := 1,
        podSize := ftp.Size env, arraySize := 0, Kind := ftp.Kind,
        arrayLen := 0, arrayKind := .Invalid, arrayType := none }
    if !d0.isPod then
      match d0.Kind with
      | .Slice =>
        match ftp.Elem with
        | none => none
        | some val =>
          registerLoop env rest
            (done ++ [{ d0 with arrayKind := val.Kind, arraySize := val.Size env,
                                arrayType := some val }]) sumOffset mergeIdx
      | .Array =>
        match ftp.Elem with
        | none => none
        | some val =>
          registerLoop env rest
            (done ++ [{ d0 with arrayLen := ftp.Len % 4294967296, arrayKind := val.Kind,
                                arraySize := val.Size env, arrayType := some val }])
            sumOffset mergeIdx
      | _ => registerLoop env rest (done ++ [d0]) sumOffset mergeIdx
    else if sumOffset = 0 then
      registerLoop env rest (done ++ [d0]) (d0.offset + d0.podSize) i
    else if sumOffset = d0.offset then
      registerLoop env rest
        (modifyAt (fun m => { m with podMergeCount := m.podMergeCount + 1,
                                     podSize := m.podSize + ftp.Size env })
          mergeIdx (done ++ [d0]))
        (sumOffset + d0.podSize) mergeIdx
    else
      registerLoop env rest (done ++ [d0]) (d0.offset + d0.podSize) i

/-- Go: `RegisterDataClass(msgid, msg)`, where `tp0 = reflect.TypeOf(msg)`.  The result is
`none` when the Go code panics (`NumField` of a type that is not a struct). -/
def RegisterDataClass (env : TypeEnv) (reg : Registry) (msgid : Nat) (tp0 : RType) :
    Option Registry :=
  if (reg.G_ClassId.lookup msgid).isSome then some reg
  else
    let tp := if tp0.Kind = .Ptr then (tp0.Elem.getD tp0) else tp0
    let rType := tp
    let pType := if tp0.Kind = .Ptr then tp0 else .ptr tp0
    match tp with
    | .named id =>
      match env[id]? with
      | none => none
      | some decl =>
        match registerLoop env decl.fields [] 0 0 with
        | none => none
        | some fds =>
          let rtti : TRegRttiData :=
            { ClassId := msgid, rType := tp, BigData := false, FieldData := fds }
          some { G_ClassId := (msgid, rtti) :: reg.G_ClassId,
                 G_DataClass := (pType, msgid) :: (rType, msgid) :: reg.G_DataClass }
    | _ => none

/-- The registry before any registration. -/
def Registry.empty : Registry := { G_ClassId := [], G_DataClass := [] }

/-- Set the `BigData` flag of the descriptor named by `cid` (Go: `rttiData.BigData = true`
through the shared pointer). -/
def setBigData (reg : Registry) (cid : Nat) : Registry :=
  { reg with G_ClassId :=
      reg.G_ClassId.map (fun e => if e.1 = cid then (e.1, { e.2 with BigData := true }) else e) }

/-! ## Primitive writes (`protocolWritter.go`)

The writer's buffer is its contents `b.buf[0 .. len)`.  `tryGrowByReslice` and `grow` only
provide room; the bytes `writeUint16`, `writeUint32` and `Write` then store fill exactly the
grown part, so each of them is an append. -/

/-- Go: `ProtocolDataHeaderWritter`. -/
structure ProtocolDataHeaderWritter where
  isValid : Bool
  shortLenMode : Bool
  shortClassId : Bool
  headerLength : Nat
  startPos : Nat
deriving DecidableEq, Repr

/-- The zero value `ProtocolDataHeaderWritter{}`. -/
def ProtocolDataHeaderWritter.zero : ProtocolDataHeaderWritter :=
  { isValid := false, shortLenMode := false, shortClassId := false, headerLength := 0,
    startPos := 0 }

/-- Little-endian bytes of a 16-bit value: `byte(v)`, `byte(v >> 8)`. -/
def le16 (v : Nat) : List Nat := [v % 256, v / 256 % 256]

/-- Little-endian bytes of a 32-bit value. -/
def le32 (v : Nat) : List Nat := [v % 256, v / 256 % 256, v / 65536 % 256, v / 16777216 % 256]

/-- Go: `writeUint16`. -/
def writeUint16 (b : List Nat) (v : Nat) : List Nat := b ++ le16 v

/-- Go: `writeUint32`. -/
def writeUint32 (b : List Nat) (v : Nat) : List Nat := b ++ le32 v

/-- Go: `Write`. -/
def Write (b : List Nat) (p : List Nat) : List Nat := b ++ p

/-- Go: `binary.LittleEndian.PutUint16(b.buf[idx:], …)` and `PutUint32`: overwrite the bytes
at `idx`; panics when the slice `b.buf[idx:]` is shorter than the value. -/
def putAt (b : List Nat) (idx : Nat) (bs : List Nat) : Option (List Nat) :=
  if idx + bs.length ≤ b.length then some (b.take idx ++ bs ++ b.drop (idx + bs.length))
  else none

/-- Go: `UpdateDataLength`.  Returns the function result, the header and the buffer. -/
def UpdateDataLength (b : List Nat) (datlen : Nat) (head : ProtocolDataHeaderWritter) :
    Option (Nat × ProtocolDataHeaderWritter × List Nat) :=
  if !head.isValid then some (0, head, b)
  else
    let idx := head.startPos + 2 + 2
    let idx := if !head.shortClassId then idx + 2 else idx
    if head.shortLenMode then
      if datlen > 0xFFFF then some (0, { head with isValid := false }, b)
      else (putAt b idx (le16 datlen)).map (fun b1 => (2, head, b1))
    else (putAt b idx (le32 datlen)).map (fun b1 => (4, head, b1))

/-- Go: `WriteDataHead` for a non-nil descriptor. -/
def WriteDataHead (b : List Nat) (rtti : TRegRttiData) :
    ProtocolDataHeaderWritter × List Nat :=
  let sign := cSignFlag
  let cId := rtti.ClassId
  let shortClassId := decide (cId ≤ 0xFFFF)
  let shortLenMode := !rtti.BigData
  let startPos := b.length
  let sign := if !shortClassId then sign ||| 1 else sign
  let headerLength := if !shortClassId then 6 + 2 else 6
  let sign := if !shortLenMode then sign ||| 2 else sign
  let headerLength := if !shortLenMode then headerLength + 2 else headerLength
  let b := writeUint16 b sign
  let b := if shortClassId then writeUint16 b (cId % 65536) else writeUint32 b cId
  let b := if shortLenMode then writeUint16 b 0 else writeUint32 b 0
  ({ isValid := true, shortLenMode := shortLenMode, shortClassId := shortClassId,
     headerLength := headerLength, startPos := startPos }, b)

/-- Go: `WriteEmptyHeader`. -/
def WriteEmptyHeader (b : List Nat) : List Nat :=
  writeUint16 (writeUint16 (writeUint16 b cSignFlag) 0) 6

/-! ## Primitive reads and the header decoder (`protocolReader.go`) -/

/-- Go: `ProtocolDataHeader`. -/
structure ProtocolDataHeader where
  isValid : Bool
  headerLength : Nat
  classId : Nat
  dataLength : Nat
deriving DecidableEq, Repr

/-- Go: `ProtocolReader` (the `Error` field is never used). -/
structure ProtocolReader where
  buf : List Nat
  off : Nat
deriving DecidableEq, Repr

/-- Go: `NewProtocolReader`. -/
def NewProtocolReader (data : List Nat) : ProtocolReader := { buf := data, off := 0 }

/-- Go: `Len()`, the number of unread bytes; negative when `off` is past the end. -/
def ProtocolReader.Len (r : ProtocolReader) : Int := (r.buf.length : Int) - (r.off : Int)

/-- Go: `readUint16`.  The index expression `r.buf[r.off+1]` panics when out of range; when
it does not, `ok` is always `true`, so only the value is returned.  Buffer bytes are below
256, so `x | y<<8` is `x + y * 256`. -/
def readUint16 (r : ProtocolReader) : Option (Nat × ProtocolReader) :=
  match r.buf[r.off]?, r.buf[r.off + 1]? with
  | some b0, some b1 => some (b0 + b1 * 256, { r with off := r.off + 2 })
  | _, _ => none

/-- Go: `readUint32`; panics when `r.buf[r.off+3]` is out of range. -/
def readUint32 (r : ProtocolReader) : Option (Nat × ProtocolReader) :=
  match r.buf[r.off]?, r.buf[r.off + 1]?, r.buf[r.off + 2]?, r.buf[r.off + 3]? with
  | some b0, some b1, some b2, some b3 =>
    some (b0 + b1 * 256 + b2 * 65536 + b3 * 16777216, { r with off := r.off + 4 })
  | _, _, _, _ => none

/-- The header `ReadDataHead` starts from. -/
def ProtocolDataHeader.init : ProtocolDataHeader :=
  { isValid := false, headerLength := 0, classId := 0xFFFFFFFF, dataLength := 0 }

/-- Go: `ReadDataHead`.  Returns the header and the advanced reader; `none` is a panic. -/
def ReadDataHead (r : ProtocolReader) : Option (ProtocolDataHeader × ProtocolReader) :=
  let h0 := ProtocolDataHeader.init
  if r.Len < 6 then some (h0, r)
  else
    match readUint16 r with
    | none => none
    | some (sign, r1) =>
      if sign &&& cSignFlagMask ≠ cSignFlag then some (h0, r1)
      else
        let h1 := { h0 with headerLength := 6 }
        let rc : Option (ProtocolDataHeader × ProtocolReader) :=
          if sign &&& 1 = 1 then
            match readUint32 r1 with
            | none => none
            | some (c, r2) => some ({ h1 with headerLength := h1.headerLength + 2, classId := c }, r2)
          else
            match readUint16 r1 with
            | none => none
            | some (c, r2) => some ({ h1 with classId := c }, r2)
        match rc with
        | none => none
        | some (h2, r2) =>
          if sign &&& 2 = 2 then
            if r2.Len < 4 then some (h2, r2)
            else
              match readUint32 r2 with
              | none => none
              | some (d, r3) =>
                let h3 := { h2 with headerLength := h2.headerLength + 2, dataLength := d }
                some ({ h3 with isValid := decide (h3.dataLength ≥ h3.headerLength) }, r3)
          else
            if r2.Len < 2 then some (h2, r2)
            else
              match readUint16 r2 with
              | none => none
              | some (d, r3) =>
                let h3 := { h2 with dataLength := d }
                some ({ h3 with isValid := decide (h3.dataLength ≥ h3.headerLength) }, r3)

/-! ## Values

A record in memory is a tree: a primitive holds the bytes it occupies in memory (the host is
little-endian, so these are the little-endian bytes of the number), an array or slice holds
its elements, a pointer holds its target or is nil, and an interface holds its dynamic type
together with the value stored in it. -/

/-- A Go value of the supported field kinds. -/
inductive Value where
  | pod (bs : List Nat)
  | str (bs : List Nat)
  | arr (es : List Value)
  | slice (es : List Value)
  | struct (fs : List Value)
  | iface (dyn : RType) (v : Value)
  | nilIface
  | ptr (target : Value)
  | nilPtr
  | other
deriving Repr

mutual
/-- The bytes a primitive, or an array or slice of primitives, occupies in memory. -/
def Value.memBytes : Value → List Nat
  | .pod bs => bs
  | .arr es => memBytesList es
  | .slice es => memBytesList es
  | _ => []
/-- The memory of consecutive elements. -/
def memBytesList : List Value → List Nat
  | [] => []
  | v :: vs => v.memBytes ++ memBytesList vs
end

/-- The primitive fields of a struct as memory segments `(offset, bytes)`. -/
def structSegs : List TRegFieldOffsetData → List Value → List (Nat × List Nat)
  | fd :: fds, .pod bs :: vs => (fd.offset, bs) :: structSegs fds vs
  | _ :: fds, _ :: vs => structSegs fds vs
  | _, _ => []

/-- The byte at address `p` of a memory given by segments; bytes outside every segment
(padding, and memory the model does not describe) read as 0. -/
def segByte : List (Nat × List Nat) → Nat → Nat
  | [], _ => 0
  | (o, bs) :: rest, p =>
    if o ≤ p ∧ p < o + bs.length then bs.getD (p - o) 0 else segByte rest p

/-- The `n` bytes of memory starting at address `ptr`. -/
def memRead (segs : List (Nat × List Nat)) (ptr n : Nat) : List Nat :=
  (List.range n).map (fun i => segByte segs (ptr + i))

/-! ## The encoder (`protocolWritter.go`) -/

/-- The state the encoder mutates: the registry (for the `BigData` flags) and the buffer. -/
structure WState where
  reg : Registry
  buf : List Nat
deriving DecidableEq, Repr

/-- The current `BigData` flag of the descriptor named by `cid`. -/
def bigDataOf (reg : Registry) (cid : Nat) : Bool :=
  match reg.G_ClassId.lookup cid with
  | some d => d.BigData
  | none => false

/-- Go: `writeString`. -/
def writeString (b : List Nat) (s : List Nat) : List Nat :=
  let l := s.length % 65536
  let b := writeUint16 b l
  if l > 0 then Write b s else b

/-- Go: `writeMemory(ptr, len)`, reading the memory `segs`. -/
def writeMemory (b : List Nat) (segs : List (Nat × List Nat)) (ptr len : Nat) : List Nat :=
  if len ≤ 0 then b else Write b (memRead segs ptr len)

/-- Go: `writeStruct`, lines 201-343, for a non-nil `rttiData`.  `rtti` is the descriptor the
pointer `rttiData` points to (its `ClassId` and `FieldData` never change); the `BigData` flag
is read through the registry at the two places the Go code reads it.  `walk` is the field
loop of lines 213-323 on the record `ptr` points to, and is `none` when `ptr == nil`.
Returns the state and the pair `(n, err)`. -/
def writeStructWith (st : WState) (rtti : TRegRttiData)
    (walk : Option (WState → Option WState)) : Option (WState × Nat × Option String) :=
  let (head, b) := WriteDataHead st.buf { rtti with BigData := bigDataOf st.reg rtti.ClassId }
  if !head.isValid then some ({ st with buf := b }, 0, some "write protocol head error")
  else
    match walk with
    | none => some ({ st with buf := b }, 0, none)
    | some walk =>
      match walk { st with buf := b } with
      | none => none
      | some st1 =>
        match UpdateDataLength st1.buf ((st1.buf.length - head.startPos) % 4294967296) head with
        | none => none
        | some (_, head1, b1) =>
          if !head1.isValid then
            if !bigDataOf st1.reg rtti.ClassId then
              let reg2 := setBigData st1.reg rtti.ClassId
              let tmp := b1.drop (head1.startPos + head1.headerLength)
              let b2 := b1.take head1.startPos
              let (head2, b3) := WriteDataHead b2 { rtti with BigData := true }
              let b4 := b3.take head2.startPos ++ tmp
              match UpdateDataLength b4 ((b4.length - head2.startPos) % 4294967296) head2 with
              | none => none
              | some (_, _, b5) => some ({ reg := reg2, buf := b5 }, b5.length, none)
            else
              some ({ st1 with buf := b1.take head1.startPos }, 0, some "非bigData长度却超了")
          else some ({ st1 with buf := b1 }, b1.length, none)

/-- How Go stores a value in an interface.  A value of a pointer-shaped type (a pointer, a
map, channel or function, or a struct or array whose only element is pointer-shaped) is kept
in the data word of the interface itself; any other value is copied and the data word points
to the copy.  The result is `none` for a value that is copied, `some true` for a value kept in
the data word that is a nil pointer, and `some false` for a value kept in the data word that
is not nil, or of a kind the model does not describe (`other` covers the maps, channels and
functions). -/
def directWord : Value → Option Bool
  | .nilPtr => some true
  | .ptr _ => some false
  | .other => some false
  | .struct [v] => directWord v
  | .arr [v] => directWord v
  | _ => none

/-- Go: `GetRegRttiDataFromObj`, for an object of dynamic type `t`. -/
def GetRegRttiDataFromObj (reg : Registry) (t : RType) : Option TRegRttiData :=
  let tp := if t.Kind = .Ptr then t.Elem.getD t else t
  lookupDataClass reg tp

/-- What `PtrOf(obj)` is for the object handed to `writeAny`: a nil pointer, a pointer to a
record (given by the field loop over that record), or memory the model does not describe (a
value that is neither a struct nor a pointer to a struct). -/
inductive ObjPtr where
  | nil
  | record (walk : TRegRttiData → WState → Option WState)
  | unknown

/-- Go: `writeAny(obj)` for a non-nil interface of dynamic type `t`, lines 186-193.
Returns the state and `err`. -/
def writeAnyWith (st : WState) (t : RType) (p : ObjPtr) : Option (WState × Option String) :=
  match GetRegRttiDataFromObj st.reg t with
  | some rtti =>
    match p with
    | .nil => (writeStructWith st rtti none).map (fun x => (x.1, x.2.2))
    | .record walk => (writeStructWith st rtti (some (walk rtti))).map (fun x => (x.1, x.2.2))
    | .unknown => none
  | none => some (st, some "object isn't register")

mutual
/-- The field loop of `writeStruct` (lines 213-323) over the descriptor entries and the
field values from index `idx` on.  `skip` counts the entries a merged run has already
covered: `idx += podMergeCount` is one write followed by `podMergeCount - 1` skipped entries.
`segs` is the memory of the record being written. -/
def writeFields (segs : List (Nat × List Nat)) :
    List TRegFieldOffsetData → List Value → Nat → WState → Option WState
  | [], _, _, st => some st
  | _ :: _, [], _, _ => none
  | _ :: fds, _ :: vs, skip + 1, st => writeFields segs fds vs skip st
  | fd :: fds, v :: vs, 0, st =>
    if fd.podMergeCount ≤ 1 then
      match writeField segs fd v st with
      | none => none
      | some st1 => writeFields segs fds vs 0 st1
    else
      writeFields segs fds vs (fd.podMergeCount - 1)
        { st with buf := writeMemory st.buf segs fd.offset fd.podSize }

/-- One unmerged field (lines 217-317). -/
def writeField (segs : List (Nat × List Nat)) (fd : TRegFieldOffsetData) :
    Value → WState → Option WState
  | v, st =>
    if fd.isPod then some { st with buf := writeMemory st.buf segs fd.offset fd.podSize }
    else
      match fd.Kind with
      | .String =>
        match v with
        | .str s => some { st with buf := writeString st.buf s }
        | _ => none
      | .Array =>
        let st := { st with buf := writeUint32 st.buf fd.arrayLen }
        if isPod fd.arrayKind then
          some { st with buf := writeMemory st.buf [(0, v.memBytes)] 0 fd.podSize }
        else
          match v with
          | .arr es =>
            match fd.arrayKind with
            | .String => writeElems .String none es fd.arrayLen st
            | .Struct =>
              match fd.arrayType.bind (GetRegRttiDataFromType st.reg) with
              | some rtti => writeElems .Struct (some rtti) es fd.arrayLen st
              | none => some st
            | .Interface => writeElems .Interface none es fd.arrayLen st
            | .Ptr =>
              match fd.arrayType.bind (GetRegRttiDataFromType st.reg) with
              | some rtti => writeElems .Ptr (some rtti) es fd.arrayLen st
              | none => some st
            | _ => some st
          | _ => none
      | .Slice =>
        match v with
        | .slice es =>
          let st := { st with buf := writeUint32 st.buf (es.length % 4294967296) }
          if es.length = 0 then some st
          else if isPod fd.arrayKind then
            let n := es.length * fd.arraySize
            some { st with buf := writeMemory st.buf [(0, memBytesList es)] 0 n }
          else
            match fd.arrayKind with
            | .String => writeElems .String none es es.length st
            | .Struct =>
              match fd.arrayType.bind (GetRegRttiDataFromType st.reg) with
              | some rtti => writeElems .Struct (some rtti) es es.length st
              | none => some st
            | .Interface => writeElems .Interface none es es.length st
            | .Ptr =>
              match fd.arrayType.bind (GetRegRttiDataFromType st.reg) with
              | some rtti => writeElems .Ptr (some rtti) es es.length st
              | none => some st
            | _ => some st
        | _ => none
      | .Struct =>
        match lookupDataClass st.reg fd.typeHash with
        | some rtti =>
          match v with
          | .struct fs =>
            (writeStructWith st rtti
              (some (writeFields (structSegs rtti.FieldData fs) rtti.FieldData fs 0))).map
              (fun x => x.1)
          | _ => none
        | none => some st
      | .Interface =>
        match v with
        | .nilIface => none
        | .iface t inner => (writeAnyWith st t (ptrOfObj inner)).map (fun x => x.1)
        | _ => none
      | .Ptr =>
        match lookupDataClass st.reg fd.typeHash with
        | some rtti =>
          match v with
          | .nilPtr => some { st with buf := WriteEmptyHeader st.buf }
          | .ptr (.struct fs) =>
            (writeStructWith st rtti
              (some (writeFields (structSegs rtti.FieldData fs) rtti.FieldData fs 0))).map
              (fun x => x.1)
          | _ => none
        | none => some st
      | _ => some st

/-- The element loops of an array or slice field: `n` elements, of kind `ek`, taken from the
front of the list.  `rtti` is the descriptor looked up before the loop. -/
def writeElems (ek : Kind) (rtti : Option TRegRttiData) :
    List Value → Nat → WState → Option WState
  | _, 0, st => some st
  | [], _ + 1, _ => none
  | e :: es, n + 1, st =>
    match writeElem ek rtti e st with
    | none => none
    | some st1 => writeElems ek rtti es n st1

/-- One element of an array or slice field. -/
def writeElem (ek : Kind) (rtti : Option TRegRttiData) : Value → WState → Option WState
  | v, st =>
    match ek, rtti, v with
    | .String, _, .str s => some { st with buf := writeString st.buf s }
    | .Struct, some rtti, .struct fs =>
      (writeStructWith st rtti
        (some (writeFields (structSegs rtti.FieldData fs) rtti.FieldData fs 0))).map
        (fun x => x.1)
    | .Interface, _, .nilIface => none
    | .Interface, _, .iface t inner => (writeAnyWith st t (ptrOfObj inner)).map (fun x => x.1)
    | .Ptr, some _, .nilPtr => some { st with buf := WriteEmptyHeader st.buf }
    | .Ptr, some rtti, .ptr (.struct fs) =>
      (writeStructWith st rtti
        (some (writeFields (structSegs rtti.FieldData fs) rtti.FieldData fs 0))).map
        (fun x => x.1)
    | _, _, _ => none

/-- The record the data word of an interface points to (Go: `PtrOf(obj)`): the target of the
pointer stored in the interface, or the copy of the struct stored in it.  A struct of a
pointer-shaped type is not copied: the data word is then its pointer itself (`directWord`), so
`PtrOf` is nil for a nil pointer, and otherwise points to memory that is not a record of the
struct type. -/
def ptrOfObj : Value → ObjPtr
  | .struct fs =>
    match directWord (.struct fs) with
    | some true => .nil
    | some false => .unknown
    | none =>
      .record (fun rtti => writeFields (structSegs rtti.FieldData fs) rtti.FieldData fs 0)
  | .ptr (.struct fs) =>
    .record (fun rtti => writeFields (structSegs rtti.FieldData fs) rtti.FieldData fs 0)
  | .nilPtr => .nil
  | _ => .unknown
end

/-- Go: `writeAny(obj)`.  A nil interface makes `reflect.TypeOf(obj).Kind()` panic.
Returns the state and `err`. -/
def writeAny : Value → WState → Option (WState × Option String)
  | .nilIface, _ => none
  | .iface t inner, st => writeAnyWith st t (ptrOfObj inner)
  | _, _ => none

/-- Go: `writeStruct(ptr, rttiData)` for a pointer to the record with fields `fs`. -/
def writeStruct (st : WState) (fs : List Value) (rtti : TRegRttiData) :
    Option (WState × Nat × Option String) :=
  writeStructWith st rtti (some (writeFields (structSegs rtti.FieldData fs) rtti.FieldData fs 0))

/-- Go: `Marshal(v)`.  Returns the registry after the call and `(bytes, err)`. -/
def Marshal (reg : Registry) (v : Value) : Option (Registry × Except String (List Nat)) :=
  match writeAny v { reg := reg, buf := [] } with
  | none => none
  | some (st, none) => some (st.reg, .ok st.buf)
  | some (st, some err) => some (st.reg, .error err)

/-! ## The decoder (`protocolReader.go`) -/

/-- Why a run of the decoder model stops without a Go result: the Go code panics, or the
recursion budget of the model is used up. -/
inductive Fault where
  | panic
  | fuel
deriving DecidableEq, Repr

/-- The zero value of a type, given the zero values `zs` of the struct types. -/
def zeroOf (zs : Nat → Value) : RType → Value
  | .basic k =>
    if isPod k then .pod (List.replicate k.size 0)
    else if k = .String then .str []
    else if k = .Interface then .nilIface
    else .other
  | .array n e => .arr (List.replicate n (zeroOf zs e))
  | .slice _ => .slice []
  | .ptr _ => .nilPtr
  | .named id => zs id

/-- The zero value of the struct type `id`; the first argument bounds the depth of structs
nested by value, which is below the number of declared struct types. -/
def zeroStruct (env : TypeEnv) : Nat → Nat → Value
  | 0, _ => .other
  | f + 1, id =>
    match env[id]? with
    | some d => .struct (d.fields.map (fun x => zeroOf (zeroStruct env f) x.ftype))
    | none => .other

/-- The zeroed memory `reflect.New` and `reflect.MakeSlice` hand out. -/
def zeroValue (env : TypeEnv) (t : RType) : Value := zeroOf (zeroStruct env env.length) t

/-- The fields of the record a pointer points to. -/
def Value.fields : Value → List Value
  | .struct fs => fs
  | _ => []

/-- The elements of an array or slice. -/
def Value.elems : Value → List Value
  | .arr es => es
  | .slice es => es
  | _ => []

/-- The loop of `readMemory`, lines 119-122: `for i := 0; i < len; i += 64`.  Each round
takes the window `ss` at `ptr + i*64` and copies into it from `r.buf[r.off+i*64 : r.off+len]`;
the slice expression panics when its low bound exceeds its high bound.  The result lists the
copies made, as pairs of the destination offset from `ptr` and the bytes copied.  The first
argument bounds the number of rounds, which is at most `len`. -/
def readMemoryLoop (buf : List Nat) (off len : Nat) :
    Nat → Nat → List (Nat × List Nat) → Option (List (Nat × List Nat))
  | 0, _, acc => some acc
  | fuel + 1, i, acc =>
    if i < len then
      if off + i * 64 ≤ off + len then
        readMemoryLoop buf off len fuel (i + 64)
          (acc ++ [(i * 64, (((buf.take (off + len)).drop (off + i * 64)).take 64))])
      else none
    else some acc

/-- Go: `readMemory(ptr, len)`.  Returns `n`, the copies made into the memory at `ptr`, and
the advanced reader. -/
def readMemory (r : ProtocolReader) (len : Nat) :
    Except Fault (Nat × List (Nat × List Nat) × ProtocolReader) :=
  let n : Int := if r.Len < (len : Int) then r.Len else (len : Int)
  if n ≤ 0 then .ok (0, [], r)
  else
    match readMemoryLoop r.buf r.off n.toNat n.toNat 0 [] with
    | none => .error .panic
    | some ws => .ok (n.toNat, ws, { r with off := r.off + n.toNat })

/-- Apply one copy `w` (destination address, bytes) to the memory `bs` that starts at
address `base`. -/
def pokeAt (w : Nat × List Nat) : Nat → List Nat → List Nat
  | _, [] => []
  | base, x :: xs =>
    (if w.1 ≤ base ∧ base < w.1 + w.2.length then w.2.getD (base - w.1) x else x)
      :: pokeAt w (base + 1) xs

/-- Apply the copies `ws`, made relative to address `ptr`, to the memory `bs` at `base`. -/
def poke (ws : List (Nat × List Nat)) (ptr base : Nat) (bs : List Nat) : List Nat :=
  ws.foldl (fun cur w => pokeAt (ptr + w.1, w.2) base cur) bs

/-- Apply copies made at `ptr` to the primitive fields of a record. -/
def pokeStruct : List TRegFieldOffsetData → List Value → Nat → List (Nat × List Nat) → List Value
  | fd :: fds, .pod bs :: vs, ptr, ws => .pod (poke ws ptr fd.offset bs) :: pokeStruct fds vs ptr ws
  | _ :: fds, v :: vs, ptr, ws => v :: pokeStruct fds vs ptr ws
  | _, vs, _, _ => vs

/-- Cut memory into `n` primitives of width `w`. -/
def chunks (w : Nat) : Nat → List Nat → List Value
  | 0, _ => []
  | n + 1, bs => .pod (bs.take w) :: chunks w n (bs.drop w)

/-- Apply copies made at the start of an array of primitives of width `w`. -/
def pokeElems (w : Nat) (ws : List (Nat × List Nat)) (es : List Value) : List Value :=
  chunks w es.length (poke ws 0 0 (memBytesList es))

/-- Go: `readString`.  Returns `s`, `rn`, `ok` and the advanced reader. -/
def readString (r : ProtocolReader) : Except Fault (List Nat × Nat × Bool × ProtocolReader) :=
  match readUint16 r with
  | none => .error .panic
  | some (l, r1) =>
    if l > 0 ∧ r1.Len ≥ (l : Int) then
      .ok ((r1.buf.drop r1.off).take l, stringLenSize + l, true, { r1 with off := r1.off + l })
    else .ok ([], stringLenSize, false, r1)

/-- The type of `readVal`: header, the fields of the record at `ptr`, descriptor, reader;
returns `ok`, the fields after the call and the reader after the call (the count `n` is
dropped: no caller uses it). -/
abbrev ReadValFn :=
  ProtocolDataHeader → List Value → TRegRttiData → ProtocolReader →
    Except Fault (Bool × List Value × ProtocolReader)

/-- Go: `readAny`, with `rv` for the call of `readVal`.  Returns `(value, err)` and the
reader. -/
def readAnyWith (rv : ReadValFn) (env : TypeEnv) (reg : Registry) (r : ProtocolReader) :
    Except Fault (Except String Value × ProtocolReader) :=
  let starPos := r.off
  match ReadDataHead r with
  | none => .error .panic
  | some (dataHead, r1) =>
    if !dataHead.isValid then .ok (.error "读取数据头错误", r1)
    else if ((r1.buf.length : Int) - (starPos : Int)) % 4294967296 < (dataHead.dataLength : Int)
    then .ok (.error "读取数据头错误", r1)
    else
      match GetRegRttiDataByClassId reg dataHead.classId with
      | none => .ok (.error "object isn't register", r1)
      | some rttiData =>
        if dataHead.dataLength = dataHead.headerLength then .ok (.ok .nilIface, r1)
        else
          match rv dataHead (zeroValue env rttiData.rType).fields rttiData r1 with
          | .error f => .error f
          | .ok (true, fs, r2) =>
            .ok (.ok (.iface (.ptr rttiData.rType) (.ptr (.struct fs))), r2)
          | .ok (false, _, r2) => .ok (.error "解析失败", r2)

/-- Go: `readStruct(rttiType, ptr)`; `v` is the record at `ptr`.  Returns the result, the
record afterwards and the reader. -/
def readStructWith (rv : ReadValFn) (reg : Registry) (rttiType : Option RType) (v : Value)
    (r : ProtocolReader) : Except Fault (Bool × Value × ProtocolReader) :=
  match ReadDataHead r with
  | none => .error .panic
  | some (arrHead, r1) =>
    if !arrHead.isValid then .ok (false, v, r1)
    else
      match GetRegRttiDataByClassId reg arrHead.classId with
      | none => .ok (false, v, r1)
      | some filedRttiData =>
        if some filedRttiData.rType ≠ rttiType then .ok (false, v, r1)
        else
          match rv arrHead v.fields filedRttiData r1 with
          | .error f => .error f
          | .ok (ok, fs, r2) => .ok (ok, .struct fs, r2)

/-- Go: `readPointer(tyhash, ptr)`; `v` is the pointer variable at `ptr`. -/
def readPointerWith (rv : ReadValFn) (env : TypeEnv) (reg : Registry) (tyhash : Option RType)
    (v : Value) (r : ProtocolReader) : Except Fault (Bool × Value × ProtocolReader) :=
  match ReadDataHead r with
  | none => .error .panic
  | some (fieldHead, r1) =>
    if !fieldHead.isValid then .ok (false, v, r1)
    else
      match tyhash.bind (lookupDataClass reg) with
      | none => .ok (false, v, r1)
      | some filedRttiData =>
        if filedRttiData.ClassId ≠ fieldHead.classId then .ok (false, v, r1)
        else if fieldHead.dataLength > fieldHead.headerLength then
          let target := match v with
            | .ptr t => t
            | _ => zeroValue env filedRttiData.rType
          match rv fieldHead target.fields filedRttiData r1 with
          | .error f => .error f
          | .ok (_, fs, r2) => .ok (true, .ptr (.struct fs), r2)
        else .ok (true, v, r1)

/-- The state of an element loop: `ok`, the elements, `readLen` and the reader. -/
abbrev ElemRes := Except Fault (Bool × List Value × Nat × ProtocolReader)

/-- A loop `for i := 0; i < arrlen; i++` over the elements of an array or slice; a round
that reports `false` is the `return r.off - startPos, false` of the Go code. -/
def elemLoop (step : Nat → List Value → Nat → ProtocolReader → ElemRes) :
    Nat → Nat → List Value → Nat → ProtocolReader → ElemRes
  | 0, _, es, readLen, r => .ok (true, es, readLen, r)
  | n + 1, i, es, readLen, r =>
    match step i es readLen r with
    | .error f => .error f
    | .ok (false, es1, rl1, r1) => .ok (false, es1, rl1, r1)
    | .ok (true, es1, rl1, r1) => elemLoop step n (i + 1) es1 rl1 r1

/-- One round over string elements (lines 259-275 and 350-356): elements at `i < limit`
are stored, later ones are read and dropped. -/
def strStep (limit : Nat) (i : Nat) (es : List Value) (readLen : Nat) (r : ProtocolReader) :
    ElemRes :=
  match readString r with
  | .error f => .error f
  | .ok (s, slen, ok, r1) =>
    let es1 := if i < limit then es.set i (.str s) else es
    if !ok then .ok (false, es1, readLen, r1) else .ok (true, es1, readLen + slen, r1)

/-- One round over struct elements (lines 277-291 and 359-365). -/
def structStep (rv : ReadValFn) (env : TypeEnv) (reg : Registry) (arrayType : Option RType)
    (limit startPos : Nat) (i : Nat) (es : List Value) (readLen : Nat) (r : ProtocolReader) :
    ElemRes :=
  if i < limit then
    match readStructWith rv reg arrayType (es.getD i .other) r with
    | .error f => .error f
    | .ok (ok, v, r1) =>
      if !ok then .ok (false, es.set i v, readLen, r1)
      else .ok (true, es.set i v, r1.off - startPos, r1)
  else
    match readAnyWith rv env reg r with
    | .error f => .error f
    | .ok (.error _, r1) => .ok (false, es, readLen, r1)
    | .ok (.ok _, r1) => .ok (true, es, r1.off - startPos, r1)

/-- One round over interface elements (lines 293-302 and 367-374). -/
def ifaceStep (rv : ReadValFn) (env : TypeEnv) (reg : Registry)
    (limit startPos : Nat) (i : Nat) (es : List Value) (readLen : Nat) (r : ProtocolReader) :
    ElemRes :=
  match readAnyWith rv env reg r with
  | .error f => .error f
  | .ok (.error _, r1) => .ok (false, es, readLen, r1)
  | .ok (.ok obj, r1) =>
    .ok (true, if i < limit then es.set i obj else es, r1.off - startPos, r1)

/-- One round over pointer elements (lines 304-318 and 376-382). -/
def ptrStep (rv : ReadValFn) (env : TypeEnv) (reg : Registry) (arrayType : Option RType)
    (limit startPos : Nat) (i : Nat) (es : List Value) (readLen : Nat) (r : ProtocolReader) :
    ElemRes :=
  if i < limit then
    match readPointerWith rv env reg arrayType (es.getD i .other) r with
    | .error f => .error f
    | .ok (ok, v, r1) =>
      if !ok then .ok (false, es.set i v, readLen, r1)
      else .ok (true, es.set i v, r1.off - startPos, r1)
  else
    match readAnyWith rv env reg r with
    | .error f => .error f
    | .ok (.error _, r1) => .ok (false, es, readLen, r1)
    | .ok (.ok _, r1) => .ok (true, es, r1.off - startPos, r1)

/-- How the body of the field loop ends: `idx++` and the next round, a `break` out of the
loop, or `return r.off - startPos, false`. -/
inductive Flow where
  | next
  | brk
  | ret
deriving DecidableEq, Repr

/-- The result of one round of the field loop: the flow, the fields, `readLen`, the reader. -/
abbrev FieldRes := Except Fault (Flow × List Value × Nat × ProtocolReader)

/-- Turn the result of an element loop into the result of the field round, storing the
elements with `mk` in field `idx`. -/
def elemsToField (mk : List Value → Value) (fs : List Value) (idx : Nat) : ElemRes → FieldRes
  | .error f => .error f
  | .ok (true, es, rl, r) => .ok (.next, fs.set idx (mk es), rl, r)
  | .ok (false, es, rl, r) => .ok (.ret, fs.set idx (mk es), rl, r)

/-- The element loops of an array or slice field whose elements are not primitives
(lines 257-319 and 348-383); `limit` is the number of element slots. -/
def readElemsWith (rv : ReadValFn) (env : TypeEnv) (reg : Registry) (fd : TRegFieldOffsetData)
    (limit startPos arrlen : Nat) (es : List Value) (readLen : Nat) (r : ProtocolReader) :
    ElemRes :=
  match fd.arrayKind with
  | .String => elemLoop (strStep limit) arrlen 0 es readLen r
  | .Struct => elemLoop (structStep rv env reg fd.arrayType limit startPos) arrlen 0 es readLen r
  | .Interface => elemLoop (ifaceStep rv env reg limit startPos) arrlen 0 es readLen r
  | .Ptr => elemLoop (ptrStep rv env reg fd.arrayType limit startPos) arrlen 0 es readLen r
  | _ => .ok (true, es, readLen, r)

/-- One unmerged field of `readVal` (lines 211-406).  `all` is the whole field vector (the
layout of the record), `fs` the fields of the record at `ptr`. -/
def readFieldWith (rv : ReadValFn) (env : TypeEnv) (reg : Registry)
    (all : List TRegFieldOffsetData) (fd : TRegFieldOffsetData) (idx startPos datalen : Nat)
    (fs : List Value) (readLen : Nat) (r : ProtocolReader) : FieldRes :=
  if fd.isPod then
    match readMemory r fd.podSize with
    | .error f => .error f
    | .ok (rn, ws, r1) =>
      if rn ≠ fd.podSize then .ok (.brk, pokeStruct all fs fd.offset ws, readLen + rn, r1)
      else .ok (.next, pokeStruct all fs fd.offset ws, readLen + fd.podSize, r1)
  else
    match fd.Kind with
    | .String =>
      if readLen + stringLenSize > datalen then .ok (.next, fs, readLen, r)
      else
        match readString r with
        | .error f => .error f
        | .ok (s, slen, ok, r1) =>
          if !ok then .ok (.ret, fs.set idx (.str s), readLen, r1)
          else .ok (.next, fs.set idx (.str s), readLen + slen, r1)
    | .Array =>
      if readLen + arrayLenSize > datalen then .ok (.next, fs, readLen, r)
      else
        match readUint32 r with
        | none => .error .panic
        | some (arrlen, r1) =>
          let readLen := readLen + arrayLenSize
          let es := (fs.getD idx .other).elems
          if isPod fd.arrayKind then
            let arrDataLen := arrlen * fd.arraySize
            if arrDataLen ≤ fd.podSize then
              match readMemory r1 arrDataLen with
              | .error f => .error f
              | .ok (rn, ws, r2) =>
                let fs1 := fs.set idx (.arr (pokeElems fd.arraySize ws es))
                if rn ≠ arrDataLen then .ok (.ret, fs1, readLen, r2)
                else .ok (.next, fs1, readLen + arrDataLen, r2)
            else
              let newIdx := r1.off + arrDataLen
              match readMemory r1 fd.podSize with
              | .error f => .error f
              | .ok (rn, ws, r2) =>
                let fs1 := fs.set idx (.arr (pokeElems fd.arraySize ws es))
                if rn ≠ fd.podSize then .ok (.ret, fs1, readLen, r2)
                else .ok (.next, fs1, newIdx - startPos, { r2 with off := newIdx })
          else
            elemsToField .arr fs idx
              (readElemsWith rv env reg fd fd.arrayLen startPos arrlen es readLen r1)
    | .Slice =>
      if readLen + arrayLenSize > datalen then .ok (.next, fs, readLen, r)
      else
        match readUint32 r with
        | none => .error .panic
        | some (arrlen, r1) =>
          let readLen := readLen + arrayLenSize
          if arrlen = 0 then .ok (.next, fs, readLen, r1)
          else
            let es := List.replicate arrlen
              (match fd.arrayType with
               | some t => zeroValue env t
               | none => .other)
            if isPod fd.arrayKind then
              let arrDataLen := arrlen * fd.arraySize
              match readMemory r1 arrDataLen with
              | .error f => .error f
              | .ok (rn, ws, r2) =>
                let fs1 := fs.set idx (.slice (pokeElems fd.arraySize ws es))
                if rn ≠ arrDataLen then .ok (.ret, fs1, readLen, r2)
                else .ok (.next, fs1, readLen + arrDataLen, r2)
            else
              elemsToField .slice fs idx
                (readElemsWith rv env reg fd arrlen startPos arrlen es readLen r1)
    | .Struct =>
      match readStructWith rv reg (some fd.rType) (fs.getD idx .other) r with
      | .error f => .error f
      | .ok (ok, v, r1) =>
        if !ok then .ok (.ret, fs.set idx v, readLen, r1)
        else .ok (.next, fs.set idx v, r1.off - startPos, r1)
    | .Interface =>
      match readAnyWith rv env reg r with
      | .error f => .error f
      | .ok (.error _, r1) => .ok (.ret, fs, readLen, r1)
      | .ok (.ok obj, r1) => .ok (.next, fs.set idx obj, r1.off - startPos, r1)
    | .Ptr =>
      match readPointerWith rv env reg (some fd.typeHash) (fs.getD idx .other) r with
      | .error f => .error f
      | .ok (ok, v, r1) =>
        if !ok then .ok (.ret, fs.set idx v, readLen, r1)
        else .ok (.next, fs.set idx v, r1.off - startPos, r1)
    | _ => .ok (.next, fs, readLen, r)

/-- The field loop of `readVal` (lines 204-417) from index `idx` on; `skip` counts the
entries a merged run has already covered.  The result `true` is the normal end of the loop
(by `break` or by running out of fields), `false` an early return. -/
def readFieldsWith (rv : ReadValFn) (env : TypeEnv) (reg : Registry)
    (all : List TRegFieldOffsetData) (startPos datalen : Nat) :
    List TRegFieldOffsetData → Nat → Nat → List Value → Nat → ProtocolReader →
      Except Fault (Bool × List Value × ProtocolReader)
  | [], _, _, fs, _, r => .ok (true, fs, r)
  | _ :: rest, idx, skip + 1, fs, readLen, r =>
    readFieldsWith rv env reg all startPos datalen rest (idx + 1) skip fs readLen r
  | fd :: rest, idx, 0, fs, readLen, r =>
    if readLen ≥ datalen then .ok (true, fs, r)
    else if fd.podMergeCount ≤ 1 then
      match readFieldWith rv env reg all fd idx startPos datalen fs readLen r with
      | .error f => .error f
      | .ok (.next, fs1, rl1, r1) =>
        readFieldsWith rv env reg all startPos datalen rest (idx + 1) 0 fs1 rl1 r1
      | .ok (.brk, fs1, _, r1) => .ok (true, fs1, r1)
      | .ok (.ret, fs1, _, r1) => .ok (false, fs1, r1)
    else
      match readMemory r fd.podSize with
      | .error f => .error f
      | .ok (rn, ws, r1) =>
        if rn ≠ fd.podSize then .ok (true, pokeStruct all fs fd.offset ws, r1)
        else
          readFieldsWith rv env reg all startPos datalen rest (idx + 1) (fd.podMergeCount - 1)
            (pokeStruct all fs fd.offset ws) (readLen + rn) r1

/-- Go: `readVal` for a non-nil descriptor, with `rv` for the nested calls of `readVal`. -/
def readValWith (rv : ReadValFn) (env : TypeEnv) (reg : Registry) : ReadValFn :=
  fun dataHead fs rttiData r =>
    let datalen := dataHead.dataLength
    let readLen := dataHead.headerLength
    let startPos := r.off - readLen
    match readFieldsWith rv env reg rttiData.FieldData startPos datalen rttiData.FieldData 0 0
        fs readLen r with
    | .error f => .error f
    | .ok (false, fs1, r1) => .ok (false, fs1, r1)
    | .ok (true, fs1, r1) => .ok (true, fs1, { r1 with off := startPos + dataHead.dataLength })

/-- Go: `readVal`.  The first argument bounds the nesting depth of frames; every nested
frame starts at least 6 bytes after its parent and needs 6 unread bytes, so the depth stays
below the buffer length. -/
def readVal (env : TypeEnv) (reg : Registry) : Nat → ReadValFn
  | 0 => fun _ _ _ _ => .error .fuel
  | f + 1 => readValWith (readVal env reg f) env reg

/-- Go: `readAny`. -/
def readAny (env : TypeEnv) (reg : Registry) (fuel : Nat) (r : ProtocolReader) :
    Except Fault (Except String Value × ProtocolReader) :=
  readAnyWith (readVal env reg fuel) env reg r

/-- Go: `Unmarshal(data)`. -/
def Unmarshal (env : TypeEnv) (reg : Registry) (data : List Nat) :
    Except Fault (Except String Value) :=
  match readAny env reg data.length (NewProtocolReader data) with
  | .error f => .error f
  | .ok (res, _) => .ok res

/-! ## Notions used to state the properties -/

/-- The header bytes for a class id `c` and a length `d`, in the form chosen by the flags. -/
def headerBytes (longC longL : Bool) (c d : Nat) : List Nat :=
  le16 (cSignFlag + (if longC then 1 else 0) + (if longL then 2 else 0))
    ++ (if longC then le32 c else le16 c) ++ (if longL then le32 d else le16 d)

/-- The length of a header in the form chosen by the flags. -/
def headerLen (longC longL : Bool) : Nat :=
  6 + (if longC then 2 else 0) + (if longL then 2 else 0)

/-- The little-endian 16-bit value at index `i` of a buffer. -/
def u16At (buf : List Nat) (i : Nat) : Nat := buf.getD i 0 + buf.getD (i + 1) 0 * 256

/-- The little-endian 32-bit value at index `i` of a buffer. -/
def u32At (buf : List Nat) (i : Nat) : Nat :=
  buf.getD i 0 + buf.getD (i + 1) 0 * 256 + buf.getD (i + 2) 0 * 65536
    + buf.getD (i + 3) 0 * 16777216

/-- What the promotion path of `writeStruct` leaves after the bytes that were in the buffer
before the record: the payload `p`, with the four bytes at the place of the length field of a
header overwritten by the payload length. -/
def promoOut (longC : Bool) (p : List Nat) : List Nat :=
  p.take (if longC then 6 else 4) ++ le32 (p.length % 4294967296)
    ++ p.drop ((if longC then 6 else 4) + 4)

/-- The encoder state `st'` extends `st`: the buffer has only grown at its end, and no
`BigData` flag that was set has been cleared. -/
def Ext (st st' : WState) : Prop :=
  (∃ p, st'.buf = st.buf ++ p) ∧
    ∀ cid, bigDataOf st.reg cid = true → bigDataOf st'.reg cid = true

/-- The field loop over the record `fs` only extends the encoder state. -/
def FieldsOk (fs : List Value) : Prop :=
  ∀ segs fds skip s s', writeFields segs fds fs skip s = some s' → Ext s s'

/-- The element loops over `es` only extend the encoder state. -/
def ElemsOk (es : List Value) : Prop :=
  ∀ ek rtti n s s', writeElems ek rtti es n s = some s' → Ext s s'

/-- Encoding the record an interface value points to only extends the encoder state. -/
def PtrOk (v : Value) : Prop :=
  ∀ w, ptrOfObj v = .record w → ∀ rtti s s', w rtti s = some s' → Ext s s'

/-- The nested calls of `readVal` never move the reader backwards, for a header whose
`DataLength` covers the header itself and a reader that stands behind that header. -/
def RvMono (rv : ReadValFn) : Prop :=
  ∀ h fs rtti r b fs' r', h.headerLength ≤ h.dataLength → h.headerLength ≤ r.off →
    rv h fs rtti r = .ok (b, fs', r') → r.off ≤ r'.off

/-- What a round of an element loop guarantees: the reader does not move backwards, and a
round that succeeds keeps `readLen` equal to the distance from the frame start. -/
def StepInv (startPos : Nat) (step : Nat → List Value → Nat → ProtocolReader → ElemRes) :
    Prop :=
  ∀ i es rl r b es1 rl1 r1, step i es rl r = .ok (b, es1, rl1, r1) →
    r.off ≤ r1.off ∧ (b = true → rl + startPos = r.off → rl1 + startPos = r1.off)

/-- The nested calls of `readVal` leave the buffer of the reader as it is. -/
def RvBuf (rv : ReadValFn) : Prop :=
  ∀ h fs rtti r b fs' r', rv h fs rtti r = .ok (b, fs', r') → r'.buf = r.buf

/-- A round of an element loop leaves the buffer of the reader as it is. -/
def StepBuf (step : Nat → List Value → Nat → ProtocolReader → ElemRes) : Prop :=
  ∀ i es rl r b es1 rl1 r1, step i es rl r = .ok (b, es1, rl1, r1) → r1.buf = r.buf

/-- Two buffers `B` and `C` that carry the same bytes behind a prefix of `p`, respectively
`q`, bytes. -/
structure Moved where
  p : Nat
  q : Nat
  B : List Nat
  C : List Nat
  same : B.drop p = C.drop q
  hp : p ≤ B.length
  hq : q ≤ C.length

/-- The reader of `C` that stands where `r` stands in `B`. -/
def Moved.sh (M : Moved) (r : ProtocolReader) : ProtocolReader :=
  { buf := M.C, off := r.off - M.p + M.q }

/-- A reader of `B` that stands behind the prefix. -/
def Moved.Good (M : Moved) (r : ProtocolReader) : Prop := r.buf = M.B ∧ M.p ≤ r.off

/-- Apply `σ` to the reader of a result. -/
def sh1 {α : Type} (σ : ProtocolReader → ProtocolReader) (x : α × ProtocolReader) :
    α × ProtocolReader := (x.1, σ x.2)

/-- Apply `σ` to the reader of a result. -/
def sh2 {α β : Type} (σ : ProtocolReader → ProtocolReader) (x : α × β × ProtocolReader) :
    α × β × ProtocolReader := (x.1, x.2.1, σ x.2.2)

/-- Apply `σ` to the reader of a result. -/
def sh3 {α β γ : Type} (σ : ProtocolReader → ProtocolReader) (x : α × β × γ × ProtocolReader) :
    α × β × γ × ProtocolReader := (x.1, x.2.1, x.2.2.1, σ x.2.2.2)

/-- Apply `σ` to the reader of a round of a loop and add `a` to its `readLen`. -/
def shRound {α β : Type} (a : Nat) (σ : ProtocolReader → ProtocolReader)
    (x : α × β × Nat × ProtocolReader) : α × β × Nat × ProtocolReader :=
  (x.1, x.2.1, x.2.2.1 + a, σ x.2.2.2)

/-- The nested calls `rv` over `B` and `rv'` over `C` agree, for a reader behind `lo`. -/
def Moved.RvSh (M : Moved) (lo : Nat) (rv rv' : ReadValFn) : Prop :=
  ∀ h fs rtti r, M.Good r → lo < r.off → r.off ≤ M.B.length →
    h.headerLength ≤ h.dataLength → M.p + h.headerLength ≤ r.off →
    rv' h fs rtti (M.sh r) = (rv h fs rtti r).map (sh2 M.sh)

/-- The rounds `step` over `B` and `step'` over `C` of an element loop agree, where the
frame starts `a` bytes earlier, relative to the payload, in `C`. -/
def Moved.StepSh (M : Moved) (a lo startPos : Nat)
    (step step' : Nat → List Value → Nat → ProtocolReader → ElemRes) : Prop :=
  ∀ i es rl r, M.Good r → lo ≤ r.off → startPos ≤ r.off →
    step' i es (rl + a) (M.sh r) = (step i es rl r).map (shRound a M.sh)

/-- The nested calls of `readVal` over the buffer `B` do not stop for lack of depth, for a
reader behind `lo`. -/
def RvFuel (B : List Nat) (lo : Nat) (rv : ReadValFn) : Prop :=
  ∀ h fs rtti r, r.buf = B → lo < r.off → r.off ≤ B.length →
    rv h fs rtti r ≠ .error .fuel

/-- A round of an element loop over `B` does not stop for lack of depth. -/
def StepFuel (B : List Nat) (lo : Nat)
    (step : Nat → List Value → Nat → ProtocolReader → ElemRes) : Prop :=
  ∀ i es rl r, r.buf = B → lo ≤ r.off → step i es rl r ≠ .error .fuel

/-! ## Worked examples -/

/-- Struct declarations used by the worked examples (64-bit layout):
`0: {a int32}`, `1: {n int32; s string}`, `2: {s string}`, `3: {p *T0}`,
`4: {x interface{}}`, `5: {s string}`. -/
def exEnv : TypeEnv :=
  [ { fields := [⟨.basic .Int32, 0⟩], size := 4 },
    { fields := [⟨.basic .Int32, 0⟩, ⟨.basic .String, 8⟩], size := 24 },
    { fields := [⟨.basic .String, 0⟩], size := 16 },
    { fields := [⟨.ptr (.named 0), 0⟩], size := 8 },
    { fields := [⟨.basic .Interface, 0⟩], size := 16 },
    { fields := [⟨.basic .String, 0⟩], size := 16 } ]

/-- Register the listed `(class id, exemplar type)` pairs in order, starting from `reg`. -/
def registerAll (env : TypeEnv) : List (Nat × RType) → Registry → Option Registry
  | [], reg => some reg
  | (id, tp) :: rest, reg =>
    match RegisterDataClass env reg id tp with
    | some reg1 => registerAll env rest reg1
    | none => none

/-- The registry of the worked examples. -/
def exReg : Registry :=
  (registerAll exEnv
    [(1000, .ptr (.named 0)), (7, .ptr (.named 1)), (2000, .ptr (.named 2)),
     (8, .ptr (.named 3)), (9, .ptr (.named 4)), (70000, .ptr (.named 5))]
    Registry.empty).getD Registry.empty

/-- Struct declarations of the further examples (64-bit layout):
`0: {a int32; b int32}`, `1: {xs []uint8}`, `2: {a int32; z [0]int32; b int32}`,
`3: {ss [1]string}`, `4: {w [9]int64}`, `5: {v [2]int32; t int32}`. -/
def exEnv2 : TypeEnv :=
  [ { fields := [⟨.basic .Int32, 0⟩, ⟨.basic .Int32, 4⟩], size := 8 },
    { fields := [⟨.slice (.basic .Uint8), 0⟩], size := 24 },
    { fields := [⟨.basic .Int32, 0⟩, ⟨.array 0 (.basic .Int32), 4⟩, ⟨.basic .Int32, 4⟩],
      size := 8 },
    { fields := [⟨.array 1 (.basic .String), 0⟩], size := 16 },
    { fields := [⟨.array 9 (.basic .Int64), 0⟩], size := 72 },
    { fields := [⟨.array 2 (.basic .Int32), 0⟩, ⟨.basic .Int32, 8⟩], size := 12 } ]

/-- The registry of the further examples: class id `i + 1` for the struct type `i`. -/
def exReg2 : Registry :=
  (registerAll exEnv2
    [(1, .ptr (.named 0)), (2, .ptr (.named 1)), (3, .ptr (.named 2)), (4, .ptr (.named 3)),
     (5, .ptr (.named 4)), (6, .ptr (.named 5))]
    Registry.empty).getD Registry.empty

/-- The field vector with every merge undone: each entry stands for its own field only and
has the width of its own type.  Walking it emits every declared field individually, in
declaration order. -/
def unmergedFieldData (env : TypeEnv) (fds : List TRegFieldOffsetData) :
    List TRegFieldOffsetData :=
  fds.map (fun fd => { fd with podMergeCount := 1, podSize := fd.rType.Size env })

/-- Struct declarations of the examples with a nested record:
`0: {a int32}`, `1: {inner T0}`. -/
def exEnv3 : TypeEnv :=
  [ { fields := [⟨.basic .Int32, 0⟩], size := 4 },
    { fields := [⟨.named 0, 0⟩], size := 4 } ]

/-- A registry in which the record type `T0` is registered under the class ids 10 and 11,
and `T1` under 20. -/
def exReg3 : Registry :=
  (registerAll exEnv3
    [(10, .ptr (.named 0)), (11, .ptr (.named 0)), (20, .ptr (.named 1))]
    Registry.empty).getD Registry.empty

/-! ## Reading and writing headers -/

theorem getElem?_of_drop {buf : List Nat} {off : Nat} {suffix : List Nat}
    (h : buf.drop off = suffix) (k : Nat) : buf[off + k]? = suffix[k]? := by
  rw [← h, List.getElem?_drop]

theorem readUint16_of_drop (r : ProtocolReader) (a b : Nat) (rest : List Nat)
    (h : r.buf.drop r.off = a :: b :: rest) :
    readUint16 r = some (a + b * 256, { r with off := r.off + 2 }) := by
  have h0 := getElem?_of_drop h 0
  have h1 := getElem?_of_drop h 1
  simp at h0 h1
  simp [readUint16, h0, h1]

theorem readUint32_of_drop (r : ProtocolReader) (a b c d : Nat) (rest : List Nat)
    (h : r.buf.drop r.off = a :: b :: c :: d :: rest) :
    readUint32 r = some (a + b * 256 + c * 65536 + d * 16777216, { r with off := r.off + 4 }) := by
  have h0 := getElem?_of_drop h 0
  have h1 := getElem?_of_drop h 1
  have h2 := getElem?_of_drop h 2
  have h3 := getElem?_of_drop h 3
  simp at h0 h1 h2 h3
  simp [readUint32, h0, h1, h2, h3]

theorem drop_add_of_drop {buf : List Nat} {off : Nat} {pre suffix : List Nat}
    (h : buf.drop off = pre ++ suffix) : buf.drop (off + pre.length) = suffix := by
  rw [← List.drop_drop, h]; simp

theorem len_of_drop {buf : List Nat} {off : Nat} {suffix : List Nat}
    (h : buf.drop off = suffix) (hne : suffix ≠ []) : buf.length = off + suffix.length := by
  have := congrArg List.length h
  simp at this
  have : off < buf.length := by
    by_contra hc
    have : buf.drop off = [] := List.drop_eq_nil_of_le (by omega)
    rw [this] at h; exact hne h.symm
  omega

theorem putAt_mid (a x c y : List Nat) (h : x.length = y.length) :
    putAt (a ++ x ++ c) a.length y = some (a ++ y ++ c) := by
  simp [putAt, h, List.take_append_eq_append_take, List.drop_append_eq_append_drop]

theorem drop_len_append (pre x : List Nat) (k : Nat) :
    (pre ++ x).drop (pre.length + k) = x.drop k := by
  rw [← List.drop_drop]; simp

theorem ReadDataHead_headerBytes (pre rest : List Nat) (longC longL : Bool) (c d : Nat)
    (hc : c < if longC then 4294967296 else 65536)
    (hd : d < if longL then 4294967296 else 65536) :
    ReadDataHead { buf := pre ++ (headerBytes longC longL c d ++ rest), off := pre.length }
      = some ({ isValid := decide (headerLen longC longL ≤ d),
                headerLength := headerLen longC longL, classId := c, dataLength := d },
              { buf := pre ++ (headerBytes longC longL c d ++ rest),
                off := pre.length + headerLen longC longL }) := by
  have hA : 28056 &&& 65532 = 28056 := by decide
  have hB : 28057 &&& 65532 = 28056 := by decide
  have hC : 28058 &&& 65532 = 28056 := by decide
  have hD : 28059 &&& 65532 = 28056 := by decide
  have h1A : 28056 &&& 1 = 0 := by decide
  have h1B : 28057 &&& 1 = 1 := by decide
  have h1C : 28058 &&& 1 = 0 := by decide
  have h1D : 28059 &&& 1 = 1 := by decide
  have h2A : 28056 &&& 2 = 0 := by decide
  have h2B : 28057 &&& 2 = 0 := by decide
  have h2C : 28058 &&& 2 = 2 := by decide
  have h2D : 28059 &&& 2 = 2 := by decide
  cases longC <;> cases longL <;> simp only [if_true, if_false, Bool.false_eq_true] at hc hd
  · have e0 := readUint16_of_drop
      { buf := pre ++ (headerBytes false false c d ++ rest), off := pre.length }
      152 109 (le16 c ++ le16 d ++ rest) (by simp [headerBytes, le16, cSignFlag])
    have e1 := readUint16_of_drop
      { buf := pre ++ (headerBytes false false c d ++ rest), off := pre.length + 2 }
      (c % 256) (c / 256 % 256) (le16 d ++ rest)
      (by simp [headerBytes, le16, cSignFlag, drop_len_append])
    have e2 := readUint16_of_drop
      { buf := pre ++ (headerBytes false false c d ++ rest), off := pre.length + 2 + 2 }
      (d % 256) (d / 256 % 256) rest
      (by simp [headerBytes, le16, cSignFlag, Nat.add_assoc, drop_len_append])
    have hc' : c % 256 + c / 256 % 256 * 256 = c := by omega
    have hd' : d % 256 + d / 256 % 256 * 256 = d := by omega
    simp only [ReadDataHead, e0]
    simp [cSignFlag, cSignFlagMask, headerBytes, headerLen, le16, ProtocolDataHeader.init,
      ProtocolReader.Len, hA, h1A, h2A, hc', hd'] at e1 e2 ⊢
    simp [e1, e2, hc', hd']
    rw [if_neg (by omega), if_neg (by omega)]
  · have e0 := readUint16_of_drop
      { buf := pre ++ (headerBytes false true c d ++ rest), off := pre.length }
      154 109 (le16 c ++ le32 d ++ rest) (by simp [headerBytes, le16, le32, cSignFlag])
    have e1 := readUint16_of_drop
      { buf := pre ++ (headerBytes false true c d ++ rest), off := pre.length + 2 }
      (c % 256) (c / 256 % 256) (le32 d ++ rest)
      (by simp [headerBytes, le16, le32, cSignFlag, drop_len_append])
    have e2 := readUint32_of_drop
      { buf := pre ++ (headerBytes false true c d ++ rest), off := pre.length + 2 + 2 }
      (d % 256) (d / 256 % 256) (d / 65536 % 256) (d / 16777216 % 256) rest
      (by simp [headerBytes, le16, le32, cSignFlag, Nat.add_assoc, drop_len_append])
    have hc' : c % 256 + c / 256 % 256 * 256 = c := by omega
    have hd' : d % 256 + d / 256 % 256 * 256 + d / 65536 % 256 * 65536
        + d / 16777216 % 256 * 16777216 = d := by omega
    simp only [ReadDataHead, e0]
    simp [cSignFlag, cSignFlagMask, headerBytes, headerLen, le16, le32, ProtocolDataHeader.init,
      ProtocolReader.Len, hC, h1C, h2C, hc', hd'] at e1 e2 ⊢
    simp [e1, e2, hc', hd']
    rw [if_neg (by omega), if_neg (by omega)]
  · have e0 := readUint16_of_drop
      { buf := pre ++ (headerBytes true false c d ++ rest), off := pre.length }
      153 109 (le32 c ++ le16 d ++ rest) (by simp [headerBytes, le16, le32, cSignFlag])
    have e1 := readUint32_of_drop
      { buf := pre ++ (headerBytes true false c d ++ rest), off := pre.length + 2 }
      (c % 256) (c / 256 % 256) (c / 65536 % 256) (c / 16777216 % 256) (le16 d ++ rest)
      (by simp [headerBytes, le16, le32, cSignFlag, drop_len_append])
    have e2 := readUint16_of_drop
      { buf := pre ++ (headerBytes true false c d ++ rest), off := pre.length + 2 + 4 }
      (d % 256) (d / 256 % 256) rest
      (by simp [headerBytes, le16, le32, cSignFlag, Nat.add_assoc, drop_len_append])
    have hc' : c % 256 + c / 256 % 256 * 256 + c / 65536 % 256 * 65536
        + c / 16777216 % 256 * 16777216 = c := by omega
    have hd' : d % 256 + d / 256 % 256 * 256 = d := by omega
    simp only [ReadDataHead, e0]
    simp [cSignFlag, cSignFlagMask, headerBytes, headerLen, le16, le32, ProtocolDataHeader.init,
      ProtocolReader.Len, hB, h1B, h2B, hc', hd'] at e1 e2 ⊢
    simp [e1, e2, hc', hd']
    rw [if_neg (by omega), if_neg (by omega)]
  · have e0 := readUint16_of_drop
      { buf := pre ++ (headerBytes true true c d ++ rest), off := pre.length }
      155 109 (le32 c ++ le32 d ++ rest) (by simp [headerBytes, le16, le32, cSignFlag])
    have e1 := readUint32_of_drop
      { buf := pre ++ (headerBytes true true c d ++ rest), off := pre.length + 2 }
      (c % 256) (c / 256 % 256) (c / 65536 % 256) (c / 16777216 % 256) (le32 d ++ rest)
      (by simp [headerBytes, le16, le32, cSignFlag, drop_len_append])
    have e2 := readUint32_of_drop
      { buf := pre ++ (headerBytes true true c d ++ rest), off := pre.length + 2 + 4 }
      (d % 256) (d / 256 % 256) (d / 65536 % 256) (d / 16777216 % 256) rest
      (by simp [headerBytes, le16, le32, cSignFlag, Nat.add_assoc, drop_len_append])
    have hc' : c % 256 + c / 256 % 256 * 256 + c / 65536 % 256 * 65536
        + c / 16777216 % 256 * 16777216 = c := by omega
    have hd' : d % 256 + d / 256 % 256 * 256 + d / 65536 % 256 * 65536
        + d / 16777216 % 256 * 16777216 = d := by omega
    simp only [ReadDataHead, e0]
    simp [cSignFlag, cSignFlagMask, headerBytes, headerLen, le16, le32, ProtocolDataHeader.init,
      ProtocolReader.Len, hD, h1D, h2D, hc', hd'] at e1 e2 ⊢
    simp [e1, e2, hc', hd']
    rw [if_neg (by omega), if_neg (by omega)]

theorem readUint16_eq (r : ProtocolReader) (h : r.off + 2 ≤ r.buf.length) :
    readUint16 r = some (u16At r.buf r.off, { r with off := r.off + 2 }) := by
  have h0 : r.off < r.buf.length := by omega
  have h1 : r.off + 1 < r.buf.length := by omega
  simp [readUint16, u16At, List.getD_eq_getElem?_getD, List.getElem?_eq_getElem, h0, h1]

theorem readUint32_eq (r : ProtocolReader) (h : r.off + 4 ≤ r.buf.length) :
    readUint32 r = some (u32At r.buf r.off, { r with off := r.off + 4 }) := by
  have h0 : r.off < r.buf.length := by omega
  have h1 : r.off + 1 < r.buf.length := by omega
  have h2 : r.off + 2 < r.buf.length := by omega
  have h3 : r.off + 3 < r.buf.length := by omega
  simp [readUint32, u32At, List.getD_eq_getElem?_getD, List.getElem?_eq_getElem, h0, h1, h2, h3]

theorem Len_lt (r : ProtocolReader) (k : Nat) :
    r.Len < (k : Int) ↔ r.buf.length < r.off + k := by
  simp only [ProtocolReader.Len]; omega

theorem Len_lt_six (r : ProtocolReader) : r.Len < 6 ↔ r.buf.length < r.off + 6 := Len_lt r 6
theorem Len_lt_four (r : ProtocolReader) : r.Len < 4 ↔ r.buf.length < r.off + 4 := Len_lt r 4
theorem Len_lt_two (r : ProtocolReader) : r.Len < 2 ↔ r.buf.length < r.off + 2 := Len_lt r 2

/-- C3: `ReadDataHead` never panics, and it reports the header valid exactly when the
signature at the read offset satisfies `sig & 0xFFFC = 0x6D98`, the unread bytes cover the
header length `6 + 2*bit0 + 2*bit1` given by the two flag bits, and the parsed `DataLength`
is at least that header length.  When valid, `headerLength`, `classId` and `dataLength` are
that length and the little-endian 16- or 32-bit values selected by the flag bits. -/
theorem ReadDataHead_valid_iff (r : ProtocolReader) :
    ∃ h r', ReadDataHead r = some (h, r') ∧
      (h.isValid = true ↔
        (u16At r.buf r.off &&& 0xFFFC = 0x6D98 ∧
         r.off + (6 + (if u16At r.buf r.off &&& 1 = 1 then 2 else 0)
             + (if u16At r.buf r.off &&& 2 = 2 then 2 else 0)) ≤ r.buf.length ∧
         6 + (if u16At r.buf r.off &&& 1 = 1 then 2 else 0)
             + (if u16At r.buf r.off &&& 2 = 2 then 2 else 0) ≤
           (if u16At r.buf r.off &&& 2 = 2
            then u32At r.buf (r.off + 2 + (if u16At r.buf r.off &&& 1 = 1 then 4 else 2))
            else u16At r.buf (r.off + 2 + (if u16At r.buf r.off &&& 1 = 1 then 4 else 2))))) ∧
      (h.isValid = true →
        h.headerLength = 6 + (if u16At r.buf r.off &&& 1 = 1 then 2 else 0)
             + (if u16At r.buf r.off &&& 2 = 2 then 2 else 0) ∧
        h.classId = (if u16At r.buf r.off &&& 1 = 1 then u32At r.buf (r.off + 2)
                     else u16At r.buf (r.off + 2)) ∧
        h.dataLength =
           (if u16At r.buf r.off &&& 2 = 2
            then u32At r.buf (r.off + 2 + (if u16At r.buf r.off &&& 1 = 1 then 4 else 2))
            else u16At r.buf (r.off + 2 + (if u16At r.buf r.off &&& 1 = 1 then 4 else 2)))) := by
  obtain ⟨buf, off⟩ := r
  simp only [ReadDataHead, Len_lt_six, Len_lt_four, Len_lt_two]
  by_cases hlen : buf.length < off + 6
  · refine ⟨ProtocolDataHeader.init, ⟨buf, off⟩, by simp [hlen], ?_, ?_⟩
    · simp only [ProtocolDataHeader.init]
      constructor
      · intro h; cases h
      · rintro ⟨_, h2, _⟩
        split_ifs at h2 <;> omega
    · intro h; cases h
  · have e0 := readUint16_eq ⟨buf, off⟩ (by simp; omega)
    have e1 := readUint16_eq ⟨buf, off + 2⟩ (by simp; omega)
    have e1' := readUint32_eq ⟨buf, off + 2⟩ (by simp; omega)
    have e2 := readUint16_eq ⟨buf, off + 2 + 2⟩ (by simp; omega)
    have e2' := readUint16_eq ⟨buf, off + 2 + 4⟩
    have e3 := readUint32_eq ⟨buf, off + 2 + 2⟩
    have e3' := readUint32_eq ⟨buf, off + 2 + 4⟩
    simp only [] at e0 e1 e1' e2 e2' e3 e3'
    simp only [hlen, if_false, e0]
    by_cases hs : u16At buf off &&& cSignFlagMask = cSignFlag
    · have hs' : u16At buf off &&& 65532 = 28056 := hs
      by_cases hb0 : u16At buf off &&& 1 = 1 <;> by_cases hb1 : u16At buf off &&& 2 = 2 <;>
        simp only [Nat.and_one_is_mod] at hb0
      · by_cases hl : buf.length < off + 2 + 4 + 4
        · simp [hs, hb0, hb1, e1', hl, ProtocolDataHeader.init, hs']
          try omega
        · simp [hs, hb0, hb1, e1', hl, e3' (by omega), ProtocolDataHeader.init, hs']
          try omega
      · by_cases hl : buf.length < off + 2 + 4 + 2
        · simp [hs, hb0, hb1, e1', hl, ProtocolDataHeader.init, hs']
          try omega
        · simp [hs, hb0, hb1, e1', hl, e2' (by omega), ProtocolDataHeader.init, hs']
          try omega
      · by_cases hl : buf.length < off + 2 + 2 + 4
        · simp [hs, hb0, hb1, e1, hl, ProtocolDataHeader.init, hs']
          try omega
        · simp [hs, hb0, hb1, e1, hl, e3 (by omega), ProtocolDataHeader.init, hs']
          try omega
      · have hl : ¬ buf.length < off + 2 + 2 + 2 := by omega
        simp [hs, hb0, hb1, e1, hl, e2, ProtocolDataHeader.init, hs']
        try omega
    · have hs' : ¬ u16At buf off &&& 65532 = 28056 := hs
      simp [hs, ProtocolDataHeader.init, hs']

theorem le16_mod (c : Nat) : le16 (c % 65536) = le16 c := by
  simp only [le16]
  congr 1
  · omega
  · congr 1; omega

theorem WriteDataHead_eq (b : List Nat) (rtti : TRegRttiData) :
    WriteDataHead b rtti =
      ({ isValid := true, shortLenMode := !rtti.BigData,
         shortClassId := decide (rtti.ClassId ≤ 65535),
         headerLength := headerLen (!decide (rtti.ClassId ≤ 65535)) rtti.BigData,
         startPos := b.length },
       b ++ headerBytes (!decide (rtti.ClassId ≤ 65535)) rtti.BigData rtti.ClassId 0) := by
  have h1 : cSignFlag ||| 1 = cSignFlag + 1 := by decide
  have h2 : cSignFlag ||| 2 = cSignFlag + 2 := by decide
  have h3 : cSignFlag + 1 ||| 2 = cSignFlag + 1 + 2 := by decide
  by_cases hc : rtti.ClassId ≤ 65535 <;> cases hb : rtti.BigData <;>
    simp [WriteDataHead, headerBytes, headerLen, hc, hb, writeUint16, writeUint32, le16_mod,
      h1, h2, h3]

theorem UpdateDataLength_headerBytes (b payload : List Nat) (longC longL : Bool) (c d hl : Nat) :
    UpdateDataLength (b ++ headerBytes longC longL c 0 ++ payload) d
        { isValid := true, shortLenMode := !longL, shortClassId := !longC,
          headerLength := hl, startPos := b.length } =
      if longL = false ∧ d > 65535 then
        some (0, { isValid := false, shortLenMode := !longL, shortClassId := !longC,
                   headerLength := hl, startPos := b.length },
              b ++ headerBytes longC longL c 0 ++ payload)
      else
        some (if longL then 4 else 2,
              { isValid := true, shortLenMode := !longL, shortClassId := !longC,
                headerLength := hl, startPos := b.length },
              b ++ headerBytes longC longL c d ++ payload) := by
  cases longC <;> cases longL
  · have hp := putAt_mid (b ++ (le16 cSignFlag ++ le16 c)) (le16 0) payload (le16 d) rfl
    by_cases hd : d > 65535
    · simp [UpdateDataLength, hd]
    · simp [le16] at hp
      simp [UpdateDataLength, hd, headerBytes, le16, hp]
  · have hp := putAt_mid (b ++ (le16 (cSignFlag + 2) ++ le16 c)) (le32 0) payload (le32 d) rfl
    simp [le16, le32] at hp
    simp [UpdateDataLength, headerBytes, le16, le32, hp]
  · have hp := putAt_mid (b ++ (le16 (cSignFlag + 1) ++ le32 c)) (le16 0) payload (le16 d) rfl
    by_cases hd : d > 65535
    · simp [UpdateDataLength, hd]
    · simp [le16, le32] at hp
      simp [UpdateDataLength, hd, headerBytes, le16, le32, hp]
  · have hp := putAt_mid (b ++ (le16 (cSignFlag + 1 + 2) ++ le32 c)) (le32 0) payload (le32 d) rfl
    simp [le16, le32] at hp
    simp [UpdateDataLength, headerBytes, le16, le32, hp]

/-- C2: header round trip.  For a class id and a `dataLength` that fit 32 bits, with
`dataLength` at least the header length and at most 65535 when the short length form is used,
writing a header with `WriteDataHead` after any buffer contents `pre`, appending any payload,
patching with `UpdateDataLength` and reading back with `ReadDataHead` at the header start
yields a valid header with the same class id, the same `dataLength` and
`headerLength = 6 + 2*[classId > 65535] + 2*[BigData]`. -/
theorem header_roundtrip (pre payload : List Nat) (rtti : TRegRttiData) (dataLength : Nat)
    (hcid : rtti.ClassId < 4294967296) (hlen : dataLength < 4294967296)
    (hmin : (WriteDataHead pre rtti).1.headerLength ≤ dataLength)
    (hshort : rtti.BigData = false → dataLength ≤ 65535) :
    ∃ b, UpdateDataLength ((WriteDataHead pre rtti).2 ++ payload) dataLength
            (WriteDataHead pre rtti).1
          = some (if rtti.BigData then 4 else 2, (WriteDataHead pre rtti).1, b) ∧
      ReadDataHead { buf := b, off := pre.length } =
        some ({ isValid := true,
                headerLength := 6 + (if rtti.ClassId > 65535 then 2 else 0)
                                  + (if rtti.BigData then 2 else 0),
                classId := rtti.ClassId, dataLength := dataLength },
              { buf := b, off := pre.length + (6 + (if rtti.ClassId > 65535 then 2 else 0)
                                  + (if rtti.BigData then 2 else 0)) }) := by
  rw [WriteDataHead_eq] at hmin ⊢
  simp only [] at hmin ⊢
  have hU := UpdateDataLength_headerBytes pre payload (!decide (rtti.ClassId ≤ 65535))
    rtti.BigData rtti.ClassId dataLength (headerLen (!decide (rtti.ClassId ≤ 65535)) rtti.BigData)
  have hc' : rtti.ClassId <
      if (!decide (rtti.ClassId ≤ 65535)) = true then 4294967296 else 65536 := by
    by_cases hc : rtti.ClassId ≤ 65535 <;> simp [hc] <;> omega
  have hd' : dataLength < if rtti.BigData = true then 4294967296 else 65536 := by
    cases hb : rtti.BigData
    · have := hshort hb; simp; omega
    · simpa using hlen
  have hR := ReadDataHead_headerBytes pre payload (!decide (rtti.ClassId ≤ 65535))
    rtti.BigData rtti.ClassId dataLength hc' hd'
  refine ⟨pre ++ headerBytes (!decide (rtti.ClassId ≤ 65535)) rtti.BigData rtti.ClassId dataLength
    ++ payload, ?_, ?_⟩
  · simp only [Bool.not_not] at hU
    rw [hU, if_neg]
    rintro ⟨hb, hd⟩
    have := hshort hb
    omega
  · rw [List.append_assoc, hR]
    by_cases hc : rtti.ClassId ≤ 65535 <;> cases hb : rtti.BigData
    · simp [headerLen, hc, hb, Nat.not_lt.mpr hc] at hmin ⊢; exact hmin
    · simp [headerLen, hc, hb, Nat.not_lt.mpr hc] at hmin ⊢; exact hmin
    · simp [headerLen, hc, hb, Nat.lt_of_not_le hc] at hmin ⊢; exact hmin
    · simp [headerLen, hc, hb, Nat.lt_of_not_le hc] at hmin ⊢; exact hmin

/-! ## The shell of `writeStruct` -/

theorem headerBytes_length (longC longL : Bool) (c d : Nat) :
    (headerBytes longC longL c d).length = headerLen longC longL := by
  cases longC <;> cases longL <;> simp [headerBytes, headerLen, le16, le32]

theorem putAt_promo (b p : List Nat) (k : Nat) (v : List Nat) (hv : v.length = 4)
    (hk : k + 4 ≤ p.length) :
    putAt (b ++ p) (b.length + k) v = some (b ++ (p.take k ++ v ++ p.drop (k + 4))) := by
  have h := putAt_mid (b ++ p.take k) ((p.drop k).take 4) (p.drop (k + 4)) v
    (by simp [hv]; omega)
  have e : b ++ p.take k ++ (p.drop k).take 4 ++ p.drop (k + 4) = b ++ p := by
    rw [List.append_assoc, List.append_assoc]
    congr 1
    rw [← List.append_assoc]
    have : (p.drop k).take 4 ++ p.drop (k + 4) = p.drop k := by
      rw [← List.drop_drop]
      exact List.take_append_drop 4 (p.drop k)
    rw [List.append_assoc, this, List.take_append_drop]
  rw [e] at h
  have hl : (b ++ p.take k).length = b.length + k := by simp; omega
  rw [hl] at h
  rw [h]; simp

theorem writeStructWith_eq (st : WState) (rtti : TRegRttiData)
    (walk : WState → Option WState) (st1 : WState) (p : List Nat)
    (hw : walk ⟨st.reg, st.buf ++ headerBytes (!decide (rtti.ClassId ≤ 65535))
                  (bigDataOf st.reg rtti.ClassId) rtti.ClassId 0⟩ = some st1)
    (hp : st1.buf = st.buf ++ headerBytes (!decide (rtti.ClassId ≤ 65535))
                  (bigDataOf st.reg rtti.ClassId) rtti.ClassId 0 ++ p) :
    writeStructWith st rtti (some walk) =
      if bigDataOf st.reg rtti.ClassId = false ∧
          (headerLen (!decide (rtti.ClassId ≤ 65535)) false + p.length) % 4294967296 > 65535 then
        if bigDataOf st1.reg rtti.ClassId = false then
          if (if (!decide (rtti.ClassId ≤ 65535)) = true then 6 else 4) + 4 ≤ p.length then
            some ({ reg := setBigData st1.reg rtti.ClassId,
                    buf := st.buf ++ promoOut (!decide (rtti.ClassId ≤ 65535)) p },
                  (st.buf ++ promoOut (!decide (rtti.ClassId ≤ 65535)) p).length, none)
          else none
        else some ({ st1 with buf := st.buf }, 0, some "非bigData长度却超了")
      else
        some (⟨st1.reg, st.buf ++ headerBytes (!decide (rtti.ClassId ≤ 65535))
                    (bigDataOf st.reg rtti.ClassId) rtti.ClassId
                    ((headerLen (!decide (rtti.ClassId ≤ 65535)) (bigDataOf st.reg rtti.ClassId)
                        + p.length) % 4294967296) ++ p⟩,
              (st.buf ++ headerBytes (!decide (rtti.ClassId ≤ 65535))
                    (bigDataOf st.reg rtti.ClassId) rtti.ClassId
                    ((headerLen (!decide (rtti.ClassId ≤ 65535)) (bigDataOf st.reg rtti.ClassId)
                        + p.length) % 4294967296) ++ p).length, none) := by
  obtain ⟨reg, buf⟩ := st
  obtain ⟨reg1, buf1⟩ := st1
  simp only at hw hp
  subst hp
  simp only [writeStructWith, WriteDataHead_eq, hw]
  clear hw
  have t1 : ∀ H : List Nat, List.take buf.length (buf ++ H ++ p) = buf := by
    intro H; rw [List.append_assoc]; exact List.take_left' rfl
  have t2 : ∀ H : List Nat, List.drop (buf.length + H.length) (buf ++ H ++ p) = p := by
    intro H; rw [← List.length_append]; exact List.drop_left' rfl
  have t3 : ∀ H : List Nat, List.take buf.length (buf ++ H) = buf := by
    intro H; exact List.take_left' rfl
  have hlen : ∀ H : List Nat, (buf ++ H ++ p).length - buf.length = H.length + p.length := by
    intro H; simp
  have hlen2 : (buf ++ p).length - buf.length = p.length := by simp
  rw [hlen, headerBytes_length]
  by_cases hc : rtti.ClassId ≤ 65535 <;> cases hb : bigDataOf reg rtti.ClassId
  · have hU := UpdateDataLength_headerBytes buf p false false rtti.ClassId
      ((headerLen false false + p.length) % 4294967296) (headerLen false false)
    simp only [Bool.not_false, true_and] at hU
    simp only [hc, decide_True, Bool.not_true, Bool.not_false, Bool.false_eq_true, if_false, hU]
    by_cases hd : (headerLen false false + p.length) % 4294967296 > 65535
    · have hk : 4 + 4 ≤ p.length := by
        have := Nat.mod_le (headerLen false false + p.length) 4294967296
        simp [headerLen] at this hd; omega
      have hP := putAt_promo buf p 4 (le32 (p.length % 4294967296)) rfl hk
      have e6 : buf.length + headerLen false false
          = buf.length + (headerBytes false false rtti.ClassId 0).length := by
        rw [headerBytes_length]
      simp only [hd, and_self, if_true, Bool.not_false, t1, e6, t2, t3, hlen2]
      cases hb1 : bigDataOf reg1 rtti.ClassId
      · simp [UpdateDataLength, hP, promoOut, hk]
      · simp
    · simp [hd]
  · have hU := UpdateDataLength_headerBytes buf p false true rtti.ClassId
      ((headerLen false true + p.length) % 4294967296) (headerLen false true)
    simp only [Bool.not_false, Bool.not_true, Bool.true_eq_false, false_and, if_false,
      if_true] at hU
    simp only [hc, decide_True, Bool.not_true, Bool.not_false, Bool.false_eq_true, if_false, hU]
    simp
  · have hU := UpdateDataLength_headerBytes buf p true false rtti.ClassId
      ((headerLen true false + p.length) % 4294967296) (headerLen true false)
    simp only [Bool.not_false, Bool.not_true, true_and] at hU
    simp only [hc, decide_False, Bool.not_true, Bool.not_false, Bool.false_eq_true, if_false, hU]
    by_cases hd : (headerLen true false + p.length) % 4294967296 > 65535
    · have hk : 6 + 4 ≤ p.length := by
        have := Nat.mod_le (headerLen true false + p.length) 4294967296
        simp [headerLen] at this hd; omega
      have hP := putAt_promo buf p 6 (le32 (p.length % 4294967296)) rfl hk
      have e6 : buf.length + headerLen true false
          = buf.length + (headerBytes true false rtti.ClassId 0).length := by
        rw [headerBytes_length]
      simp only [hd, and_self, if_true, Bool.not_false, t1, e6, t2, t3, hlen2]
      cases hb1 : bigDataOf reg1 rtti.ClassId
      · simp [UpdateDataLength, hP, promoOut, hk]
      · simp
    · simp [hd]
  · have hU := UpdateDataLength_headerBytes buf p true true rtti.ClassId
      ((headerLen true true + p.length) % 4294967296) (headerLen true true)
    simp only [Bool.not_false, Bool.not_true, Bool.true_eq_false, false_and, if_false,
      if_true] at hU
    simp only [hc, decide_False, Bool.not_true, Bool.not_false, Bool.false_eq_true, if_false, hU]
    simp

theorem Ext.refl (st : WState) : Ext st st := ⟨⟨[], by simp⟩, fun _ h => h⟩

theorem Ext.trans {a b c : WState} (h1 : Ext a b) (h2 : Ext b c) : Ext a c := by
  obtain ⟨⟨p, hp⟩, m1⟩ := h1
  obtain ⟨⟨q, hq⟩, m2⟩ := h2
  exact ⟨⟨p ++ q, by rw [hq, hp, List.append_assoc]⟩, fun cid h => m2 cid (m1 cid h)⟩

theorem Ext.buf (st : WState) (x : List Nat) : Ext st { st with buf := st.buf ++ x } :=
  ⟨⟨x, rfl⟩, fun _ h => h⟩

theorem lookup_map_snd (l : List (Nat × TRegRttiData)) (g : Nat → TRegRttiData → TRegRttiData)
    (cid : Nat) :
    List.lookup cid (l.map (fun e => (e.1, g e.1 e.2))) = (List.lookup cid l).map (g cid) := by
  induction l with
  | nil => rfl
  | cons e l ih =>
    obtain ⟨a, d⟩ := e
    by_cases hc : cid = a
    · subst hc; simp [List.lookup]
    · have : (cid == a) = false := by simpa using hc
      simp only [List.map_cons, List.lookup, this, ih]

theorem lookup_setBigData (l : List (Nat × TRegRttiData)) (k cid : Nat) :
    (List.lookup cid (l.map (fun e => if e.1 = k then (e.1, { e.2 with BigData := true }) else e)))
      = (List.lookup cid l).map (fun d => if cid = k then { d with BigData := true } else d) := by
  have hf : (fun e : Nat × TRegRttiData =>
        if e.1 = k then (e.1, { e.2 with BigData := true }) else e)
      = (fun e => (e.1, (fun a d => if a = k then { d with BigData := true } else d) e.1 e.2)) := by
    funext e
    by_cases h : e.1 = k <;> simp [h]
  rw [hf]
  exact lookup_map_snd l (fun a d => if a = k then { d with BigData := true } else d) cid

theorem bigDataOf_setBigData (reg : Registry) (k cid : Nat) :
    bigDataOf (setBigData reg k) cid =
      if cid = k then (reg.G_ClassId.lookup cid).isSome else bigDataOf reg cid := by
  simp only [bigDataOf, setBigData, lookup_setBigData]
  cases h : List.lookup cid reg.G_ClassId <;> by_cases hk : cid = k <;> simp [hk]

theorem bigDataOf_setBigData_mono (reg : Registry) (k cid : Nat)
    (h : bigDataOf reg cid = true) : bigDataOf (setBigData reg k) cid = true := by
  rw [bigDataOf_setBigData]
  split
  · simp only [bigDataOf] at h
    cases hl : List.lookup cid reg.G_ClassId <;> simp [hl] at h ⊢
  · exact h

theorem writeStructWith_none (st : WState) (rtti : TRegRttiData) :
    writeStructWith st rtti none =
      some (⟨st.reg, st.buf ++ headerBytes (!decide (rtti.ClassId ≤ 65535))
                (bigDataOf st.reg rtti.ClassId) rtti.ClassId 0⟩, 0, none) := by
  simp [writeStructWith, WriteDataHead_eq]

theorem writeStructWith_walk_none (st : WState) (rtti : TRegRttiData)
    (walk : WState → Option WState)
    (hw : walk ⟨st.reg, st.buf ++ headerBytes (!decide (rtti.ClassId ≤ 65535))
                  (bigDataOf st.reg rtti.ClassId) rtti.ClassId 0⟩ = none) :
    writeStructWith st rtti (some walk) = none := by
  simp [writeStructWith, WriteDataHead_eq, hw]

theorem writeStructWith_ext (st : WState) (rtti : TRegRttiData)
    (walk : Option (WState → Option WState))
    (hwalk : ∀ w, walk = some w → ∀ s s', w s = some s' → Ext s s')
    (st' : WState) (res : Nat × Option String)
    (h : writeStructWith st rtti walk = some (st', res)) : Ext st st' := by
  cases walk with
  | none =>
    rw [writeStructWith_none] at h
    simp only [Option.some.injEq, Prod.mk.injEq] at h
    obtain ⟨h1, _⟩ := h
    subst h1
    exact ⟨⟨_, rfl⟩, fun _ hc => hc⟩
  | some w =>
    cases hw : w ⟨st.reg, st.buf ++ headerBytes (!decide (rtti.ClassId ≤ 65535))
                  (bigDataOf st.reg rtti.ClassId) rtti.ClassId 0⟩ with
    | none => rw [writeStructWith_walk_none st rtti w hw] at h; cases h
    | some st1 =>
      obtain ⟨⟨p, hp⟩, hm⟩ := hwalk w rfl _ _ hw
      simp only at hp hm
      rw [writeStructWith_eq st rtti w st1 p hw hp] at h
      by_cases c1 : bigDataOf st.reg rtti.ClassId = false ∧
          (headerLen (!decide (rtti.ClassId ≤ 65535)) false + p.length) % 4294967296 > 65535
      · rw [if_pos c1] at h
        by_cases c2 : bigDataOf st1.reg rtti.ClassId = false
        · rw [if_pos c2] at h
          by_cases c3 : (if (!decide (rtti.ClassId ≤ 65535)) = true then 6 else 4) + 4 ≤ p.length
          · rw [if_pos c3] at h
            simp only [Option.some.injEq, Prod.mk.injEq] at h
            obtain ⟨h1, _⟩ := h
            subst h1
            exact ⟨⟨_, rfl⟩, fun cid hc => bigDataOf_setBigData_mono _ _ _ (hm cid hc)⟩
          · rw [if_neg c3] at h; cases h
        · rw [if_neg c2] at h
          simp only [Option.some.injEq, Prod.mk.injEq] at h
          obtain ⟨h1, _⟩ := h
          subst h1
          exact ⟨⟨[], by simp⟩, hm⟩
      · rw [if_neg c1] at h
        simp only [Option.some.injEq, Prod.mk.injEq] at h
        obtain ⟨h1, _⟩ := h
        subst h1
        exact ⟨⟨_, List.append_assoc _ _ _⟩, hm⟩

theorem writeAnyWith_ext (st : WState) (t : RType) (p : ObjPtr)
    (hp : ∀ w, p = .record w → ∀ rtti s s', w rtti s = some s' → Ext s s')
    (st' : WState) (err : Option String)
    (h : writeAnyWith st t p = some (st', err)) : Ext st st' := by
  simp only [writeAnyWith] at h
  split at h
  · rename_i rtti _
    split at h
    · cases hr : writeStructWith st rtti none with
      | none => simp [hr] at h
      | some x =>
        obtain ⟨s1, res⟩ := x
        simp only [hr, Option.map_some', Option.some.injEq, Prod.mk.injEq] at h
        obtain ⟨h1, _⟩ := h
        subst h1
        exact writeStructWith_ext st rtti none (fun _ hn => by cases hn) s1 res hr
    · rename_i walk
      cases hr : writeStructWith st rtti (some (walk rtti)) with
      | none => simp [hr] at h
      | some x =>
        obtain ⟨s1, res⟩ := x
        simp only [hr, Option.map_some', Option.some.injEq, Prod.mk.injEq] at h
        obtain ⟨h1, _⟩ := h
        subst h1
        exact writeStructWith_ext st rtti (some (walk rtti))
          (fun w hw s s' hs => by cases hw; exact hp walk rfl rtti s s' hs) s1 res hr
    · cases h
  · simp only [Option.some.injEq, Prod.mk.injEq] at h
    obtain ⟨h1, _⟩ := h
    subst h1
    exact Ext.refl _

/-! ## The encoder only appends, and never clears a flag -/

theorem writeString_append (b s : List Nat) : ∃ x, writeString b s = b ++ x := by
  simp only [writeString, writeUint16, Write]
  split
  · exact ⟨_, List.append_assoc _ _ _⟩
  · exact ⟨_, rfl⟩

theorem writeMemory_append (b : List Nat) (segs : List (Nat × List Nat)) (ptr len : Nat) :
    ∃ x, writeMemory b segs ptr len = b ++ x := by
  simp only [writeMemory, Write]
  split
  · exact ⟨[], by simp⟩
  · exact ⟨_, rfl⟩

theorem WriteEmptyHeader_append (b : List Nat) : ∃ x, WriteEmptyHeader b = b ++ x := by
  simp only [WriteEmptyHeader, writeUint16]
  exact ⟨_, by rw [List.append_assoc, List.append_assoc]⟩

theorem Ext.of_buf (st : WState) (b : List Nat) (h : ∃ x, b = st.buf ++ x) :
    Ext st { st with buf := b } := by
  obtain ⟨x, hx⟩ := h
  exact ⟨⟨x, hx⟩, fun _ hc => hc⟩

theorem Ext.of_map {st st' : WState} {α : Type} {r : Option (WState × α)}
    (hr : ∀ x, r = some x → Ext st x.1)
    (h : r.map (fun x => x.1) = some st') : Ext st st' := by
  cases r with
  | none => cases h
  | some x =>
    simp only [Option.map_some', Option.some.injEq] at h
    subst h
    exact hr x rfl

theorem writeStructWith_map_ext (st st' : WState) (rtti : TRegRttiData)
    (walk : WState → Option WState) (hw : ∀ s s', walk s = some s' → Ext s s')
    (h : (writeStructWith st rtti (some walk)).map (fun x => x.1) = some st') : Ext st st' :=
  Ext.of_map (fun x hx => writeStructWith_ext st rtti (some walk)
    (fun w hw' s s' hs => by cases hw'; exact hw s s' hs) x.1 x.2 hx) h

theorem writeAnyWith_map_ext (st st' : WState) (t : RType) (p : ObjPtr)
    (hp : ∀ w, p = .record w → ∀ rtti s s', w rtti s = some s' → Ext s s')
    (h : (writeAnyWith st t p).map (fun x => x.1) = some st') : Ext st st' :=
  Ext.of_map (fun x hx => writeAnyWith_ext st t p hp x.1 x.2 hx) h

set_option maxHeartbeats 1600000 in
theorem writeElem_ok (v : Value)
    (hf : ∀ fs, v = .struct fs ∨ v = .ptr (.struct fs) → FieldsOk fs)
    (hp : ∀ t inner, v = .iface t inner → PtrOk inner)
    (ek : Kind) (rtti : Option TRegRttiData) (st st' : WState)
    (h : writeElem ek rtti v st = some st') : Ext st st' := by
  cases v with
  | str s =>
    cases ek <;> cases rtti <;> simp only [writeElem] at h <;> first
      | (simp only [Option.some.injEq] at h; subst h
         exact Ext.of_buf st _ (writeString_append _ _))
      | cases h
  | struct fs =>
    have IH := hf fs (Or.inl rfl)
    cases ek <;> cases rtti <;> simp only [writeElem] at h <;> first
      | exact writeStructWith_map_ext st st' _ _ (fun s s' hs => IH _ _ _ s s' hs) h
      | cases h
  | iface t inner =>
    have IH := hp t inner rfl
    cases ek <;> cases rtti <;> simp only [writeElem] at h <;> first
      | exact writeAnyWith_map_ext st st' t _ IH h
      | cases h
  | nilPtr =>
    cases ek <;> cases rtti <;> simp only [writeElem] at h <;> first
      | (simp only [Option.some.injEq] at h; subst h
         exact Ext.of_buf st _ (WriteEmptyHeader_append _))
      | cases h
  | ptr t =>
    cases t with
    | struct fs =>
      have IH := hf fs (Or.inr rfl)
      cases ek <;> cases rtti <;> simp only [writeElem] at h <;> first
        | exact writeStructWith_map_ext st st' _ _ (fun s s' hs => IH _ _ _ s s' hs) h
        | cases h
    | _ => cases ek <;> cases rtti <;> simp only [writeElem] at h <;> cases h
  | pod _ => cases ek <;> cases rtti <;> simp only [writeElem] at h <;> cases h
  | arr _ => cases ek <;> cases rtti <;> simp only [writeElem] at h <;> cases h
  | slice _ => cases ek <;> cases rtti <;> simp only [writeElem] at h <;> cases h
  | nilIface => cases ek <;> cases rtti <;> simp only [writeElem] at h <;> cases h
  | other => cases ek <;> cases rtti <;> simp only [writeElem] at h <;> cases h

theorem writeUint32_append (b : List Nat) (v : Nat) : ∃ x, writeUint32 b v = b ++ x :=
  ⟨_, rfl⟩

theorem writeField_eq (segs : List (Nat × List Nat)) (fd : TRegFieldOffsetData)
    (v : Value) (st : WState) :
    writeField segs fd v st = (
    if fd.isPod then some { st with buf := writeMemory st.buf segs fd.offset fd.podSize }
    else
      match fd.Kind with
      | .String =>
        match v with
        | .str s => some { st with buf := writeString st.buf s }
        | _ => none
      | .Array =>
        let st := { st with buf := writeUint32 st.buf fd.arrayLen }
        if isPod fd.arrayKind then
          some { st with buf := writeMemory st.buf [(0, v.memBytes)] 0 fd.podSize }
        else
          match v with
          | .arr es =>
            match fd.arrayKind with
            | .String => writeElems .String none es fd.arrayLen st
            | .Struct =>
              match fd.arrayType.bind (GetRegRttiDataFromType st.reg) with
              | some rtti => writeElems .Struct (some rtti) es fd.arrayLen st
              | none => some st
            | .Interface => writeElems .Interface none es fd.arrayLen st
            | .Ptr =>
              match fd.arrayType.bind (GetRegRttiDataFromType st.reg) with
              | some rtti => writeElems .Ptr (some rtti) es fd.arrayLen st
              | none => some st
            | _ => some st
          | _ => none
      | .Slice =>
        match v with
        | .slice es =>
          let st := { st with buf := writeUint32 st.buf (es.length % 4294967296) }
          if es.length = 0 then some st
          else if isPod fd.arrayKind then
            let n := es.length * fd.arraySize
            some { st with buf := writeMemory st.buf [(0, memBytesList es)] 0 n }
          else
            match fd.arrayKind with
            | .String => writeElems .String none es es.length st
            | .Struct =>
              match fd.arrayType.bind (GetRegRttiDataFromType st.reg) with
              | some rtti => writeElems .Struct (some rtti) es es.length st
              | none => some st
            | .Interface => writeElems .Interface none es es.length st
            | .Ptr =>
              match fd.arrayType.bind (GetRegRttiDataFromType st.reg) with
              | some rtti => writeElems .Ptr (some rtti) es es.length st
              | none => some st
            | _ => some st
        | _ => none
      | .Struct =>
        match lookupDataClass st.reg fd.typeHash with
        | some rtti =>
          match v with
          | .struct fs =>
            (writeStructWith st rtti
              (some (writeFields (structSegs rtti.FieldData fs) rtti.FieldData fs 0))).map
              (fun x => x.1)
          | _ => none
        | none => some st
      | .Interface =>
        match v with
        | .nilIface => none
        | .iface t inner => (writeAnyWith st t (ptrOfObj inner)).map (fun x => x.1)
        | _ => none
      | .Ptr =>
        match lookupDataClass st.reg fd.typeHash with
        | some rtti =>
          match v with
          | .nilPtr => some { st with buf := WriteEmptyHeader st.buf }
          | .ptr (.struct fs) =>
            (writeStructWith st rtti
              (some (writeFields (structSegs rtti.FieldData fs) rtti.FieldData fs 0))).map
              (fun x => x.1)
          | _ => none
        | none => some st
      | _ => some st) := by
  cases v with
  | ptr t => cases t <;> rfl
  | _ => rfl


set_option maxHeartbeats 1600000 in
theorem writeField_ok (v : Value)
    (hf : ∀ fs, v = .struct fs ∨ v = .ptr (.struct fs) → FieldsOk fs)
    (hp : ∀ t inner, v = .iface t inner → PtrOk inner)
    (he : ∀ es, v = .arr es ∨ v = .slice es → ElemsOk es)
    (segs : List (Nat × List Nat)) (fd : TRegFieldOffsetData) (st st' : WState)
    (h : writeField segs fd v st = some st') : Ext st st' := by
  rw [writeField_eq] at h
  split at h
  · simp only [Option.some.injEq] at h; subst h
    exact Ext.of_buf st _ (writeMemory_append _ _ _ _)
  · generalize fd.Kind = k at h
    cases k <;> simp only at h
    case String =>
      cases v <;> simp only at h <;> first
        | (simp only [Option.some.injEq] at h; subst h
           exact Ext.of_buf st _ (writeString_append _ _))
        | cases h
    case Array =>
      have e0 : Ext st ⟨st.reg, writeUint32 st.buf fd.arrayLen⟩ :=
        Ext.of_buf st _ (writeUint32_append _ _)
      split at h
      · simp only [Option.some.injEq] at h; subst h
        exact e0.trans (Ext.of_buf ⟨st.reg, writeUint32 st.buf fd.arrayLen⟩ _
          (writeMemory_append _ _ _ _))
      · cases v <;> simp only at h <;> try contradiction
        rename_i es
        have IH := he es (Or.inl rfl)
        generalize fd.arrayKind = ak at h
        cases ak <;> simp only at h <;> first
          | exact e0.trans (IH _ _ _ _ _ h)
          | (simp only [Option.some.injEq] at h; subst h; exact e0)
          | (split at h <;> first
              | exact e0.trans (IH _ _ _ _ _ h)
              | (simp only [Option.some.injEq] at h; subst h; exact e0))
    case Slice =>
      cases v <;> simp only at h <;> try contradiction
      rename_i es
      have IH := he es (Or.inr rfl)
      have e0 : Ext st ⟨st.reg, writeUint32 st.buf (es.length % 4294967296)⟩ :=
        Ext.of_buf st _ (writeUint32_append _ _)
      split at h
      · simp only [Option.some.injEq] at h; subst h; exact e0
      · split at h
        · simp only [Option.some.injEq] at h; subst h
          exact e0.trans (Ext.of_buf ⟨st.reg, writeUint32 st.buf (es.length % 4294967296)⟩ _
            (writeMemory_append _ _ _ _))
        · generalize fd.arrayKind = ak at h
          cases ak <;> simp only at h <;> first
            | exact e0.trans (IH _ _ _ _ _ h)
            | (simp only [Option.some.injEq] at h; subst h; exact e0)
            | (split at h <;> first
                | exact e0.trans (IH _ _ _ _ _ h)
                | (simp only [Option.some.injEq] at h; subst h; exact e0))
    case Struct =>
      split at h
      · cases v <;> simp only at h <;> try contradiction
        rename_i fs
        have IH := hf fs (Or.inl rfl)
        exact writeStructWith_map_ext st st' _ _ (fun s s' hs => IH _ _ _ s s' hs) h
      · simp only [Option.some.injEq] at h; subst h; exact Ext.refl _
    case Interface =>
      cases v <;> simp only at h <;> try contradiction
      rename_i t inner
      exact writeAnyWith_map_ext st st' t _ (hp t inner rfl) h
    case Ptr =>
      split at h
      · cases v <;> (try simp only at h) <;> try contradiction
        · rename_i t
          cases t <;> simp only at h <;> try contradiction
          rename_i fs
          have IH := hf fs (Or.inr rfl)
          exact writeStructWith_map_ext st st' _ _ (fun s s' hs => IH _ _ _ s s' hs) h
        · simp only [Option.some.injEq] at h; subst h
          exact Ext.of_buf st _ (WriteEmptyHeader_append _)
      · simp only [Option.some.injEq] at h; subst h; exact Ext.refl _
    all_goals (simp only [Option.some.injEq] at h; subst h; exact Ext.refl _)

mutual
theorem writeFields_ext : ∀ (vs : List Value), FieldsOk vs
  | [], segs, fds, skip, st, st', h => by
    cases fds with
    | nil => simp only [writeFields, Option.some.injEq] at h; subst h; exact Ext.refl _
    | cons fd fds => simp [writeFields] at h
  | v :: vs, segs, fds, skip, st, st', h => by
    cases fds with
    | nil => simp only [writeFields, Option.some.injEq] at h; subst h; exact Ext.refl _
    | cons fd fds =>
      cases skip with
      | succ k =>
        rw [writeFields] at h
        exact writeFields_ext vs segs fds k st st' h
      | zero =>
        rw [writeFields] at h
        split at h
        · cases hf : writeField segs fd v st with
          | none => simp [hf] at h
          | some st1 =>
            simp only [hf] at h
            exact (writeField_ext v segs fd st st1 hf).trans
              (writeFields_ext vs segs fds 0 st1 st' h)
        · exact (Ext.of_buf st _ (writeMemory_append _ _ _ _)).trans
            (writeFields_ext vs segs fds _ _ st' h)

theorem writeField_ext : ∀ (v : Value) (segs : List (Nat × List Nat))
    (fd : TRegFieldOffsetData) (st st' : WState),
    writeField segs fd v st = some st' → Ext st st'
  | .struct fs => writeField_ok _
      (fun fs' hv => by rcases hv with hv | hv <;> cases hv; exact writeFields_ext fs)
      (fun _ _ hv => by cases hv) (fun _ hv => by rcases hv with hv | hv <;> cases hv)
  | .ptr (.struct fs) => writeField_ok _
      (fun fs' hv => by rcases hv with hv | hv <;> cases hv; exact writeFields_ext fs)
      (fun _ _ hv => by cases hv) (fun _ hv => by rcases hv with hv | hv <;> cases hv)
  | .iface t inner => writeField_ok _
      (fun _ hv => by rcases hv with hv | hv <;> cases hv)
      (fun _ _ hv => by cases hv; exact ptrOfObj_ext inner)
      (fun _ hv => by rcases hv with hv | hv <;> cases hv)
  | .arr es => writeField_ok _
      (fun _ hv => by rcases hv with hv | hv <;> cases hv)
      (fun _ _ hv => by cases hv)
      (fun _ hv => by rcases hv with hv | hv <;> cases hv; exact writeElems_ext es)
  | .slice es => writeField_ok _
      (fun _ hv => by rcases hv with hv | hv <;> cases hv)
      (fun _ _ hv => by cases hv)
      (fun _ hv => by rcases hv with hv | hv <;> cases hv; exact writeElems_ext es)
  | .pod _ => writeField_ok _
      (fun _ hv => by rcases hv with hv | hv <;> cases hv)
      (fun _ _ hv => by cases hv) (fun _ hv => by rcases hv with hv | hv <;> cases hv)
  | .str _ => writeField_ok _
      (fun _ hv => by rcases hv with hv | hv <;> cases hv)
      (fun _ _ hv => by cases hv) (fun _ hv => by rcases hv with hv | hv <;> cases hv)
  | .nilIface => writeField_ok _
      (fun _ hv => by rcases hv with hv | hv <;> cases hv)
      (fun _ _ hv => by cases hv) (fun _ hv => by rcases hv with hv | hv <;> cases hv)
  | .nilPtr => writeField_ok _
      (fun _ hv => by rcases hv with hv | hv <;> cases hv)
      (fun _ _ hv => by cases hv) (fun _ hv => by rcases hv with hv | hv <;> cases hv)
  | .other => writeField_ok _
      (fun _ hv => by rcases hv with hv | hv <;> cases hv)
      (fun _ _ hv => by cases hv) (fun _ hv => by rcases hv with hv | hv <;> cases hv)
  | .ptr (.pod _) | .ptr (.str _) | .ptr (.arr _) | .ptr (.slice _) | .ptr (.iface _ _)
  | .ptr .nilIface | .ptr (.ptr _) | .ptr .nilPtr | .ptr .other => writeField_ok _
      (fun _ hv => by rcases hv with hv | hv <;> cases hv)
      (fun _ _ hv => by cases hv) (fun _ hv => by rcases hv with hv | hv <;> cases hv)

theorem writeElems_ext : ∀ (es : List Value), ElemsOk es
  | [], ek, rtti, n, st, st', h => by
    cases n with
    | zero => simp only [writeElems, Option.some.injEq] at h; subst h; exact Ext.refl _
    | succ n => simp [writeElems] at h
  | e :: es, ek, rtti, n, st, st', h => by
    cases n with
    | zero => simp only [writeElems, Option.some.injEq] at h; subst h; exact Ext.refl _
    | succ n =>
      rw [writeElems] at h
      cases he : writeElem ek rtti e st with
      | none => simp [he] at h
      | some st1 =>
        simp only [he] at h
        exact (writeElem_ext e ek rtti st st1 he).trans (writeElems_ext es ek rtti n st1 st' h)

theorem writeElem_ext : ∀ (v : Value) (ek : Kind) (rtti : Option TRegRttiData)
    (st st' : WState),
    writeElem ek rtti v st = some st' → Ext st st'
  | .struct fs => writeElem_ok _
      (fun fs' hv => by rcases hv with hv | hv <;> cases hv; exact writeFields_ext fs)
      (fun _ _ hv => by cases hv)
  | .ptr (.struct fs) => writeElem_ok _
      (fun fs' hv => by rcases hv with hv | hv <;> cases hv; exact writeFields_ext fs)
      (fun _ _ hv => by cases hv)
  | .iface t inner => writeElem_ok _
      (fun _ hv => by rcases hv with hv | hv <;> cases hv)
      (fun _ _ hv => by cases hv; exact ptrOfObj_ext inner)
  | .arr _ | .slice _ | .pod _ | .str _ | .nilIface | .nilPtr | .other
  | .ptr (.pod _) | .ptr (.str _) | .ptr (.arr _) | .ptr (.slice _) | .ptr (.iface _ _)
  | .ptr .nilIface | .ptr (.ptr _) | .ptr .nilPtr | .ptr .other => writeElem_ok _
      (fun _ hv => by rcases hv with hv | hv <;> cases hv)
      (fun _ _ hv => by cases hv)

theorem ptrOfObj_ext : ∀ (v : Value), PtrOk v
  | .struct fs, w, h => by
    simp only [ptrOfObj] at h
    split at h
    · cases h
    · cases h
    · simp only [ObjPtr.record.injEq] at h
      subst h
      intro rtti s s' hs
      exact writeFields_ext fs _ _ _ _ _ hs
  | .ptr (.struct fs), w, h => by
    simp only [ptrOfObj, ObjPtr.record.injEq] at h
    subst h
    intro rtti s s' hs
    exact writeFields_ext fs _ _ _ _ _ hs
  | .pod _, w, h | .str _, w, h | .arr _, w, h | .slice _, w, h | .iface _ _, w, h
  | .nilIface, w, h | .nilPtr, w, h | .other, w, h
  | .ptr (.pod _), w, h | .ptr (.str _), w, h | .ptr (.arr _), w, h | .ptr (.slice _), w, h
  | .ptr (.iface _ _), w, h | .ptr .nilIface, w, h | .ptr (.ptr _), w, h | .ptr .nilPtr, w, h
  | .ptr .other, w, h => by simp [ptrOfObj] at h
end

/-! ## `Marshal` of a record -/

theorem Marshal_record (reg reg1 : Registry) (t : RType) (fs : List Value)
    (rtti : TRegRttiData) (p : List Nat)
    (hl : GetRegRttiDataFromObj reg t = some rtti)
    (hw : writeFields (structSegs rtti.FieldData fs) rtti.FieldData fs 0
            ⟨reg, headerBytes (!decide (rtti.ClassId ≤ 65535)) (bigDataOf reg rtti.ClassId)
                    rtti.ClassId 0⟩
          = some ⟨reg1, headerBytes (!decide (rtti.ClassId ≤ 65535))
                    (bigDataOf reg rtti.ClassId) rtti.ClassId 0 ++ p⟩) :
    Marshal reg (.iface t (.ptr (.struct fs))) =
      if bigDataOf reg rtti.ClassId = false ∧
          (headerLen (!decide (rtti.ClassId ≤ 65535)) false + p.length) % 4294967296 > 65535 then
        if bigDataOf reg1 rtti.ClassId = false then
          if (if (!decide (rtti.ClassId ≤ 65535)) = true then 6 else 4) + 4 ≤ p.length then
            some (setBigData reg1 rtti.ClassId,
                  .ok (promoOut (!decide (rtti.ClassId ≤ 65535)) p))
          else none
        else some (reg1, .error "非bigData长度却超了")
      else
        some (reg1, .ok (headerBytes (!decide (rtti.ClassId ≤ 65535))
                    (bigDataOf reg rtti.ClassId) rtti.ClassId
                    ((headerLen (!decide (rtti.ClassId ≤ 65535)) (bigDataOf reg rtti.ClassId)
                        + p.length) % 4294967296) ++ p)) := by
  have hE := writeStructWith_eq ⟨reg, []⟩ rtti
    (writeFields (structSegs rtti.FieldData fs) rtti.FieldData fs 0)
    ⟨reg1, headerBytes (!decide (rtti.ClassId ≤ 65535))
                    (bigDataOf reg rtti.ClassId) rtti.ClassId 0 ++ p⟩ p
    (by simpa using hw) (by simp)
  simp only [List.nil_append] at hE
  simp only [Marshal, writeAny, writeAnyWith, ptrOfObj, hl, hE]
  split_ifs <;> rfl

theorem lookup_cons_self {α : Type} (k : Nat) (v : α) (l : List (Nat × α)) :
    List.lookup k ((k, v) :: l) = some v := by
  simp [List.lookup]

theorem RegisterDataClass_fresh (env : TypeEnv) (reg : Registry) (msgid id : Nat)
    (decl : StructDecl) (fds : List TRegFieldOffsetData)
    (hfresh : reg.G_ClassId.lookup msgid = none) (hd : env[id]? = some decl)
    (hf : registerLoop env decl.fields [] 0 0 = some fds) :
    ∃ reg', RegisterDataClass env reg msgid (.ptr (.named id)) = some reg' ∧
      lookupDataClass reg' (.named id) = some ⟨msgid, false, .named id, fds⟩ ∧
      bigDataOf reg' msgid = false := by
  have hb : (RType.named id == RType.ptr (RType.named id)) = false := by
    simp
  refine ⟨⟨(msgid, ⟨msgid, false, .named id, fds⟩) :: reg.G_ClassId,
    (.ptr (.named id), msgid) :: (.named id, msgid) :: reg.G_DataClass⟩, ?_, ?_, ?_⟩
  · simp [RegisterDataClass, hfresh, RType.Kind, RType.Elem, hd, hf]
  · simp [lookupDataClass, List.lookup, hb, RType.Kind, RType.Elem]
  · simp [bigDataOf, List.lookup]

theorem RegisterDataClass_keeps (env : TypeEnv) (reg reg' : Registry) (msgid : Nat)
    (tp0 : RType) (h : RegisterDataClass env reg msgid tp0 = some reg') :
    (∀ k, (reg.G_ClassId.lookup k).isSome = true →
        reg'.G_ClassId.lookup k = reg.G_ClassId.lookup k) ∧
    (∀ T, T ≠ (if tp0.Kind = .Ptr then tp0.Elem.getD tp0 else tp0) →
        T ≠ (if tp0.Kind = .Ptr then tp0 else .ptr tp0) →
        reg'.G_DataClass.lookup T = reg.G_DataClass.lookup T) := by
  simp only [RegisterDataClass] at h
  split at h
  · simp only [Option.some.injEq] at h
    subst h
    exact ⟨fun _ _ => rfl, fun _ _ _ => rfl⟩
  · rename_i hn
    split at h <;> try contradiction
    split at h <;> try contradiction
    split at h <;> try contradiction
    simp only [Option.some.injEq] at h
    subst h
    refine ⟨fun k hk => ?_, fun T h1 h2 => ?_⟩
    · have hne : k ≠ msgid := by
        intro e
        subst e
        exact hn hk
      have hb : (k == msgid) = false := by simpa using hne
      simp [List.lookup, hb]
    · have hb1 : (T == (if tp0.Kind = .Ptr then tp0 else .ptr tp0)) = false := by
        simpa using h2
      have hb2 : (T == (if tp0.Kind = .Ptr then tp0.Elem.getD tp0 else tp0)) = false := by
        simpa using h1
      simp only [List.lookup, hb1]
      rw [hb2]

/-- A struct of a pointer-shaped type handed to `Marshal` by value: the data word of the
interface is the pointer the struct holds, so a nil pointer takes the `ptr == nil` path of
`writeStruct`, which leaves the placeholder `DataLength`. -/
theorem marshal_pointer_shaped_struct :
    Marshal exReg (.iface (.named 3) (.struct [.nilPtr]))
      = some (exReg, .ok [0x98, 0x6D, 0x08, 0x00, 0x00, 0x00]) := rfl

/-- C9, amended: for every registry that maps the record type `T` to a descriptor with class
id `c ≤ 65535` whose field vector is the one `RegisterDataClass` computes for the schema
`{a int32}`, with the big-data flag of `c` clear, and for every value `a`, whose four bytes in
memory are its little-endian bytes, `Marshal` returns exactly 10 bytes: `98 6D`, `c` as
little-endian u16, `0A 00`, then `a` as little-endian u32.  The registry may hold any other
registrations, made before or after that of `c`. -/
theorem marshal_i32_bytes (c a : Nat) (hc : c ≤ 65535) (env : TypeEnv) (reg : Registry)
    (T : RType) (rtti : TRegRttiData)
    (hl : lookupDataClass reg T = some rtti) (hcid : rtti.ClassId = c)
    (hfd : registerLoop env [⟨.basic .Int32, 0⟩] [] 0 0 = some rtti.FieldData)
    (hflag : bigDataOf reg c = false) :
    Marshal reg (.iface (.ptr T) (.ptr (.struct [.pod (le32 a)])))
      = some (reg, .ok ([0x98, 0x6D] ++ le16 c ++ [0x0A, 0x00] ++ le32 a)) := by
  obtain ⟨cid, b, rT, fds⟩ := rtti
  simp only at hcid
  subst hcid
  simp [registerLoop, TRegFieldOffsetData.isPod, isPod, Kind.toNat, RType.Kind, RType.Size,
    Kind.size] at hfd
  subst hfd
  have hl2 : GetRegRttiDataFromObj reg (.ptr T) =
      some ⟨cid, b, rT,
        [⟨.basic .Int32, .Int32, .basic .Int32, 0, 1, 4, 0, 0, .Invalid, none⟩]⟩ := by
    simp [GetRegRttiDataFromObj, RType.Kind, RType.Elem, hl]
  rw [Marshal_record reg reg _ _ _ (le32 a) hl2]
  · simp [hflag, headerLen, hc, le32, headerBytes, le16, cSignFlag]
  · simp [hflag, writeFields, writeField_eq, TRegFieldOffsetData.isPod, isPod, Kind.toNat,
      structSegs, writeMemory, memRead, segByte, Write, le32, List.range, List.range.loop]

theorem walk_string (reg : Registry) (buf s : List Nat) (fd : TRegFieldOffsetData)
    (hk : fd.Kind = .String) (hm : fd.podMergeCount = 1) (hs : 0 < s.length % 65536) :
    writeFields (structSegs [fd] [.str s]) [fd] [.str s] 0 ⟨reg, buf⟩
      = some ⟨reg, buf ++ (le16 (s.length % 65536) ++ s)⟩ := by
  simp [writeFields, writeField_eq, TRegFieldOffsetData.isPod, isPod, Kind.toNat, hk, hm,
    writeString, writeUint16, Write, hs]

theorem marshal_long_string_2000 (s : List Nat) (hs : s.length = 65530) :
    Marshal exReg (.iface (.ptr (.named 2)) (.ptr (.struct [.str s])))
      = some (setBigData exReg 2000, .ok (promoOut false (le16 65530 ++ s))) := by
  have hl : GetRegRttiDataFromObj exReg (.ptr (.named 2)) =
      some ⟨2000, false, .named 2,
        [⟨.basic .String, .String, .basic .String, 0, 1, 16, 0, 0, .Invalid, none⟩]⟩ := by
    decide
  have hflag : bigDataOf exReg 2000 = false := by decide
  have hw := walk_string exReg (headerBytes false false 2000 0) s
    ⟨.basic .String, .String, .basic .String, 0, 1, 16, 0, 0, .Invalid, none⟩ rfl rfl
    (by rw [hs]; decide)
  rw [hs] at hw
  rw [Marshal_record exReg exReg _ _ _ (le16 65530 ++ s) hl]
  · simp [hflag, headerLen, hs, le16]
  · simpa [hflag] using hw

theorem marshal_long_string_2000_promoted (s : List Nat) (hs : s.length = 65530) :
    Marshal (setBigData exReg 2000) (.iface (.ptr (.named 2)) (.ptr (.struct [.str s])))
      = some (setBigData exReg 2000,
              .ok (headerBytes false true 2000 65540 ++ (le16 65530 ++ s))) := by
  have hl : GetRegRttiDataFromObj (setBigData exReg 2000) (.ptr (.named 2)) =
      some ⟨2000, true, .named 2,
        [⟨.basic .String, .String, .basic .String, 0, 1, 16, 0, 0, .Invalid, none⟩]⟩ := by
    decide
  have hflag : bigDataOf (setBigData exReg 2000) 2000 = true := by decide
  have hw := walk_string (setBigData exReg 2000) (headerBytes false true 2000 0) s
    ⟨.basic .String, .String, .basic .String, 0, 1, 16, 0, 0, .Invalid, none⟩ rfl rfl
    (by rw [hs]; decide)
  rw [hs] at hw
  rw [Marshal_record (setBigData exReg 2000) (setBigData exReg 2000) _ _ _ (le16 65530 ++ s) hl]
  · simp [hflag, headerLen, hs, le16]
  · simpa [hflag] using hw

/-! ## The claims about the encoder and about round trips -/

theorem writeAny_ext (v : Value) (st st' : WState) (err : Option String)
    (h : writeAny v st = some (st', err)) : Ext st st' := by
  cases v <;> simp only [writeAny] at h <;> try contradiction
  rename_i t inner
  exact writeAnyWith_ext st t _ (ptrOfObj_ext inner) st' err h

theorem Marshal_mono (reg reg' : Registry) (v : Value) (res : Except String (List Nat))
    (h : Marshal reg v = some (reg', res)) (cid : Nat) (hc : bigDataOf reg cid = true) :
    bigDataOf reg' cid = true := by
  simp only [Marshal] at h
  cases hw : writeAny v ⟨reg, []⟩ with
  | none => simp [hw] at h
  | some x =>
    obtain ⟨st', err⟩ := x
    have hE := writeAny_ext v _ st' err hw
    cases err <;> simp only [hw, Option.some.injEq, Prod.mk.injEq] at h <;>
      (obtain ⟨h1, _⟩ := h; subst h1; exact hE.2 cid hc)

theorem RegisterDataClass_mono (env : TypeEnv) (reg reg' : Registry) (msgid : Nat) (tp : RType)
    (h : RegisterDataClass env reg msgid tp = some reg') (cid : Nat)
    (hc : bigDataOf reg cid = true) : bigDataOf reg' cid = true := by
  simp only [RegisterDataClass] at h
  split at h
  · simp only [Option.some.injEq] at h; subst h; exact hc
  · rename_i hn
    have hne : cid ≠ msgid := by
      intro e
      subst e
      simp only [bigDataOf] at hc
      cases hl : List.lookup cid reg.G_ClassId <;> simp [hl] at hc hn
    have hb : (cid == msgid) = false := by simpa using hne
    split at h <;> try contradiction
    split at h <;> try contradiction
    split at h <;> try contradiction
    simp only [Option.some.injEq] at h
    subst h
    simpa [bigDataOf, List.lookup, hb] using hc

theorem writeStruct_long (reg : Registry) (buf : List Nat) (fs : List Value)
    (rtti : TRegRttiData) (hflag : bigDataOf reg rtti.ClassId = true)
    (st' : WState) (res : Nat × Option String)
    (h : writeStruct ⟨reg, buf⟩ fs rtti = some (st', res)) :
    ∃ p, st'.buf = buf ++ headerBytes (!decide (rtti.ClassId ≤ 65535)) true rtti.ClassId
            ((headerLen (!decide (rtti.ClassId ≤ 65535)) true + p.length) % 4294967296) ++ p
      ∧ res.2 = none := by
  simp only [writeStruct] at h
  cases hw : writeFields (structSegs rtti.FieldData fs) rtti.FieldData fs 0
      ⟨reg, buf ++ headerBytes (!decide (rtti.ClassId ≤ 65535)) (bigDataOf reg rtti.ClassId)
        rtti.ClassId 0⟩ with
  | none => rw [writeStructWith_walk_none ⟨reg, buf⟩ rtti _ hw] at h; cases h
  | some st1 =>
    obtain ⟨⟨p, hp⟩, _⟩ := writeFields_ext fs _ _ _ _ _ hw
    simp only at hp
    rw [writeStructWith_eq ⟨reg, buf⟩ rtti _ st1 p hw hp] at h
    simp only [hflag, Bool.true_eq_false, false_and, if_false, Option.some.injEq,
      Prod.mk.injEq] at h
    obtain ⟨h1, h2⟩ := h
    subst h1 h2
    exact ⟨p, rfl, rfl⟩

theorem headerBytes_long_sign (longC : Bool) (c d : Nat) :
    ∃ sign, headerBytes longC true c d
        = le16 sign ++ (if longC then le32 c else le16 c) ++ le32 d
      ∧ sign &&& 2 = 2 ∧ sign &&& 0xFFFC = 0x6D98 := by
  cases longC
  · exact ⟨0x6D9A, rfl, by decide, by decide⟩
  · exact ⟨0x6D9B, rfl, by decide, by decide⟩

theorem writeFields_pods (segs : List (Nat × List Nat)) :
    ∀ (fds : List TRegFieldOffsetData) (vs : List Value) (skip : Nat) (st : WState),
      (∀ fd ∈ fds, fd.isPod = true) → fds.length ≤ vs.length →
      ∃ p, writeFields segs fds vs skip st = some ⟨st.reg, st.buf ++ p⟩ := by
  intro fds
  induction fds with
  | nil =>
    intro vs skip st _ _
    exact ⟨[], by simp [writeFields]⟩
  | cons fd rest ih =>
    intro vs skip st hp hl
    cases vs with
    | nil => simp at hl
    | cons v vs =>
      have hrest : ∀ fd ∈ rest, fd.isPod = true := fun x hx => hp x (List.mem_cons_of_mem _ hx)
      have hl2 : rest.length ≤ vs.length := by simpa using hl
      have hfd : fd.isPod = true := hp fd (List.mem_cons_self _ _)
      obtain ⟨x, hx⟩ := writeMemory_append st.buf segs fd.offset fd.podSize
      cases skip with
      | succ k =>
        simp only [writeFields]
        exact ih vs k st hrest hl2
      | zero =>
        simp only [writeFields, writeField_eq, hfd, if_true]
        by_cases hm : fd.podMergeCount ≤ 1
        · rw [if_pos hm]
          obtain ⟨p, hp2⟩ := ih vs 0 { st with buf := writeMemory st.buf segs fd.offset fd.podSize }
            hrest hl2
          rw [hp2]
          refine ⟨x ++ p, ?_⟩
          simp only [hx, List.append_assoc]
        · rw [if_neg hm]
          obtain ⟨p, hp2⟩ := ih vs (fd.podMergeCount - 1)
            { st with buf := writeMemory st.buf segs fd.offset fd.podSize } hrest hl2
          rw [hp2]
          refine ⟨x ++ p, ?_⟩
          simp only [hx, List.append_assoc]

theorem writeStruct_long_eq (reg : Registry) (buf : List Nat) (fs : List Value)
    (rtti : TRegRttiData) (hflag : bigDataOf reg rtti.ClassId = true) (st1 : WState)
    (p : List Nat)
    (hw : writeFields (structSegs rtti.FieldData fs) rtti.FieldData fs 0
        ⟨reg, buf ++ headerBytes (!decide (rtti.ClassId ≤ 65535)) true rtti.ClassId 0⟩
      = some st1)
    (hp : st1.buf = buf ++ headerBytes (!decide (rtti.ClassId ≤ 65535)) true rtti.ClassId 0
      ++ p) :
    writeStruct ⟨reg, buf⟩ fs rtti =
      some (⟨st1.reg, buf ++ headerBytes (!decide (rtti.ClassId ≤ 65535)) true rtti.ClassId
                ((headerLen (!decide (rtti.ClassId ≤ 65535)) true + p.length) % 4294967296)
                ++ p⟩,
            (buf ++ headerBytes (!decide (rtti.ClassId ≤ 65535)) true rtti.ClassId
                ((headerLen (!decide (rtti.ClassId ≤ 65535)) true + p.length) % 4294967296)
                ++ p).length, none) := by
  have hE := writeStructWith_eq ⟨reg, buf⟩ rtti
    (writeFields (structSegs rtti.FieldData fs) rtti.FieldData fs 0) st1 p
    (by simpa [hflag] using hw) (by simpa [hflag] using hp)
  simp only [writeStruct, hE, hflag, Bool.true_eq_false, false_and, if_false]

/-- C6: the big-data flag is a one-way latch.  When the flag of class id `cid` is set in the
registry, it is still set after any `Marshal` call and after any `RegisterDataClass` call.
Every `writeStruct` of a record with that class id returns whenever its field loop returns
(the loop fails only where the Go code panics or the value does not fit the descriptor), and
what it has then written, at the place where the buffer ended, is a header whose signature has
bit 1 set, followed by the class id and a 32-bit `DataLength` (the frame length modulo 2^32),
then the payload, whatever the payload size, without an error.  `Marshal` of such a record
returns exactly that long-form frame.  For a record of primitive fields the field loop always
returns, so the long-form frame is written unconditionally; for a nil record `writeStruct`
writes the same long-form header with the placeholder length.  The decoder takes the registry
as an argument it only reads: no function of `protocolReader.go` assigns `BigData`. -/
theorem bigData_latch (reg : Registry) (cid : Nat) (hflag : bigDataOf reg cid = true) :
    (∀ v reg' res, Marshal reg v = some (reg', res) → bigDataOf reg' cid = true) ∧
    (∀ env msgid tp reg', RegisterDataClass env reg msgid tp = some reg' →
        bigDataOf reg' cid = true) ∧
    (∀ buf fs rtti st' res, rtti.ClassId = cid →
        writeStruct ⟨reg, buf⟩ fs rtti = some (st', res) →
        ∃ sign p,
          st'.buf = buf ++ (le16 sign ++ (if cid ≤ 65535 then le16 cid else le32 cid)
              ++ le32 ((headerLen (!decide (cid ≤ 65535)) true + p.length) % 4294967296)) ++ p
          ∧ sign &&& 2 = 2 ∧ sign &&& 0xFFFC = 0x6D98 ∧ res.2 = none) ∧
    (∀ buf rtti, rtti.ClassId = cid →
        ∃ sign,
          writeStructWith ⟨reg, buf⟩ rtti none
            = some (⟨reg, buf ++ (le16 sign ++ (if cid ≤ 65535 then le16 cid else le32 cid)
                ++ le32 0)⟩, 0, none)
          ∧ sign &&& 2 = 2 ∧ sign &&& 0xFFFC = 0x6D98) ∧
    (∀ buf fs rtti st1, rtti.ClassId = cid →
        writeFields (structSegs rtti.FieldData fs) rtti.FieldData fs 0
            ⟨reg, buf ++ headerBytes (!decide (cid ≤ 65535)) true cid 0⟩ = some st1 →
        ∃ st' n, writeStruct ⟨reg, buf⟩ fs rtti = some (st', n, none)) ∧
    (∀ t fs rtti reg1 p, GetRegRttiDataFromObj reg t = some rtti → rtti.ClassId = cid →
        writeFields (structSegs rtti.FieldData fs) rtti.FieldData fs 0
            ⟨reg, headerBytes (!decide (cid ≤ 65535)) true cid 0⟩
          = some ⟨reg1, headerBytes (!decide (cid ≤ 65535)) true cid 0 ++ p⟩ →
        Marshal reg (.iface t (.ptr (.struct fs)))
          = some (reg1, .ok (headerBytes (!decide (cid ≤ 65535)) true cid
                ((headerLen (!decide (cid ≤ 65535)) true + p.length) % 4294967296) ++ p))) ∧
    (∀ buf fs rtti, rtti.ClassId = cid → (∀ fd ∈ rtti.FieldData, fd.isPod = true) →
        rtti.FieldData.length ≤ fs.length →
        ∃ sign p n,
          writeStruct ⟨reg, buf⟩ fs rtti
            = some (⟨reg, buf ++ (le16 sign ++ (if cid ≤ 65535 then le16 cid else le32 cid)
                ++ le32 ((headerLen (!decide (cid ≤ 65535)) true + p.length) % 4294967296))
                ++ p⟩, n, none)
          ∧ sign &&& 2 = 2 ∧ sign &&& 0xFFFC = 0x6D98) := by
  refine ⟨fun v reg' res h => Marshal_mono reg reg' v res h cid hflag,
    fun env msgid tp reg' h => RegisterDataClass_mono env reg reg' msgid tp h cid hflag,
    ?_, ?_, ?_, ?_, ?_⟩
  · intro buf fs rtti st' res hc h
    subst hc
    obtain ⟨p, hp, hr⟩ := writeStruct_long reg buf fs rtti hflag st' res h
    obtain ⟨sign, hs, h2, h3⟩ := headerBytes_long_sign (!decide (rtti.ClassId ≤ 65535))
      rtti.ClassId ((headerLen (!decide (rtti.ClassId ≤ 65535)) true + p.length) % 4294967296)
    refine ⟨sign, p, ?_, h2, h3, hr⟩
    rw [hp, hs]
    by_cases hc : rtti.ClassId ≤ 65535 <;> simp [hc]
  · intro buf rtti hc
    subst hc
    obtain ⟨sign, hs, h2, h3⟩ := headerBytes_long_sign (!decide (rtti.ClassId ≤ 65535))
      rtti.ClassId 0
    refine ⟨sign, ?_, h2, h3⟩
    rw [writeStructWith_none, hflag, hs]
    by_cases hc : rtti.ClassId ≤ 65535 <;> simp [hc]
  · intro buf fs rtti st1 hc hw
    subst hc
    obtain ⟨⟨p, hp⟩, _⟩ := writeFields_ext fs _ _ _ _ _ hw
    simp only at hp
    exact ⟨_, _, writeStruct_long_eq reg buf fs rtti hflag st1 p hw hp⟩
  · intro t fs rtti reg1 p hl hc hw
    subst hc
    rw [Marshal_record reg reg1 t fs rtti p hl (by simpa [hflag] using hw)]
    simp [hflag]
  · intro buf fs rtti hc hpod hlen
    subst hc
    obtain ⟨p, hw⟩ := writeFields_pods (structSegs rtti.FieldData fs) rtti.FieldData fs 0
      ⟨reg, buf ++ headerBytes (!decide (rtti.ClassId ≤ 65535)) true rtti.ClassId 0⟩ hpod hlen
    obtain ⟨sign, hs, h2, h3⟩ := headerBytes_long_sign (!decide (rtti.ClassId ≤ 65535))
      rtti.ClassId ((headerLen (!decide (rtti.ClassId ≤ 65535)) true + p.length) % 4294967296)
    refine ⟨sign, p, (buf ++ headerBytes (!decide (rtti.ClassId ≤ 65535)) true rtti.ClassId
      ((headerLen (!decide (rtti.ClassId ≤ 65535)) true + p.length) % 4294967296) ++ p).length,
      ?_, h2, h3⟩
    rw [writeStruct_long_eq reg buf fs rtti hflag _ p hw rfl, hs]
    by_cases hc : rtti.ClassId ≤ 65535 <;> simp [hc]


/-- C7, amended: for a descriptor whose big-data flag is clear when the header is written and
a record whose payload `p` is at most `65535 - headerLength` bytes (65529 behind the 6-byte
header of a class id up to 65535, 65527 behind the 8-byte header of a larger one),
`writeStruct` emits the short length form: signature `6D98` or `6D99`, the class id, the
16-bit frame length, then the payload.  The length patch does not set the flag: the registry
is the one the field walk left. -/
theorem short_form_when_frame_fits (st st1 : WState) (fs : List Value) (rtti : TRegRttiData)
    (p : List Nat)
    (hflag : bigDataOf st.reg rtti.ClassId = false)
    (hw : writeFields (structSegs rtti.FieldData fs) rtti.FieldData fs 0
            ⟨st.reg, st.buf ++ headerBytes (!decide (rtti.ClassId ≤ 65535)) false rtti.ClassId 0⟩
          = some st1)
    (hp : st1.buf = st.buf ++ headerBytes (!decide (rtti.ClassId ≤ 65535)) false rtti.ClassId 0
            ++ p)
    (hfit : p.length ≤ 65535 - (if rtti.ClassId ≤ 65535 then 6 else 8)) :
    writeStruct st fs rtti =
      some (⟨st1.reg, st.buf ++ headerBytes (!decide (rtti.ClassId ≤ 65535)) false rtti.ClassId
                ((if rtti.ClassId ≤ 65535 then 6 else 8) + p.length) ++ p⟩,
            st.buf.length + (if rtti.ClassId ≤ 65535 then 6 else 8) + p.length, none) ∧
    (headerBytes (!decide (rtti.ClassId ≤ 65535)) false rtti.ClassId
        ((if rtti.ClassId ≤ 65535 then 6 else 8) + p.length)).length
      = (if rtti.ClassId ≤ 65535 then 6 else 8) ∧
    headerBytes (!decide (rtti.ClassId ≤ 65535)) false rtti.ClassId
        ((if rtti.ClassId ≤ 65535 then 6 else 8) + p.length)
      = le16 (if rtti.ClassId ≤ 65535 then 0x6D98 else 0x6D99)
          ++ (if rtti.ClassId ≤ 65535 then le16 rtti.ClassId else le32 rtti.ClassId)
          ++ le16 ((if rtti.ClassId ≤ 65535 then 6 else 8) + p.length) := by
  have hlen : headerLen (!decide (rtti.ClassId ≤ 65535)) false
      = (if rtti.ClassId ≤ 65535 then 6 else 8) := by
    by_cases hc : rtti.ClassId ≤ 65535 <;> simp [headerLen, hc]
  have hsmall : (if rtti.ClassId ≤ 65535 then 6 else 8) + p.length ≤ 65535 := by
    split_ifs at hfit ⊢ <;> omega
  refine ⟨?_, ?_, ?_⟩
  · rw [← hflag] at hw hp
    rw [writeStruct, writeStructWith_eq st rtti _ st1 p hw hp, hflag, hlen,
      Nat.mod_eq_of_lt (by omega), if_neg (by omega)]
    simp [headerBytes_length, hlen]
    omega
  · rw [headerBytes_length, hlen]
  · by_cases hc : rtti.ClassId ≤ 65535 <;> simp [headerBytes, hc, cSignFlag]


/-- Witness of C7, amended: the record `{a: 0x01020304}` of class id 1000. -/
theorem short_form_when_frame_fits_witness :
    bigDataOf exReg 1000 = false ∧
    writeStruct ⟨exReg, []⟩ [.pod [4, 3, 2, 1]]
        ⟨1000, false, .named 0,
          [⟨.basic .Int32, .Int32, .basic .Int32, 0, 1, 4, 0, 0, .Invalid, none⟩]⟩
      = some (⟨exReg, [0x98, 0x6D, 0xE8, 0x03, 0x0A, 0x00, 4, 3, 2, 1]⟩, 10, none) :=
  ⟨by decide,
   (short_form_when_frame_fits ⟨exReg, []⟩
      ⟨exReg, [0x98, 0x6D, 0xE8, 0x03, 0x00, 0x00, 4, 3, 2, 1]⟩ [.pod [4, 3, 2, 1]]
      ⟨1000, false, .named 0,
        [⟨.basic .Int32, .Int32, .basic .Int32, 0, 1, 4, 0, 0, .Invalid, none⟩]⟩
      [4, 3, 2, 1] (by decide) (by rfl) (by rfl) (by decide)).1⟩

theorem marshal_long_string_70000 (s : List Nat) (hs : s.length = 65526) :
    Marshal exReg (.iface (.ptr (.named 5)) (.ptr (.struct [.str s])))
      = some (setBigData exReg 70000, .ok (promoOut true (le16 65526 ++ s))) := by
  have hl : GetRegRttiDataFromObj exReg (.ptr (.named 5)) =
      some ⟨70000, false, .named 5,
        [⟨.basic .String, .String, .basic .String, 0, 1, 16, 0, 0, .Invalid, none⟩]⟩ := by
    decide
  have hflag : bigDataOf exReg 70000 = false := by decide
  have hw := walk_string exReg (headerBytes true false 70000 0) s
    ⟨.basic .String, .String, .basic .String, 0, 1, 16, 0, 0, .Invalid, none⟩ rfl rfl
    (by rw [hs]; decide)
  rw [hs] at hw
  rw [Marshal_record exReg exReg _ _ _ (le16 65526 ++ s) hl]
  · simp [hflag, headerLen, hs, le16]
  · simpa [hflag] using hw

theorem long_string_70000_facts (s : List Nat) (hs : s.length = 65526) :
    (le16 65526 ++ s).length ≤ 65529 ∧
    bigDataOf exReg 70000 = false ∧
    writeFields
        (structSegs [⟨.basic .String, .String, .basic .String, 0, 1, 16, 0, 0, .Invalid, none⟩]
          [.str s])
        [⟨.basic .String, .String, .basic .String, 0, 1, 16, 0, 0, .Invalid, none⟩]
        [.str s] 0 ⟨exReg, headerBytes true false 70000 0⟩
      = some ⟨exReg, headerBytes true false 70000 0 ++ (le16 65526 ++ s)⟩ ∧
    Marshal exReg (.iface (.ptr (.named 5)) (.ptr (.struct [.str s])))
      = some (setBigData exReg 70000, .ok (promoOut true (le16 65526 ++ s))) ∧
    bigDataOf (setBigData exReg 70000) 70000 = true ∧
    (promoOut true (le16 65526 ++ s)).length = 65528 := by
  refine ⟨by simp [le16, hs], by decide, ?_, marshal_long_string_70000 s hs, by decide, ?_⟩
  · have hw := walk_string exReg (headerBytes true false 70000 0) s
      ⟨.basic .String, .String, .basic .String, 0, 1, 16, 0, 0, .Invalid, none⟩ rfl rfl
      (by rw [hs]; decide)
    rw [hs] at hw
    exact hw
  · simp [promoOut, le16, le32, hs]

/-- C7, counterexample: class id 70000 (8-byte short header), flag clear, and a record
`{s string}` whose payload is 65528 bytes, within the claimed bound of 65529.  The frame would
be 65536 bytes, so the encoder promotes the descriptor: the flag is set after the call and no
short-form header is emitted. -/
theorem short_form_bound_counterexample :
    (le16 65526 ++ List.replicate 65526 97).length ≤ 65529 ∧
    bigDataOf exReg 70000 = false ∧
    writeFields
        (structSegs [⟨.basic .String, .String, .basic .String, 0, 1, 16, 0, 0, .Invalid, none⟩]
          [.str (List.replicate 65526 97)])
        [⟨.basic .String, .String, .basic .String, 0, 1, 16, 0, 0, .Invalid, none⟩]
        [.str (List.replicate 65526 97)] 0 ⟨exReg, headerBytes true false 70000 0⟩
      = some ⟨exReg, headerBytes true false 70000 0
                ++ (le16 65526 ++ List.replicate 65526 97)⟩ ∧
    Marshal exReg (.iface (.ptr (.named 5)) (.ptr (.struct [.str (List.replicate 65526 97)])))
      = some (setBigData exReg 70000,
              .ok (promoOut true (le16 65526 ++ List.replicate 65526 97))) ∧
    bigDataOf (setBigData exReg 70000) 70000 = true ∧
    (promoOut true (le16 65526 ++ List.replicate 65526 97)).length = 65528 :=
  long_string_70000_facts (List.replicate 65526 97) (List.length_replicate 65526 97)

theorem long_string_promotion_facts (s : List Nat) (hs : s.length = 65530) :
    bigDataOf exReg 2000 = false ∧
    Marshal exReg (.iface (.ptr (.named 2)) (.ptr (.struct [.str s])))
      = some (setBigData exReg 2000, .ok (promoOut false (le16 65530 ++ s))) ∧
    Marshal (setBigData exReg 2000) (.iface (.ptr (.named 2)) (.ptr (.struct [.str s])))
      = some (setBigData exReg 2000,
              .ok (headerBytes false true 2000 65540 ++ (le16 65530 ++ s))) ∧
    (promoOut false (le16 65530 ++ s)).length = 65532 ∧
    (headerBytes false true 2000 65540 ++ (le16 65530 ++ s)).length = 65540 ∧
    promoOut false (le16 65530 ++ s) ≠ headerBytes false true 2000 65540 ++ (le16 65530 ++ s) := by
  have h1 : (promoOut false (le16 65530 ++ s)).length = 65532 := by
    simp [promoOut, le16, le32, hs]
  have h2 : (headerBytes false true 2000 65540 ++ (le16 65530 ++ s)).length = 65540 := by
    simp [headerBytes, le16, le32, hs]
  refine ⟨by decide, marshal_long_string_2000 s hs, marshal_long_string_2000_promoted s hs,
    h1, h2, ?_⟩
  intro e
  rw [e, h2] at h1
  exact absurd h1 (by decide)

/-- C5 (code defect): promotion loses the header.  For the schema `{s string}` under class id
2000 with the flag clear and a string of 65530 bytes, `Marshal` sets the flag and returns the
65532 payload bytes alone, four of them overwritten by the payload length; encoding the same
record with the descriptor already promoted returns the 65540 bytes of a long-form header
followed by the unchanged payload.  The two results differ. -/
theorem promotion_drops_header :
    bigDataOf exReg 2000 = false ∧
    Marshal exReg (.iface (.ptr (.named 2)) (.ptr (.struct [.str (List.replicate 65530 97)])))
      = some (setBigData exReg 2000,
              .ok (promoOut false (le16 65530 ++ List.replicate 65530 97))) ∧
    Marshal (setBigData exReg 2000)
        (.iface (.ptr (.named 2)) (.ptr (.struct [.str (List.replicate 65530 97)])))
      = some (setBigData exReg 2000,
              .ok (headerBytes false true 2000 65540 ++ (le16 65530 ++ List.replicate 65530 97))) ∧
    (promoOut false (le16 65530 ++ List.replicate 65530 97)).length = 65532 ∧
    (headerBytes false true 2000 65540 ++ (le16 65530 ++ List.replicate 65530 97)).length
      = 65540 ∧
    promoOut false (le16 65530 ++ List.replicate 65530 97)
      ≠ headerBytes false true 2000 65540 ++ (le16 65530 ++ List.replicate 65530 97) :=
  long_string_promotion_facts (List.replicate 65530 97) (List.length_replicate 65530 97)

/-- C10, amended: for every registry that maps the record type `T` to a descriptor with a
16-bit class id `c` whose field vector is the one `RegisterDataClass` computes for the schema
`{n int32; s string}`, with the big-data flag of `c` clear, `Marshal` of `{n: 1, s: "hi"}`
returns 14 bytes: `98 6D`, the class id as two bytes, the `DataLength` `0E 00`, then
`01 00 00 00`, `02 00`, `'h'`, `'i'`.  The registry may hold any other registrations. -/
theorem marshal_hi_bytes (c : Nat) (hc : c ≤ 65535) (env : TypeEnv) (reg : Registry)
    (T : RType) (rtti : TRegRttiData)
    (hl : lookupDataClass reg T = some rtti) (hcid : rtti.ClassId = c)
    (hfd : registerLoop env [⟨.basic .Int32, 0⟩, ⟨.basic .String, 8⟩] [] 0 0
      = some rtti.FieldData)
    (hflag : bigDataOf reg c = false) :
    Marshal reg (.iface (.ptr T) (.ptr (.struct [.pod [1, 0, 0, 0], .str [104, 105]])))
      = some (reg, .ok ([0x98, 0x6D] ++ le16 c
                ++ [0x0E, 0x00, 0x01, 0x00, 0x00, 0x00, 0x02, 0x00, 104, 105])) := by
  obtain ⟨cid, b, rT, fds⟩ := rtti
  simp only at hcid
  subst hcid
  simp [registerLoop, TRegFieldOffsetData.isPod, isPod, Kind.toNat, RType.Kind, RType.Size,
    Kind.size] at hfd
  subst hfd
  have hl2 : GetRegRttiDataFromObj reg (.ptr T) =
      some ⟨cid, b, rT,
        [⟨.basic .Int32, .Int32, .basic .Int32, 0, 1, 4, 0, 0, .Invalid, none⟩,
         ⟨.basic .String, .String, .basic .String, 8, 1, 16, 0, 0, .Invalid, none⟩]⟩ := by
    simp [GetRegRttiDataFromObj, RType.Kind, RType.Elem, hl]
  rw [Marshal_record reg reg _ _ _ [1, 0, 0, 0, 2, 0, 104, 105] hl2]
  · simp [hflag, headerLen, hc, headerBytes, le16, cSignFlag]
  · simp [hflag, writeFields, writeField_eq, TRegFieldOffsetData.isPod, isPod, Kind.toNat,
      structSegs, writeMemory, memRead, segByte, Write, List.range, List.range.loop,
      writeString, writeUint16, le16]

/-- Witness of C10, amended: class id 7 in the registry of the worked examples, which holds
five further registrations. -/
theorem marshal_hi_bytes_witness :
    7 ≤ 65535 ∧
    lookupDataClass exReg (.named 1)
      = some ⟨7, false, .named 1,
          [⟨.basic .Int32, .Int32, .basic .Int32, 0, 1, 4, 0, 0, .Invalid, none⟩,
           ⟨.basic .String, .String, .basic .String, 8, 1, 16, 0, 0, .Invalid, none⟩]⟩ ∧
    bigDataOf exReg 7 = false ∧
    Marshal exReg (.iface (.ptr (.named 1)) (.ptr (.struct [.pod [1, 0, 0, 0], .str [104, 105]])))
      = some (exReg, .ok ([0x98, 0x6D] ++ le16 7
                ++ [0x0E, 0x00, 0x01, 0x00, 0x00, 0x00, 0x02, 0x00, 104, 105])) :=
  ⟨by decide, by decide, by decide,
    marshal_hi_bytes 7 (by decide) exEnv exReg (.named 1)
      ⟨7, false, .named 1,
        [⟨.basic .Int32, .Int32, .basic .Int32, 0, 1, 4, 0, 0, .Invalid, none⟩,
         ⟨.basic .String, .String, .basic .String, 8, 1, 16, 0, 0, .Invalid, none⟩]⟩
      (by decide) rfl (by decide) (by decide)⟩

/-- C10, counterexample: under class id 7 the frame of `{n: 1, s: "hi"}` has 14 bytes and its
`DataLength` field is `0E 00`; it is not a 13-byte frame with `DataLength` `0D 00`.  The 14
bytes are those of a descriptor whose flag is clear and of the class id the record type maps
to: with the flag of class id 7 set the frame has 16 bytes, in the long length form, and with
the record type registered under 7 and then under 8 the class id written is `08 00`, although
class id 7 is registered with the same schema. -/
theorem marshal_hi_not_13_bytes :
    Marshal exReg (.iface (.ptr (.named 1))
        (.ptr (.struct [.pod [1, 0, 0, 0], .str [104, 105]])))
      = some (exReg, .ok [0x98, 0x6D, 0x07, 0x00, 0x0E, 0x00, 0x01, 0x00, 0x00, 0x00,
                          0x02, 0x00, 104, 105]) ∧
    [0x98, 0x6D, 0x07, 0x00, 0x0E, 0x00, 0x01, 0x00, 0x00, 0x00, 0x02, 0x00, 104, 105].length
      ≠ 13 ∧
    [0x98, 0x6D, 0x07, 0x00, 0x0E, 0x00, 0x01, 0x00, 0x00, 0x00, 0x02, 0x00, 104, 105]
      ≠ [0x98, 0x6D, 0x07, 0x00, 0x0D, 0x00, 0x01, 0x00, 0x00, 0x00, 0x02, 0x00, 104, 105] ∧
    Marshal (setBigData exReg 7) (.iface (.ptr (.named 1))
        (.ptr (.struct [.pod [1, 0, 0, 0], .str [104, 105]])))
      = some (setBigData exReg 7,
          .ok [0x9A, 0x6D, 0x07, 0x00, 0x10, 0x00, 0x00, 0x00, 0x01, 0x00, 0x00, 0x00,
               0x02, 0x00, 104, 105]) ∧
    GetRegRttiDataByClassId
        ((registerAll exEnv [(7, .ptr (.named 1)), (8, .ptr (.named 1))] Registry.empty).getD
          Registry.empty) 7
      = some ⟨7, false, .named 1,
          [⟨.basic .Int32, .Int32, .basic .Int32, 0, 1, 4, 0, 0, .Invalid, none⟩,
           ⟨.basic .String, .String, .basic .String, 8, 1, 16, 0, 0, .Invalid, none⟩]⟩ ∧
    Marshal
        ((registerAll exEnv [(7, .ptr (.named 1)), (8, .ptr (.named 1))] Registry.empty).getD
          Registry.empty)
        (.iface (.ptr (.named 1)) (.ptr (.struct [.pod [1, 0, 0, 0], .str [104, 105]])))
      = some ((registerAll exEnv [(7, .ptr (.named 1)), (8, .ptr (.named 1))]
                Registry.empty).getD Registry.empty,
          .ok [0x98, 0x6D, 0x08, 0x00, 0x0E, 0x00, 0x01, 0x00, 0x00, 0x00,
               0x02, 0x00, 104, 105]) :=
  ⟨rfl, by decide, by decide, rfl, by decide, rfl⟩

/-- Witness of C9, amended: class id 1000 and `a = 0x01020304` in the registry of the worked
examples, which holds five later registrations, give `98 6D E8 03 0A 00 04 03 02 01`. -/
theorem marshal_i32_bytes_witness :
    1000 ≤ 65535 ∧
    lookupDataClass exReg (.named 0)
      = some ⟨1000, false, .named 0,
          [⟨.basic .Int32, .Int32, .basic .Int32, 0, 1, 4, 0, 0, .Invalid, none⟩]⟩ ∧
    bigDataOf exReg 1000 = false ∧
    Marshal exReg (.iface (.ptr (.named 0)) (.ptr (.struct [.pod (le32 0x01020304)])))
      = some (exReg, .ok ([0x98, 0x6D] ++ le16 1000 ++ [0x0A, 0x00] ++ le32 0x01020304)) :=
  ⟨by decide, by decide, by decide,
    marshal_i32_bytes 1000 0x01020304 (by decide) exEnv exReg (.named 0)
      ⟨1000, false, .named 0,
        [⟨.basic .Int32, .Int32, .basic .Int32, 0, 1, 4, 0, 0, .Invalid, none⟩]⟩
      (by decide) rfl (by decide) (by decide)⟩

/-- C9, counterexample: in the registry `exReg3` the class id 10 is registered with the
schema `{a int32}`, flag clear, and the same record type is registered again under the class
id 11, to which the registry then maps the type.  `Marshal` of `{a: 0x01020304}` writes the
class id `0B 00` of the later registration: the bytes are not
`98 6D 0A 00 0A 00 04 03 02 01`. -/
theorem marshal_i32_other_class_id :
    GetRegRttiDataByClassId exReg3 10
      = some ⟨10, false, .named 0,
          [⟨.basic .Int32, .Int32, .basic .Int32, 0, 1, 4, 0, 0, .Invalid, none⟩]⟩ ∧
    lookupDataClass exReg3 (.named 0)
      = some ⟨11, false, .named 0,
          [⟨.basic .Int32, .Int32, .basic .Int32, 0, 1, 4, 0, 0, .Invalid, none⟩]⟩ ∧
    Marshal exReg3 (.iface (.ptr (.named 0)) (.ptr (.struct [.pod (le32 0x01020304)])))
      = some (exReg3, .ok [0x98, 0x6D, 0x0B, 0x00, 0x0A, 0x00, 0x04, 0x03, 0x02, 0x01]) ∧
    [0x98, 0x6D, 0x0B, 0x00, 0x0A, 0x00, 0x04, 0x03, 0x02, 0x01]
      ≠ [0x98, 0x6D] ++ le16 10 ++ [0x0A, 0x00] ++ le32 0x01020304 :=
  ⟨by decide, by decide, rfl, by decide⟩

/-- Witness of C6: class id 2000 of the worked examples, after promotion: the record
`{s: "hi"}`, whose frame has 12 bytes, is written with the signature `6D9A` and the 32-bit
`DataLength` `0C 00 00 00`. -/
theorem bigData_latch_witness :
    bigDataOf (setBigData exReg 2000) 2000 = true ∧
    Marshal (setBigData exReg 2000)
        (.iface (.ptr (.named 2)) (.ptr (.struct [.str [104, 105]])))
      = some (setBigData exReg 2000,
          .ok [0x9A, 0x6D, 0xD0, 0x07, 0x0C, 0x00, 0x00, 0x00, 0x02, 0x00, 104, 105]) :=
  ⟨by decide,
    (bigData_latch (setBigData exReg 2000) 2000 (by decide)).2.2.2.2.2.1
      (.ptr (.named 2)) [.str [104, 105]]
      ⟨2000, true, .named 2,
        [⟨.basic .String, .String, .basic .String, 0, 1, 16, 0, 0, .Invalid, none⟩]⟩
      (setBigData exReg 2000) [0x02, 0x00, 104, 105] (by decide) rfl rfl⟩

/-- Witness of C2: class id 1000, short forms, `DataLength` 10. -/
theorem header_roundtrip_witness :
    ((1000 : Nat) < 4294967296 ∧ (10 : Nat) < 4294967296) ∧
    ∃ b, UpdateDataLength ((WriteDataHead [] ⟨1000, false, .named 0, []⟩).2 ++ [4, 3, 2, 1]) 10
            (WriteDataHead [] ⟨1000, false, .named 0, []⟩).1
          = some (2, (WriteDataHead [] ⟨1000, false, .named 0, []⟩).1, b) ∧
      ReadDataHead { buf := b, off := 0 } =
        some ({ isValid := true, headerLength := 6, classId := 1000, dataLength := 10 },
              { buf := b, off := 6 }) :=
  ⟨⟨by decide, by decide⟩,
   header_roundtrip [] [4, 3, 2, 1] ⟨1000, false, .named 0, []⟩ 10 (by decide) (by decide)
     (by decide) (fun _ => by decide)⟩

/-- C1 (code defect): the round trip fails on an empty string.  For the schema `{s string}`
under class id 2000, `Marshal` of the record with `s = ""` returns the 8 bytes
`98 6D D0 07 08 00 00 00`, and `Unmarshal` of these bytes returns a decode error, because
`readString` reports failure for the length 0. -/
theorem empty_string_roundtrip_fails :
    Marshal exReg (.iface (.ptr (.named 2)) (.ptr (.struct [.str []])))
      = some (exReg, .ok [0x98, 0x6D, 0xD0, 0x07, 0x08, 0x00, 0x00, 0x00]) ∧
    Unmarshal exEnv exReg [0x98, 0x6D, 0xD0, 0x07, 0x08, 0x00, 0x00, 0x00]
      = .ok (.error "解析失败") := by
  constructor <;> rfl

/-- C4 (code defect): a nil record keeps the placeholder length.  `Marshal` of a nil pointer to
the registered record type of class id 1000 returns a 6-byte frame whose `DataLength` field
is 0, and a nil pointer stored in an interface field gives a nested 6-byte frame whose
`DataLength` field is 0 as well; neither encoding promotes a descriptor. -/
theorem nil_record_dataLength_zero :
    Marshal exReg (.iface (.ptr (.named 0)) .nilPtr)
      = some (exReg, .ok [0x98, 0x6D, 0xE8, 0x03, 0x00, 0x00]) ∧
    Marshal exReg (.iface (.ptr (.named 4))
        (.ptr (.struct [.iface (.ptr (.named 0)) .nilPtr])))
      = some (exReg, .ok [0x98, 0x6D, 0x09, 0x00, 0x0C, 0x00,
                          0x98, 0x6D, 0xE8, 0x03, 0x00, 0x00]) := by
  constructor <;> rfl

/-- C8 (code defect): a nil reference does not decode.  For the schema `{p *T}` under class id
8, with `T` registered under class id 1000, `Marshal` of the record with `p = nil` writes
the 6-byte empty header `98 6D 00 00 06 00` for the field, and `Unmarshal` of the resulting
bytes returns a decode error: `readPointer` compares the class id 0 of the empty header with
the class id of `T` before it looks at the length. -/
theorem nil_reference_decode_fails :
    Marshal exReg (.iface (.ptr (.named 3)) (.ptr (.struct [.nilPtr])))
      = some (exReg, .ok [0x98, 0x6D, 0x08, 0x00, 0x0C, 0x00,
                          0x98, 0x6D, 0x00, 0x00, 0x06, 0x00]) ∧
    Unmarshal exEnv exReg [0x98, 0x6D, 0x08, 0x00, 0x0C, 0x00,
                          0x98, 0x6D, 0x00, 0x00, 0x06, 0x00]
      = .ok (.error "解析失败") := by
  constructor <;> rfl

/-! ## Errors the encoder does not report -/

theorem walk_string_wrapped (reg : Registry) (buf s : List Nat) (fd : TRegFieldOffsetData)
    (hk : fd.Kind = .String) (hm : fd.podMergeCount = 1) (hs : s.length % 65536 = 0) :
    writeFields (structSegs [fd] [.str s]) [fd] [.str s] 0 ⟨reg, buf⟩
      = some ⟨reg, buf ++ [0, 0]⟩ := by
  simp [writeFields, writeField_eq, TRegFieldOffsetData.isPod, isPod, Kind.toNat, hk, hm,
    writeString, writeUint16, Write, hs, le16]

theorem marshal_string_65536 (s : List Nat) (hs : s.length = 65536) :
    Marshal exReg (.iface (.ptr (.named 2)) (.ptr (.struct [.str s])))
      = some (exReg, .ok [0x98, 0x6D, 0xD0, 0x07, 0x08, 0x00, 0x00, 0x00]) := by
  have hl : GetRegRttiDataFromObj exReg (.ptr (.named 2)) =
      some ⟨2000, false, .named 2,
        [⟨.basic .String, .String, .basic .String, 0, 1, 16, 0, 0, .Invalid, none⟩]⟩ := by
    decide
  have hflag : bigDataOf exReg 2000 = false := by decide
  have hw := walk_string_wrapped exReg (headerBytes false false 2000 0) s
    ⟨.basic .String, .String, .basic .String, 0, 1, 16, 0, 0, .Invalid, none⟩ rfl rfl
    (by rw [hs])
  rw [Marshal_record exReg exReg _ _ _ [0, 0] hl]
  · simp [hflag, headerLen, headerBytes, le16, cSignFlag]
  · simpa [hflag] using hw

theorem marshal_string_65537 (s : List Nat) (hs : s.length = 65537) :
    Marshal (setBigData exReg 2000) (.iface (.ptr (.named 2)) (.ptr (.struct [.str s])))
      = some (setBigData exReg 2000,
              .ok (headerBytes false true 2000 65547 ++ (le16 1 ++ s))) := by
  have hl : GetRegRttiDataFromObj (setBigData exReg 2000) (.ptr (.named 2)) =
      some ⟨2000, true, .named 2,
        [⟨.basic .String, .String, .basic .String, 0, 1, 16, 0, 0, .Invalid, none⟩]⟩ := by
    decide
  have hflag : bigDataOf (setBigData exReg 2000) 2000 = true := by decide
  have hw := walk_string (setBigData exReg 2000) (headerBytes false true 2000 0) s
    ⟨.basic .String, .String, .basic .String, 0, 1, 16, 0, 0, .Invalid, none⟩ rfl rfl
    (by rw [hs]; decide)
  rw [hs] at hw
  rw [Marshal_record (setBigData exReg 2000) (setBigData exReg 2000) _ _ _ (le16 1 ++ s) hl]
  · simp [hflag, headerLen, hs, le16]
  · simpa [hflag] using hw

/-- C11 (code defect): a string of 65536 bytes or more is encoded without an error.  For the
schema `{s string}` under class id 2000, `Marshal` of a record whose string has 65536 bytes
returns the 8 bytes `98 6D D0 07 08 00 00 00`, the encoding of the empty string: the length
prefix is the length modulo 65536, and no byte of the string is written.  With 65537 bytes
(descriptor already promoted) it returns a frame whose length prefix is `01 00` followed by
all 65537 bytes. -/
theorem long_string_marshals_without_error :
    Marshal exReg (.iface (.ptr (.named 2)) (.ptr (.struct [.str (List.replicate 65536 97)])))
      = some (exReg, .ok [0x98, 0x6D, 0xD0, 0x07, 0x08, 0x00, 0x00, 0x00]) ∧
    Marshal (setBigData exReg 2000)
        (.iface (.ptr (.named 2)) (.ptr (.struct [.str (List.replicate 65537 97)])))
      = some (setBigData exReg 2000,
              .ok (headerBytes false true 2000 65547 ++ (le16 1 ++ List.replicate 65537 97))) :=
  ⟨marshal_string_65536 (List.replicate 65536 97) (List.length_replicate 65536 97),
   marshal_string_65537 (List.replicate 65537 97) (List.length_replicate 65537 97)⟩

/-- C12 (code defect): an unregistered value in an interface field raises no error.  The type
`*V` is not registered; `Marshal` of a `*V` itself returns the error of `writeAny`, but
`Marshal` of the record `{x: v}` of the schema `{x interface{}}` (class id 9) with `v` of type
`*V` returns the 6 bytes `98 6D 09 00 06 00` and no error: the field loop drops the error of
the nested `writeAny`. -/
theorem unregistered_dynamic_value_ignored :
    GetRegRttiDataFromObj exReg (.ptr (.named 6)) = none ∧
    Marshal exReg (.iface (.ptr (.named 6)) (.ptr (.struct [])))
      = some (exReg, .error "object isn't register") ∧
    Marshal exReg (.iface (.ptr (.named 4))
        (.ptr (.struct [.iface (.ptr (.named 6)) (.ptr (.struct []))])))
      = some (exReg, .ok [0x98, 0x6D, 0x09, 0x00, 0x06, 0x00]) :=
  ⟨by decide, rfl, rfl⟩

/-! ## Registration of a class id that is already registered -/

/-- C20: when class id `c` is already registered, `RegisterDataClass(c, x)` returns at once
for every exemplar type `x`: the registry afterwards is the registry before, so both maps,
the descriptor of `c`, its field vector and its `BigData` flag are unchanged. -/
theorem RegisterDataClass_again (env : TypeEnv) (reg : Registry) (c : Nat) (x : RType)
    (h : (GetRegRttiDataByClassId reg c).isSome = true) :
    RegisterDataClass env reg c x = some reg := by
  simp only [GetRegRttiDataByClassId] at h
  simp [RegisterDataClass, h]

/-- Witness of C20: class id 2000 with its flag set, registered again with another type. -/
theorem RegisterDataClass_again_witness :
    (GetRegRttiDataByClassId (setBigData exReg 2000) 2000).isSome = true ∧
    RegisterDataClass exEnv (setBigData exReg 2000) 2000 (.ptr (.named 0))
      = some (setBigData exReg 2000) :=
  ⟨by decide, RegisterDataClass_again exEnv (setBigData exReg 2000) 2000 (.ptr (.named 0))
    (by decide)⟩

/-! ## Errors and faults of the decoder -/

theorem ReadDataHead_facts (r : ProtocolReader) (h : ProtocolDataHeader) (r' : ProtocolReader)
    (e : ReadDataHead r = some (h, r')) :
    r'.buf = r.buf ∧ r.off ≤ r'.off ∧
      (h.isValid = true →
        r'.off = r.off + h.headerLength ∧ 6 ≤ h.headerLength ∧
          h.headerLength ≤ h.dataLength ∧ r'.off ≤ r.buf.length) := by
  obtain ⟨buf, off⟩ := r
  simp only [ReadDataHead, Len_lt_six, Len_lt_four, Len_lt_two] at e
  by_cases hlen : buf.length < off + 6
  · simp [hlen, ProtocolDataHeader.init] at e
    obtain ⟨rfl, rfl⟩ := e
    simp
  · have e0 := readUint16_eq ⟨buf, off⟩ (by simp; omega)
    have e1 := readUint16_eq ⟨buf, off + 2⟩ (by simp; omega)
    have e1' := readUint32_eq ⟨buf, off + 2⟩ (by simp; omega)
    have e2 := readUint16_eq ⟨buf, off + 2 + 2⟩ (by simp; omega)
    have e2' := readUint16_eq ⟨buf, off + 2 + 4⟩
    have e3 := readUint32_eq ⟨buf, off + 2 + 2⟩
    have e3' := readUint32_eq ⟨buf, off + 2 + 4⟩
    simp only [] at e0 e1 e1' e2 e2' e3 e3'
    simp only [hlen, if_false, e0] at e
    by_cases hs : u16At buf off &&& cSignFlagMask = cSignFlag
    · by_cases hb0 : u16At buf off &&& 1 = 1 <;> by_cases hb1 : u16At buf off &&& 2 = 2 <;>
        simp only [Nat.and_one_is_mod] at hb0
      · by_cases hl : buf.length < off + 2 + 4 + 4
        · simp [hs, hb0, hb1, e1', hl, ProtocolDataHeader.init] at e
          obtain ⟨rfl, rfl⟩ := e
          simp
          try omega
        · simp [hs, hb0, hb1, e1', hl, e3' (by omega), ProtocolDataHeader.init] at e
          obtain ⟨rfl, rfl⟩ := e
          simp
          try omega
      · by_cases hl : buf.length < off + 2 + 4 + 2
        · simp [hs, hb0, hb1, e1', hl, ProtocolDataHeader.init] at e
          obtain ⟨rfl, rfl⟩ := e
          simp
          try omega
        · simp [hs, hb0, hb1, e1', hl, e2' (by omega), ProtocolDataHeader.init] at e
          obtain ⟨rfl, rfl⟩ := e
          simp
          try omega
      · by_cases hl : buf.length < off + 2 + 2 + 4
        · simp [hs, hb0, hb1, e1, hl, ProtocolDataHeader.init] at e
          obtain ⟨rfl, rfl⟩ := e
          simp
          try omega
        · simp [hs, hb0, hb1, e1, hl, e3 (by omega), ProtocolDataHeader.init] at e
          obtain ⟨rfl, rfl⟩ := e
          simp
          try omega
      · have hl : ¬ buf.length < off + 2 + 2 + 2 := by omega
        simp [hs, hb0, hb1, e1, hl, e2, ProtocolDataHeader.init] at e
        obtain ⟨rfl, rfl⟩ := e
        simp
        try omega
    · simp [hs, ProtocolDataHeader.init] at e
      obtain ⟨rfl, rfl⟩ := e
      simp
      try omega

/-- C13: `Unmarshal` returns an error, and no value, whenever the header read at the start of
the buffer is invalid, whenever the buffer holds fewer bytes than the `DataLength` of that
header, and whenever the class id of that header has no registered descriptor. -/
theorem Unmarshal_rejects (env : TypeEnv) (reg : Registry) (data : List Nat)
    (h : ProtocolDataHeader) (r1 : ProtocolReader)
    (hh : ReadDataHead (NewProtocolReader data) = some (h, r1))
    (hbad : h.isValid = false ∨ data.length < h.dataLength ∨
      GetRegRttiDataByClassId reg h.classId = none) :
    ∃ msg, Unmarshal env reg data = .ok (.error msg) := by
  obtain ⟨hbuf, -, -⟩ := ReadDataHead_facts _ _ _ hh
  have hb : r1.buf.length = data.length := by rw [hbuf]; rfl
  simp only [Unmarshal, readAny, readAnyWith, hh]
  by_cases hv : h.isValid = true
  · by_cases hlen : data.length < h.dataLength
    · have : ((r1.buf.length : Int) - ((NewProtocolReader data).off : Int)) % 4294967296
          < (h.dataLength : Int) := by
        simp only [NewProtocolReader, hb]
        omega
      simp [hv, this]
    · by_cases hlt : ((r1.buf.length : Int) - ((NewProtocolReader data).off : Int)) % 4294967296
          < (h.dataLength : Int)
      · simp [hv, hlt]
      · have hc : GetRegRttiDataByClassId reg h.classId = none := by
          rcases hbad with hb1 | hb1 | hb1
          · rw [hv] at hb1; cases hb1
          · exact absurd hb1 hlen
          · exact hb1
        simp [hv, hlt, hc]
  · simp [hv]

/-- Witness of C13: a buffer without a signature, a frame of class id 1000 that declares 10
bytes in a buffer of 8, and a frame of the unregistered class id 5. -/
theorem Unmarshal_rejects_witness :
    (ReadDataHead (NewProtocolReader [0, 0, 0]) = some (ProtocolDataHeader.init, ⟨[0, 0, 0], 0⟩)
      ∧ ∃ msg, Unmarshal exEnv exReg [0, 0, 0] = .ok (.error msg)) ∧
    (ReadDataHead (NewProtocolReader [0x98, 0x6D, 0xE8, 0x03, 0x0A, 0x00, 1, 2])
        = some (⟨true, 6, 1000, 10⟩, ⟨[0x98, 0x6D, 0xE8, 0x03, 0x0A, 0x00, 1, 2], 6⟩)
      ∧ ∃ msg, Unmarshal exEnv exReg [0x98, 0x6D, 0xE8, 0x03, 0x0A, 0x00, 1, 2]
          = .ok (.error msg)) ∧
    (ReadDataHead (NewProtocolReader [0x98, 0x6D, 0x05, 0x00, 0x06, 0x00])
        = some (⟨true, 6, 5, 6⟩, ⟨[0x98, 0x6D, 0x05, 0x00, 0x06, 0x00], 6⟩)
      ∧ GetRegRttiDataByClassId exReg 5 = none
      ∧ ∃ msg, Unmarshal exEnv exReg [0x98, 0x6D, 0x05, 0x00, 0x06, 0x00] = .ok (.error msg)) :=
  ⟨⟨rfl, Unmarshal_rejects exEnv exReg [0, 0, 0] _ _ rfl (Or.inl rfl)⟩,
   ⟨rfl, Unmarshal_rejects exEnv exReg [0x98, 0x6D, 0xE8, 0x03, 0x0A, 0x00, 1, 2] _ _ rfl
      (Or.inr (Or.inl (by decide)))⟩,
   ⟨rfl, by decide, Unmarshal_rejects exEnv exReg [0x98, 0x6D, 0x05, 0x00, 0x06, 0x00] _ _ rfl
      (Or.inr (Or.inr (by decide)))⟩⟩

/-- C14 (code defect): a primitive read passes the end of the frame.  The frame of class id
1000 (schema `{a int32}`) at position 0 declares `DataLength` 8, so it ends before index 8;
the decoder copies the four bytes at indices 6..9 into `a`, and the decoded record changes
with the bytes at indices 8 and 9. -/
theorem pod_read_passes_frame_end :
    Unmarshal exEnv exReg [0x98, 0x6D, 0xE8, 0x03, 0x08, 0x00, 1, 2, 3, 4]
      = .ok (.ok (.iface (.ptr (.named 0)) (.ptr (.struct [.pod [1, 2, 3, 4]])))) ∧
    Unmarshal exEnv exReg [0x98, 0x6D, 0xE8, 0x03, 0x08, 0x00, 1, 2, 9, 9]
      = .ok (.ok (.iface (.ptr (.named 0)) (.ptr (.struct [.pod [1, 2, 9, 9]])))) :=
  ⟨rfl, rfl⟩

/-- C15 (code defect): `Unmarshal` panics on a well-formed frame.  For the schema
`{xs []uint8}` under class id 2, `Marshal` of a record whose slice has 65 elements returns a
frame of 75 bytes, and `Unmarshal` of that frame panics: the second round of the loop of
`readMemory` evaluates a slice expression whose low bound `off + 64*64` exceeds its high
bound `off + 65`. -/
theorem unmarshal_panics_on_long_slice :
    Marshal exReg2 (.iface (.ptr (.named 1))
        (.ptr (.struct [.slice (List.replicate 65 (.pod [7]))])))
      = some (exReg2, .ok ([0x98, 0x6D, 0x02, 0x00, 0x4B, 0x00, 65, 0, 0, 0]
                ++ List.replicate 65 7)) ∧
    Unmarshal exEnv2 exReg2
        ([0x98, 0x6D, 0x02, 0x00, 0x4B, 0x00, 65, 0, 0, 0] ++ List.replicate 65 7)
      = .error .panic :=
  ⟨rfl, rfl⟩

/-- C17 (code defect): a merged run reads the bytes that follow a truncated frame.  For the
schema `{a int32; b int32}` under class id 1 the two fields form one run of 8 bytes.  A frame
that holds only `a` (`DataLength` 10) decodes with `b = 0` when the buffer ends with the
frame, but with `b` taken from the four bytes after the frame when the buffer goes on. -/
theorem merged_run_reads_following_bytes :
    Unmarshal exEnv2 exReg2 [0x98, 0x6D, 0x01, 0x00, 0x0A, 0x00, 1, 0, 0, 0]
      = .ok (.ok (.iface (.ptr (.named 0))
          (.ptr (.struct [.pod [1, 0, 0, 0], .pod [0, 0, 0, 0]])))) ∧
    Unmarshal exEnv2 exReg2 [0x98, 0x6D, 0x01, 0x00, 0x0A, 0x00, 1, 0, 0, 0, 9, 9, 9, 9]
      = .ok (.ok (.iface (.ptr (.named 0))
          (.ptr (.struct [.pod [1, 0, 0, 0], .pod [9, 9, 9, 9]])))) :=
  ⟨rfl, rfl⟩

/-- C18 (code defect): decoding an array that arrives with more elements than declared can
fail.  For `{ss [1]string}` (class id 4) the wire elements `"a"`, `"bc"` decode to `["a"]`,
but the wire elements `"a"`, `""` give a decode error, because the dropped element is read
by `readString`.  For `{w [9]int64}` (class id 5) ten wire elements make `readMemory` panic,
as the 72 bytes kept exceed 64.  For `{v [2]int32; t int32}` (class id 6) three wire elements
decode to `v = [1, 2]` and the reader is aligned on `t`. -/
theorem array_overflow_decode_fails :
    Unmarshal exEnv2 exReg2
        [0x98, 0x6D, 0x04, 0x00, 17, 0, 2, 0, 0, 0, 1, 0, 97, 2, 0, 98, 99]
      = .ok (.ok (.iface (.ptr (.named 3)) (.ptr (.struct [.arr [.str [97]]])))) ∧
    Unmarshal exEnv2 exReg2 [0x98, 0x6D, 0x04, 0x00, 15, 0, 2, 0, 0, 0, 1, 0, 97, 0, 0]
      = .ok (.error "解析失败") ∧
    Unmarshal exEnv2 exReg2
        ([0x98, 0x6D, 0x05, 0x00, 90, 0, 10, 0, 0, 0] ++ List.replicate 80 1)
      = .error .panic ∧
    Unmarshal exEnv2 exReg2
        [0x98, 0x6D, 0x06, 0x00, 26, 0, 3, 0, 0, 0, 1, 0, 0, 0, 2, 0, 0, 0, 3, 0, 0, 0,
         7, 0, 0, 0]
      = .ok (.ok (.iface (.ptr (.named 5))
          (.ptr (.struct [.arr [.pod [1, 0, 0, 0], .pod [2, 0, 0, 0]], .pod [7, 0, 0, 0]])))) :=
  ⟨rfl, rfl, rfl, rfl⟩

/-- C19 (code defect): a run is merged across a field of size 0.  For the layout
`{a int32; z [0]int32; b int32}` (offsets 0, 4, 4; class id 3) registration merges `a` and
`b` into one run of 8 bytes although `z` is declared between them.  The encoder then emits
`a`, `b`, `b`, while emitting every declared field on its own gives `a`, the element count
`00 00 00 00` of `z`, `b`. -/
theorem merged_run_across_empty_array :
    GetRegRttiDataFromObj exReg2 (.ptr (.named 2)) =
      some ⟨3, false, .named 2,
        [⟨.basic .Int32, .Int32, .basic .Int32, 0, 2, 8, 0, 0, .Invalid, none⟩,
         ⟨.array 0 (.basic .Int32), .Array, .array 0 (.basic .Int32), 4, 1, 0, 4, 0, .Int32,
           some (.basic .Int32)⟩,
         ⟨.basic .Int32, .Int32, .basic .Int32, 4, 1, 4, 0, 0, .Invalid, none⟩]⟩ ∧
    Marshal exReg2 (.iface (.ptr (.named 2))
        (.ptr (.struct [.pod [1, 0, 0, 0], .arr [], .pod [2, 0, 0, 0]])))
      = some (exReg2, .ok [0x98, 0x6D, 0x03, 0x00, 18, 0,
                           1, 0, 0, 0, 2, 0, 0, 0, 2, 0, 0, 0]) ∧
    writeFields
        (structSegs
          [⟨.basic .Int32, .Int32, .basic .Int32, 0, 2, 8, 0, 0, .Invalid, none⟩,
           ⟨.array 0 (.basic .Int32), .Array, .array 0 (.basic .Int32), 4, 1, 0, 4, 0, .Int32,
             some (.basic .Int32)⟩,
           ⟨.basic .Int32, .Int32, .basic .Int32, 4, 1, 4, 0, 0, .Invalid, none⟩]
          [.pod [1, 0, 0, 0], .arr [], .pod [2, 0, 0, 0]])
        (unmergedFieldData exEnv2
          [⟨.basic .Int32, .Int32, .basic .Int32, 0, 2, 8, 0, 0, .Invalid, none⟩,
           ⟨.array 0 (.basic .Int32), .Array, .array 0 (.basic .Int32), 4, 1, 0, 4, 0, .Int32,
             some (.basic .Int32)⟩,
           ⟨.basic .Int32, .Int32, .basic .Int32, 4, 1, 4, 0, 0, .Invalid, none⟩])
        [.pod [1, 0, 0, 0], .arr [], .pod [2, 0, 0, 0]] 0 ⟨exReg2, []⟩
      = some ⟨exReg2, [1, 0, 0, 0, 0, 0, 0, 0, 2, 0, 0, 0]⟩ :=
  ⟨by decide, rfl, rfl⟩

/-! ## The position of the reader after `readVal` -/

theorem readUint16_off (r : ProtocolReader) (v : Nat) (r1 : ProtocolReader)
    (e : readUint16 r = some (v, r1)) : r1.off = r.off + 2 := by
  unfold readUint16 at e
  split at e
  · cases e; rfl
  · cases e

theorem readUint32_off (r : ProtocolReader) (v : Nat) (r1 : ProtocolReader)
    (e : readUint32 r = some (v, r1)) : r1.off = r.off + 4 := by
  unfold readUint32 at e
  split at e
  · cases e; rfl
  · cases e

theorem readMemory_facts (r : ProtocolReader) (len rn : Nat) (ws : List (Nat × List Nat))
    (r1 : ProtocolReader) (e : readMemory r len = .ok (rn, ws, r1)) :
    r1.off = r.off + rn ∧ (rn = 0 → ws = []) := by
  unfold readMemory at e
  simp only at e
  generalize (if r.Len < (len : Int) then r.Len else (len : Int)) = n at e
  by_cases hn : n ≤ 0
  · rw [if_pos hn] at e
    cases e
    exact ⟨rfl, fun _ => rfl⟩
  · rw [if_neg hn] at e
    split at e
    · cases e
    · cases e
      refine ⟨rfl, fun h0 => ?_⟩
      exfalso
      omega

theorem readString_facts (r : ProtocolReader) (s : List Nat) (slen : Nat) (ok : Bool)
    (r1 : ProtocolReader) (e : readString r = .ok (s, slen, ok, r1)) :
    r.off + 2 ≤ r1.off ∧ (ok = true → r1.off = r.off + slen) := by
  unfold readString at e
  split at e
  · cases e
  · rename_i l r0 h0
    have h2 := readUint16_off _ _ _ h0
    split at e
    · cases e
      simp only [stringLenSize]
      constructor
      · show r.off + 2 ≤ r0.off + l
        omega
      · intro _
        show r0.off + l = r.off + (2 + l)
        omega
    · cases e
      exact ⟨by omega, fun h => by cases h⟩

theorem valid_of_not (h : ProtocolDataHeader) (hv : ¬ ((!h.isValid) = true)) :
    h.isValid = true := by
  cases hb : h.isValid
  · rw [hb] at hv; exact absurd rfl hv
  · rfl

theorem readAnyWith_mono (rv : ReadValFn) (hrv : RvMono rv) (env : TypeEnv) (reg : Registry)
    (r : ProtocolReader) (res : Except String Value) (r1 : ProtocolReader)
    (e : readAnyWith rv env reg r = .ok (res, r1)) :
    r.off ≤ r1.off ∧ (∀ obj, res = .ok obj → r.off + 6 ≤ r1.off) := by
  unfold readAnyWith at e
  simp only at e
  split at e
  · cases e
  · rename_i dataHead r0 hh
    obtain ⟨-, hoff, hval⟩ := ReadDataHead_facts _ _ _ hh
    by_cases h1 : (!dataHead.isValid) = true
    · rw [if_pos h1] at e
      cases e
      exact ⟨hoff, fun obj h => by cases h⟩
    · rw [if_neg h1] at e
      obtain ⟨ho, h6, hle, -⟩ := hval (valid_of_not _ h1)
      split at e
      · cases e
        exact ⟨hoff, fun obj h => by cases h⟩
      · split at e
        · cases e
          exact ⟨hoff, fun obj h => by cases h⟩
        · split at e
          · cases e
            exact ⟨hoff, fun _ _ => by omega⟩
          · split at e
            · cases e
            · rename_i fs r2 hr
              cases e
              have := hrv _ _ _ _ _ _ _ hle (by omega) hr
              exact ⟨by omega, fun _ _ => by omega⟩
            · rename_i fs r2 hr
              cases e
              have := hrv _ _ _ _ _ _ _ hle (by omega) hr
              exact ⟨by omega, fun _ _ => by omega⟩

theorem readStructWith_mono (rv : ReadValFn) (hrv : RvMono rv) (reg : Registry)
    (t : Option RType) (v : Value) (r : ProtocolReader) (ok : Bool) (v1 : Value)
    (r1 : ProtocolReader) (e : readStructWith rv reg t v r = .ok (ok, v1, r1)) :
    r.off ≤ r1.off ∧ (ok = true → r.off + 6 ≤ r1.off) := by
  unfold readStructWith at e
  split at e
  · cases e
  · rename_i dataHead r0 hh
    obtain ⟨-, hoff, hval⟩ := ReadDataHead_facts _ _ _ hh
    by_cases h1 : (!dataHead.isValid) = true
    · rw [if_pos h1] at e
      cases e
      exact ⟨hoff, fun h => by cases h⟩
    · rw [if_neg h1] at e
      obtain ⟨ho, h6, hle, -⟩ := hval (valid_of_not _ h1)
      split at e
      · cases e
        exact ⟨hoff, fun h => by cases h⟩
      · split at e
        · cases e
          exact ⟨hoff, fun h => by cases h⟩
        · split at e
          · cases e
          · rename_i b fs r2 hr
            cases e
            have := hrv _ _ _ _ _ _ _ hle (by omega) hr
            exact ⟨by omega, fun _ => by omega⟩

theorem readPointerWith_mono (rv : ReadValFn) (hrv : RvMono rv) (env : TypeEnv)
    (reg : Registry) (t : Option RType) (v : Value) (r : ProtocolReader) (ok : Bool)
    (v1 : Value) (r1 : ProtocolReader) (e : readPointerWith rv env reg t v r = .ok (ok, v1, r1)) :
    r.off ≤ r1.off ∧ (ok = true → r.off + 6 ≤ r1.off) := by
  unfold readPointerWith at e
  split at e
  · cases e
  · rename_i dataHead r0 hh
    obtain ⟨-, hoff, hval⟩ := ReadDataHead_facts _ _ _ hh
    by_cases h1 : (!dataHead.isValid) = true
    · rw [if_pos h1] at e
      cases e
      exact ⟨hoff, fun h => by cases h⟩
    · rw [if_neg h1] at e
      obtain ⟨ho, h6, hle, -⟩ := hval (valid_of_not _ h1)
      split at e
      · cases e
        exact ⟨hoff, fun h => by cases h⟩
      · split at e
        · cases e
          exact ⟨hoff, fun h => by cases h⟩
        · split at e
          · simp only at e
            split at e
            · cases e
            · rename_i b fs r2 hr
              cases e
              have := hrv _ _ _ _ _ _ _ hle (by omega) hr
              exact ⟨by omega, fun _ => by omega⟩
          · cases e
            exact ⟨hoff, fun _ => by omega⟩

theorem elemLoop_inv (startPos : Nat) (step : Nat → List Value → Nat → ProtocolReader → ElemRes)
    (hs : StepInv startPos step) :
    ∀ (n i : Nat) (es : List Value) (rl : Nat) (r : ProtocolReader) (b : Bool)
      (es1 : List Value) (rl1 : Nat) (r1 : ProtocolReader),
      elemLoop step n i es rl r = .ok (b, es1, rl1, r1) →
      r.off ≤ r1.off ∧ (b = true → rl + startPos = r.off → rl1 + startPos = r1.off) := by
  intro n
  induction n with
  | zero =>
    intro i es rl r b es1 rl1 r1 e
    simp only [elemLoop] at e
    cases e
    exact ⟨le_refl _, fun _ h => h⟩
  | succ n ih =>
    intro i es rl r b es1 rl1 r1 e
    simp only [elemLoop] at e
    split at e
    · cases e
    · rename_i es2 rl2 r2 h2
      cases e
      exact ⟨(hs _ _ _ _ _ _ _ _ h2).1, fun h => by cases h⟩
    · rename_i es2 rl2 r2 h2
      obtain ⟨m1, i1⟩ := hs _ _ _ _ _ _ _ _ h2
      obtain ⟨m2, i2⟩ := ih _ _ _ _ _ _ _ _ e
      exact ⟨le_trans m1 m2, fun hb hi => i2 hb (i1 rfl hi)⟩

theorem strStep_inv (startPos limit : Nat) : StepInv startPos (strStep limit) := by
  intro i es rl r b es1 rl1 r1 e
  unfold strStep at e
  split at e
  · cases e
  · rename_i s slen ok r2 h2
    obtain ⟨m, hok⟩ := readString_facts _ _ _ _ _ h2
    simp only at e
    split at e
    · cases e
      exact ⟨by omega, fun h => by cases h⟩
    · rename_i hnot
      cases e
      have : ok = true := by
        cases ok
        · exact absurd rfl hnot
        · rfl
      have := hok this
      exact ⟨by omega, fun _ hi => by omega⟩

theorem structStep_inv (rv : ReadValFn) (hrv : RvMono rv) (env : TypeEnv) (reg : Registry)
    (t : Option RType) (limit startPos : Nat) :
    StepInv startPos (structStep rv env reg t limit startPos) := by
  intro i es rl r b es1 rl1 r1 e
  unfold structStep at e
  split at e
  · split at e
    · cases e
    · rename_i ok v r2 h2
      obtain ⟨m, -⟩ := readStructWith_mono rv hrv _ _ _ _ _ _ _ h2
      split at e
      · cases e
        exact ⟨m, fun h => by cases h⟩
      · cases e
        exact ⟨m, fun _ hi => by show r1.off - startPos + startPos = r1.off; omega⟩
  · split at e
    · cases e
    · rename_i r2 h2
      cases e
      exact ⟨(readAnyWith_mono rv hrv _ _ _ _ _ h2).1, fun h => by cases h⟩
    · rename_i r2 h2
      obtain ⟨m, -⟩ := readAnyWith_mono rv hrv _ _ _ _ _ h2
      cases e
      exact ⟨m, fun _ hi => by show r1.off - startPos + startPos = r1.off; omega⟩

theorem ifaceStep_inv (rv : ReadValFn) (hrv : RvMono rv) (env : TypeEnv) (reg : Registry)
    (limit startPos : Nat) :
    StepInv startPos (ifaceStep rv env reg limit startPos) := by
  intro i es rl r b es1 rl1 r1 e
  unfold ifaceStep at e
  split at e
  · cases e
  · rename_i r2 h2
    cases e
    exact ⟨(readAnyWith_mono rv hrv _ _ _ _ _ h2).1, fun h => by cases h⟩
  · rename_i r2 h2
    obtain ⟨m, -⟩ := readAnyWith_mono rv hrv _ _ _ _ _ h2
    cases e
    exact ⟨m, fun _ hi => by show r1.off - startPos + startPos = r1.off; omega⟩

theorem ptrStep_inv (rv : ReadValFn) (hrv : RvMono rv) (env : TypeEnv) (reg : Registry)
    (t : Option RType) (limit startPos : Nat) :
    StepInv startPos (ptrStep rv env reg t limit startPos) := by
  intro i es rl r b es1 rl1 r1 e
  unfold ptrStep at e
  split at e
  · split at e
    · cases e
    · rename_i ok v r2 h2
      obtain ⟨m, -⟩ := readPointerWith_mono rv hrv _ _ _ _ _ _ _ _ h2
      split at e
      · cases e
        exact ⟨m, fun h => by cases h⟩
      · cases e
        exact ⟨m, fun _ hi => by show r1.off - startPos + startPos = r1.off; omega⟩
  · split at e
    · cases e
    · rename_i r2 h2
      cases e
      exact ⟨(readAnyWith_mono rv hrv _ _ _ _ _ h2).1, fun h => by cases h⟩
    · rename_i r2 h2
      obtain ⟨m, -⟩ := readAnyWith_mono rv hrv _ _ _ _ _ h2
      cases e
      exact ⟨m, fun _ hi => by show r1.off - startPos + startPos = r1.off; omega⟩

theorem readElemsWith_inv (rv : ReadValFn) (hrv : RvMono rv) (env : TypeEnv) (reg : Registry)
    (fd : TRegFieldOffsetData) (limit startPos arrlen : Nat) (es : List Value) (rl : Nat)
    (r : ProtocolReader) (b : Bool) (es1 : List Value) (rl1 : Nat) (r1 : ProtocolReader)
    (e : readElemsWith rv env reg fd limit startPos arrlen es rl r = .ok (b, es1, rl1, r1)) :
    r.off ≤ r1.off ∧ (b = true → rl + startPos = r.off → rl1 + startPos = r1.off) := by
  unfold readElemsWith at e
  split at e
  · exact elemLoop_inv startPos _ (strStep_inv startPos limit) _ _ _ _ _ _ _ _ _ e
  · exact elemLoop_inv startPos _ (structStep_inv rv hrv env reg _ limit startPos)
      _ _ _ _ _ _ _ _ _ e
  · exact elemLoop_inv startPos _ (ifaceStep_inv rv hrv env reg limit startPos)
      _ _ _ _ _ _ _ _ _ e
  · exact elemLoop_inv startPos _ (ptrStep_inv rv hrv env reg _ limit startPos)
      _ _ _ _ _ _ _ _ _ e
  · cases e
    exact ⟨le_refl _, fun _ h => h⟩


theorem poke_nil (ptr base : Nat) (bs : List Nat) : poke [] ptr base bs = bs := rfl

theorem pokeStruct_nil : ∀ (all : List TRegFieldOffsetData) (fs : List Value) (ptr : Nat),
    pokeStruct all fs ptr [] = fs
  | [], fs, _ => by cases fs <;> rfl
  | _ :: _, [], _ => rfl
  | fd :: fds, v :: vs, ptr => by
    cases v <;> simp [pokeStruct, poke_nil, pokeStruct_nil fds vs ptr]

theorem elemsToField_facts (mk : List Value → Value) (fs : List Value) (idx : Nat)
    (res : ElemRes) (flow : Flow) (fs1 : List Value) (rl1 : Nat) (r1 : ProtocolReader)
    (e : elemsToField mk fs idx res = .ok (flow, fs1, rl1, r1)) :
    ∃ b es, res = .ok (b, es, rl1, r1) ∧ (flow = .next → b = true) ∧ flow ≠ .brk ∧
      (b = true → flow = .next) := by
  unfold elemsToField at e
  split at e
  · cases e
  · cases e
    exact ⟨true, _, rfl, fun _ => rfl, (by decide), fun _ => rfl⟩
  · cases e
    exact ⟨false, _, rfl, (fun h => by cases h), (by decide), fun h => by cases h⟩

theorem readFieldWith_pod (rv : ReadValFn) (env : TypeEnv) (reg : Registry)
    (all : List TRegFieldOffsetData) (fd : TRegFieldOffsetData) (idx startPos datalen : Nat)
    (fs : List Value) (readLen : Nat) (r : ProtocolReader) (hpod : fd.isPod = true) :
    readFieldWith rv env reg all fd idx startPos datalen fs readLen r =
      match readMemory r fd.podSize with
      | .error f => .error f
      | .ok (rn, ws, r1) =>
        if rn ≠ fd.podSize then .ok (.brk, pokeStruct all fs fd.offset ws, readLen + rn, r1)
        else .ok (.next, pokeStruct all fs fd.offset ws, readLen + fd.podSize, r1) := by
  unfold readFieldWith
  rw [if_pos hpod]

theorem readFieldWith_facts_pod (rv : ReadValFn) (env : TypeEnv)
    (reg : Registry) (all : List TRegFieldOffsetData) (fd : TRegFieldOffsetData)
    (idx startPos datalen : Nat) (fs : List Value) (readLen : Nat) (r : ProtocolReader)
    (flow : Flow) (fs1 : List Value) (rl1 : Nat) (r1 : ProtocolReader)
    (hpod : fd.isPod = true)
    (e : readFieldWith rv env reg all fd idx startPos datalen fs readLen r
          = .ok (flow, fs1, rl1, r1)) :
    r.off ≤ r1.off ∧
    (flow = .next → readLen + startPos = r.off → rl1 + startPos = r1.off) ∧
    (flow ≠ .ret → r1.off ≤ r.off → fs1 = fs) := by
  rw [readFieldWith_pod _ _ _ _ _ _ _ _ _ _ _ hpod] at e
  split at e
  · cases e
  · rename_i rn ws r2 hm
    obtain ⟨ho, hz⟩ := readMemory_facts _ _ _ _ _ hm
    split at e
    · cases e
      refine ⟨by omega, (fun h => by cases h), fun _ hle => ?_⟩
      rw [hz (by omega), pokeStruct_nil]
    · rename_i hrn
      cases e
      refine ⟨by omega, fun _ hi => ?_, fun _ hle => ?_⟩
      · have : rn = fd.podSize := by
          by_contra hne
          exact hrn hne
        omega
      · rw [hz (by omega), pokeStruct_nil]


theorem readFieldWith_facts_String (rv : ReadValFn) (env : TypeEnv)
    (reg : Registry) (all : List TRegFieldOffsetData) (fd : TRegFieldOffsetData)
    (idx startPos datalen : Nat) (fs : List Value) (readLen : Nat) (r : ProtocolReader)
    (flow : Flow) (fs1 : List Value) (rl1 : Nat) (r1 : ProtocolReader)
    (hpod : fd.isPod = false) (hk : fd.Kind = .String)
    (e : readFieldWith rv env reg all fd idx startPos datalen fs readLen r
          = .ok (flow, fs1, rl1, r1)) :
    r.off ≤ r1.off ∧
    (flow = .next → readLen + startPos = r.off → rl1 + startPos = r1.off) ∧
    (flow ≠ .ret → r1.off ≤ r.off → fs1 = fs) ∧
    (readLen + 2 ≤ datalen → r.off + 2 ≤ r1.off) := by
  simp only [readFieldWith, hpod, hk, Bool.false_eq_true, if_false, stringLenSize] at e
  split at e
  · rename_i hg
    cases e
    exact ⟨le_refl _, (fun _ h => h), (fun _ _ => rfl), fun h => by omega⟩
  · split at e
    · cases e
    · rename_i s slen ok r2 h2
      obtain ⟨m, hok⟩ := readString_facts _ _ _ _ _ h2
      split at e
      · cases e
        exact ⟨by omega, (fun h => by cases h), (fun h => absurd rfl h), fun _ => m⟩
      · rename_i hnot
        cases e
        have hok2 : ok = true := by
          cases ok
          · exact absurd rfl hnot
          · rfl
        have := hok hok2
        exact ⟨by omega, (fun _ hi => by omega), (fun _ hle => by omega), fun _ => m⟩


theorem readFieldWith_facts_Array (rv : ReadValFn) (hrv : RvMono rv) (env : TypeEnv)
    (reg : Registry) (all : List TRegFieldOffsetData) (fd : TRegFieldOffsetData)
    (idx startPos datalen : Nat) (fs : List Value) (readLen : Nat) (r : ProtocolReader)
    (flow : Flow) (fs1 : List Value) (rl1 : Nat) (r1 : ProtocolReader)
    (hpod : fd.isPod = false) (hk : fd.Kind = .Array)
    (e : readFieldWith rv env reg all fd idx startPos datalen fs readLen r
          = .ok (flow, fs1, rl1, r1)) :
    r.off ≤ r1.off ∧
    (flow = .next → readLen + startPos = r.off → rl1 + startPos = r1.off) ∧
    (flow ≠ .ret → r1.off ≤ r.off → fs1 = fs) ∧
    (readLen + 4 ≤ datalen → r.off + 4 ≤ r1.off) := by
  simp only [readFieldWith, hpod, hk, Bool.false_eq_true, if_false, arrayLenSize] at e
  split at e
  · cases e
    exact ⟨le_refl _, (fun _ h => h), (fun _ _ => rfl), fun h => by omega⟩
  · split at e
    · cases e
    · rename_i arrlen r0 h0
      have h4 := readUint32_off _ _ _ h0
      split at e
      · split at e
        · split at e
          · cases e
          · rename_i rn ws r2 hm
            obtain ⟨ho, -⟩ := readMemory_facts _ _ _ _ _ hm
            split at e
            · cases e
              exact ⟨by omega, (fun h => by cases h), (fun h => absurd rfl h), fun _ => by omega⟩
            · rename_i hrn
              cases e
              have : rn = arrlen * fd.arraySize := by
                by_contra hne
                exact hrn hne
              exact ⟨by omega, (fun _ hi => by omega), (fun _ hle => by omega),
                fun _ => by omega⟩
        · split at e
          · cases e
          · rename_i rn ws r2 hm
            obtain ⟨ho, -⟩ := readMemory_facts _ _ _ _ _ hm
            split at e
            · cases e
              exact ⟨by omega, (fun h => by cases h), (fun h => absurd rfl h), fun _ => by omega⟩
            · cases e
              refine ⟨?_, (fun _ hi => ?_), (fun _ hle => ?_), fun _ => ?_⟩
              · show r.off ≤ r0.off + arrlen * fd.arraySize
                omega
              · show r0.off + arrlen * fd.arraySize - startPos + startPos
                  = r0.off + arrlen * fd.arraySize
                omega
              · exfalso
                have : r0.off + arrlen * fd.arraySize ≤ r.off := hle
                omega
              · show r.off + 4 ≤ r0.off + arrlen * fd.arraySize
                omega
      · obtain ⟨b, es, he, hn, -, -⟩ := elemsToField_facts _ _ _ _ _ _ _ _ e
        obtain ⟨m, hi⟩ := readElemsWith_inv rv hrv _ _ _ _ _ _ _ _ _ _ _ _ _ he
        refine ⟨by omega, (fun hf hI => ?_), (fun _ hle => by omega), fun _ => by omega⟩
        exact hi (hn hf) (by omega)

theorem readFieldWith_facts_Slice (rv : ReadValFn) (hrv : RvMono rv) (env : TypeEnv)
    (reg : Registry) (all : List TRegFieldOffsetData) (fd : TRegFieldOffsetData)
    (idx startPos datalen : Nat) (fs : List Value) (readLen : Nat) (r : ProtocolReader)
    (flow : Flow) (fs1 : List Value) (rl1 : Nat) (r1 : ProtocolReader)
    (hpod : fd.isPod = false) (hk : fd.Kind = .Slice)
    (e : readFieldWith rv env reg all fd idx startPos datalen fs readLen r
          = .ok (flow, fs1, rl1, r1)) :
    r.off ≤ r1.off ∧
    (flow = .next → readLen + startPos = r.off → rl1 + startPos = r1.off) ∧
    (flow ≠ .ret → r1.off ≤ r.off → fs1 = fs) ∧
    (readLen + 4 ≤ datalen → r.off + 4 ≤ r1.off) := by
  simp only [readFieldWith, hpod, hk, Bool.false_eq_true, if_false, arrayLenSize] at e
  split at e
  · cases e
    exact ⟨le_refl _, (fun _ h => h), (fun _ _ => rfl), fun h => by omega⟩
  · split at e
    · cases e
    · rename_i arrlen r0 h0
      have h4 := readUint32_off _ _ _ h0
      split at e
      · cases e
        exact ⟨by omega, (fun _ hi => by omega), (fun _ hle => by omega), fun _ => by omega⟩
      · split at e
        · split at e
          · cases e
          · rename_i rn ws r2 hm
            obtain ⟨ho, -⟩ := readMemory_facts _ _ _ _ _ hm
            split at e
            · cases e
              exact ⟨by omega, (fun h => by cases h), (fun h => absurd rfl h), fun _ => by omega⟩
            · rename_i hrn
              cases e
              have : rn = arrlen * fd.arraySize := by
                by_contra hne
                exact hrn hne
              exact ⟨by omega, (fun _ hi => by omega), (fun _ hle => by omega),
                fun _ => by omega⟩
        · obtain ⟨b, es, he, hn, -, -⟩ := elemsToField_facts _ _ _ _ _ _ _ _ e
          obtain ⟨m, hi⟩ := readElemsWith_inv rv hrv _ _ _ _ _ _ _ _ _ _ _ _ _ he
          refine ⟨by omega, (fun hf hI => ?_), (fun _ hle => by omega), fun _ => by omega⟩
          exact hi (hn hf) (by omega)

theorem readFieldWith_facts_Struct (rv : ReadValFn) (hrv : RvMono rv) (env : TypeEnv)
    (reg : Registry) (all : List TRegFieldOffsetData) (fd : TRegFieldOffsetData)
    (idx startPos datalen : Nat) (fs : List Value) (readLen : Nat) (r : ProtocolReader)
    (flow : Flow) (fs1 : List Value) (rl1 : Nat) (r1 : ProtocolReader)
    (hpod : fd.isPod = false) (hk : fd.Kind = .Struct)
    (e : readFieldWith rv env reg all fd idx startPos datalen fs readLen r
          = .ok (flow, fs1, rl1, r1)) :
    r.off ≤ r1.off ∧
    (flow = .next → readLen + startPos = r.off → rl1 + startPos = r1.off) ∧
    (flow ≠ .ret → r1.off ≤ r.off → fs1 = fs) := by
  simp only [readFieldWith, hpod, hk, Bool.false_eq_true, if_false] at e
  split at e
  · cases e
  · rename_i ok v r2 h2
    obtain ⟨m, h6⟩ := readStructWith_mono rv hrv _ _ _ _ _ _ _ h2
    split at e
    · cases e
      exact ⟨m, (fun h => by cases h), fun h => absurd rfl h⟩
    · rename_i hnot
      cases e
      have hok : ok = true := by
        cases ok
        · exact absurd rfl hnot
        · rfl
      have := h6 hok
      refine ⟨m, (fun _ hi => ?_), fun _ hle => by omega⟩
      show r1.off - startPos + startPos = r1.off
      omega

theorem readFieldWith_facts_Interface (rv : ReadValFn) (hrv : RvMono rv) (env : TypeEnv)
    (reg : Registry) (all : List TRegFieldOffsetData) (fd : TRegFieldOffsetData)
    (idx startPos datalen : Nat) (fs : List Value) (readLen : Nat) (r : ProtocolReader)
    (flow : Flow) (fs1 : List Value) (rl1 : Nat) (r1 : ProtocolReader)
    (hpod : fd.isPod = false) (hk : fd.Kind = .Interface)
    (e : readFieldWith rv env reg all fd idx startPos datalen fs readLen r
          = .ok (flow, fs1, rl1, r1)) :
    r.off ≤ r1.off ∧
    (flow = .next → readLen + startPos = r.off → rl1 + startPos = r1.off) ∧
    (flow ≠ .ret → r1.off ≤ r.off → fs1 = fs) := by
  simp only [readFieldWith, hpod, hk, Bool.false_eq_true, if_false] at e
  split at e
  · cases e
  · rename_i r2 h2
    cases e
    exact ⟨(readAnyWith_mono rv hrv _ _ _ _ _ h2).1, (fun h => by cases h),
      fun h => absurd rfl h⟩
  · rename_i obj r2 h2
    obtain ⟨m, h6⟩ := readAnyWith_mono rv hrv _ _ _ _ _ h2
    have := h6 _ rfl
    cases e
    refine ⟨m, (fun _ hi => ?_), fun _ hle => by omega⟩
    show r1.off - startPos + startPos = r1.off
    omega

theorem readFieldWith_facts_Ptr (rv : ReadValFn) (hrv : RvMono rv) (env : TypeEnv)
    (reg : Registry) (all : List TRegFieldOffsetData) (fd : TRegFieldOffsetData)
    (idx startPos datalen : Nat) (fs : List Value) (readLen : Nat) (r : ProtocolReader)
    (flow : Flow) (fs1 : List Value) (rl1 : Nat) (r1 : ProtocolReader)
    (hpod : fd.isPod = false) (hk : fd.Kind = .Ptr)
    (e : readFieldWith rv env reg all fd idx startPos datalen fs readLen r
          = .ok (flow, fs1, rl1, r1)) :
    r.off ≤ r1.off ∧
    (flow = .next → readLen + startPos = r.off → rl1 + startPos = r1.off) ∧
    (flow ≠ .ret → r1.off ≤ r.off → fs1 = fs) := by
  simp only [readFieldWith, hpod, hk, Bool.false_eq_true, if_false] at e
  split at e
  · cases e
  · rename_i ok v r2 h2
    obtain ⟨m, h6⟩ := readPointerWith_mono rv hrv _ _ _ _ _ _ _ _ h2
    split at e
    · cases e
      exact ⟨m, (fun h => by cases h), fun h => absurd rfl h⟩
    · rename_i hnot
      cases e
      have hok : ok = true := by
        cases ok
        · exact absurd rfl hnot
        · rfl
      have := h6 hok
      refine ⟨m, (fun _ hi => ?_), fun _ hle => by omega⟩
      show r1.off - startPos + startPos = r1.off
      omega

theorem isPod_false_of_not (fd : TRegFieldOffsetData) (h : ¬ fd.isPod = true) :
    fd.isPod = false := by
  cases hb : fd.isPod
  · rfl
  · exact absurd hb h

theorem readFieldWith_facts (rv : ReadValFn) (hrv : RvMono rv) (env : TypeEnv)
    (reg : Registry) (all : List TRegFieldOffsetData) (fd : TRegFieldOffsetData)
    (idx startPos datalen : Nat) (fs : List Value) (readLen : Nat) (r : ProtocolReader)
    (flow : Flow) (fs1 : List Value) (rl1 : Nat) (r1 : ProtocolReader)
    (e : readFieldWith rv env reg all fd idx startPos datalen fs readLen r
          = .ok (flow, fs1, rl1, r1)) :
    r.off ≤ r1.off ∧
    (flow = .next → readLen + startPos = r.off → rl1 + startPos = r1.off) ∧
    (flow ≠ .ret → r1.off ≤ r.off → fs1 = fs) := by
  by_cases hp : fd.isPod = true
  · exact readFieldWith_facts_pod rv env reg all fd idx startPos datalen fs readLen r
      flow fs1 rl1 r1 hp e
  · have hpod := isPod_false_of_not fd hp
    cases hk : fd.Kind with
    | String =>
      obtain ⟨a, b, c, -⟩ := readFieldWith_facts_String rv env reg all fd idx startPos datalen
        fs readLen r flow fs1 rl1 r1 hpod hk e
      exact ⟨a, b, c⟩
    | Array =>
      obtain ⟨a, b, c, -⟩ := readFieldWith_facts_Array rv hrv env reg all fd idx startPos
        datalen fs readLen r flow fs1 rl1 r1 hpod hk e
      exact ⟨a, b, c⟩
    | Slice =>
      obtain ⟨a, b, c, -⟩ := readFieldWith_facts_Slice rv hrv env reg all fd idx startPos
        datalen fs readLen r flow fs1 rl1 r1 hpod hk e
      exact ⟨a, b, c⟩
    | Struct =>
      exact readFieldWith_facts_Struct rv hrv env reg all fd idx startPos
        datalen fs readLen r flow fs1 rl1 r1 hpod hk e
    | Interface =>
      exact readFieldWith_facts_Interface rv hrv env reg all fd idx startPos
        datalen fs readLen r flow fs1 rl1 r1 hpod hk e
    | Ptr =>
      exact readFieldWith_facts_Ptr rv hrv env reg all fd idx startPos
        datalen fs readLen r flow fs1 rl1 r1 hpod hk e
    | _ =>
      simp only [readFieldWith, hpod, hk, Bool.false_eq_true, if_false] at e
      cases e
      exact ⟨le_refl _, (fun _ h => h), fun _ _ => rfl⟩

theorem readFieldWith_datalen (rv : ReadValFn) (hrv : RvMono rv) (env : TypeEnv)
    (reg : Registry) (all : List TRegFieldOffsetData) (fd : TRegFieldOffsetData)
    (idx startPos d d' : Nat) (fs : List Value) (readLen : Nat) (r : ProtocolReader)
    (flow : Flow) (fs1 : List Value) (rl1 : Nat) (r1 : ProtocolReader) (hd : d ≤ d')
    (e : readFieldWith rv env reg all fd idx startPos d' fs readLen r
          = .ok (flow, fs1, rl1, r1)) :
    readFieldWith rv env reg all fd idx startPos d fs readLen r = .ok (flow, fs1, rl1, r1) ∨
    (readFieldWith rv env reg all fd idx startPos d fs readLen r = .ok (.next, fs, readLen, r)
      ∧ d < readLen + (r1.off - r.off)) := by
  by_cases hp : fd.isPod = true
  · left
    rw [readFieldWith_pod _ _ _ _ _ _ _ _ _ _ _ hp] at e ⊢
    exact e
  · have hpod := isPod_false_of_not fd hp
    cases hk : fd.Kind with
    | String =>
      obtain ⟨-, -, -, adv⟩ := readFieldWith_facts_String rv env reg all fd idx startPos d'
        fs readLen r flow fs1 rl1 r1 hpod hk e
      by_cases hg : readLen + 2 > d
      · by_cases hg' : readLen + 2 > d'
        · left
          simp only [readFieldWith, hpod, hk, Bool.false_eq_true, if_false, stringLenSize,
            hg, hg', if_true] at e ⊢
          exact e
        · right
          have := adv (by omega)
          refine ⟨?_, by omega⟩
          simp only [readFieldWith, hpod, hk, Bool.false_eq_true, if_false, stringLenSize,
            hg, if_true]
      · have hg' : ¬ readLen + 2 > d' := by omega
        left
        simp only [readFieldWith, hpod, hk, Bool.false_eq_true, if_false, stringLenSize,
          hg, hg'] at e ⊢
        exact e
    | Array =>
      obtain ⟨-, -, -, adv⟩ := readFieldWith_facts_Array rv hrv env reg all fd idx startPos d'
        fs readLen r flow fs1 rl1 r1 hpod hk e
      by_cases hg : readLen + 4 > d
      · by_cases hg' : readLen + 4 > d'
        · left
          simp only [readFieldWith, hpod, hk, Bool.false_eq_true, if_false, arrayLenSize,
            hg, hg', if_true] at e ⊢
          exact e
        · right
          have := adv (by omega)
          refine ⟨?_, by omega⟩
          simp only [readFieldWith, hpod, hk, Bool.false_eq_true, if_false, arrayLenSize,
            hg, if_true]
      · have hg' : ¬ readLen + 4 > d' := by omega
        left
        simp only [readFieldWith, hpod, hk, Bool.false_eq_true, if_false, arrayLenSize,
          hg, hg'] at e ⊢
        exact e
    | Slice =>
      obtain ⟨-, -, -, adv⟩ := readFieldWith_facts_Slice rv hrv env reg all fd idx startPos d'
        fs readLen r flow fs1 rl1 r1 hpod hk e
      by_cases hg : readLen + 4 > d
      · by_cases hg' : readLen + 4 > d'
        · left
          simp only [readFieldWith, hpod, hk, Bool.false_eq_true, if_false, arrayLenSize,
            hg, hg', if_true] at e ⊢
          exact e
        · right
          have := adv (by omega)
          refine ⟨?_, by omega⟩
          simp only [readFieldWith, hpod, hk, Bool.false_eq_true, if_false, arrayLenSize,
            hg, if_true]
      · have hg' : ¬ readLen + 4 > d' := by omega
        left
        simp only [readFieldWith, hpod, hk, Bool.false_eq_true, if_false, arrayLenSize,
          hg, hg'] at e ⊢
        exact e
    | _ =>
      left
      simp only [readFieldWith, hpod, hk, Bool.false_eq_true, if_false] at e ⊢
      exact e


theorem readFieldsWith_mono (rv : ReadValFn) (hrv : RvMono rv) (env : TypeEnv)
    (reg : Registry) (all : List TRegFieldOffsetData) (startPos datalen : Nat) :
    ∀ (fds : List TRegFieldOffsetData) (idx skip : Nat) (fs : List Value) (readLen : Nat)
      (r : ProtocolReader) (b : Bool) (fs' : List Value) (r1 : ProtocolReader),
      readFieldsWith rv env reg all startPos datalen fds idx skip fs readLen r
        = .ok (b, fs', r1) →
      r.off ≤ r1.off ∧ (b = true → r1.off ≤ r.off → fs' = fs) := by
  intro fds
  induction fds with
  | nil =>
    intro idx skip fs readLen r b fs' r1 e
    simp only [readFieldsWith] at e
    cases e
    exact ⟨le_refl _, fun _ _ => rfl⟩
  | cons fd rest ih =>
    intro idx skip fs readLen r b fs' r1 e
    cases skip with
    | succ k =>
      simp only [readFieldsWith] at e
      exact ih _ _ _ _ _ _ _ _ e
    | zero =>
      simp only [readFieldsWith] at e
      split at e
      · cases e
        exact ⟨le_refl _, fun _ _ => rfl⟩
      · split at e
        · split at e
          · cases e
          · rename_i fs1 rl1 r2 hstep
            obtain ⟨m, -, z⟩ := readFieldWith_facts rv hrv _ _ _ _ _ _ _ _ _ _ _ _ _ _ hstep
            obtain ⟨m2, z2⟩ := ih _ _ _ _ _ _ _ _ e
            refine ⟨le_trans m m2, fun hb hle => ?_⟩
            rw [z2 hb (by omega), z (by decide) (by omega)]
          · rename_i fs1 rl1 r2 hstep
            obtain ⟨m, -, z⟩ := readFieldWith_facts rv hrv _ _ _ _ _ _ _ _ _ _ _ _ _ _ hstep
            cases e
            exact ⟨m, fun _ hle => z (by decide) hle⟩
          · rename_i fs1 rl1 r2 hstep
            obtain ⟨m, -, -⟩ := readFieldWith_facts rv hrv _ _ _ _ _ _ _ _ _ _ _ _ _ _ hstep
            cases e
            exact ⟨m, fun h => by cases h⟩
        · split at e
          · cases e
          · rename_i rn ws r2 hm
            obtain ⟨ho, hz⟩ := readMemory_facts _ _ _ _ _ hm
            split at e
            · cases e
              refine ⟨by omega, fun _ hle => ?_⟩
              rw [hz (by omega), pokeStruct_nil]
            · obtain ⟨m2, z2⟩ := ih _ _ _ _ _ _ _ _ e
              refine ⟨by omega, fun hb hle => ?_⟩
              rw [z2 hb (by omega), hz (by omega), pokeStruct_nil]

theorem readFieldsWith_datalen (rv : ReadValFn) (hrv : RvMono rv) (env : TypeEnv)
    (reg : Registry) (all : List TRegFieldOffsetData) (startPos d d' : Nat) (hd : d ≤ d') :
    ∀ (fds : List TRegFieldOffsetData) (idx skip : Nat) (fs : List Value) (readLen : Nat)
      (r : ProtocolReader) (fs' : List Value) (r1 : ProtocolReader),
      readLen + startPos = r.off →
      readFieldsWith rv env reg all startPos d' fds idx skip fs readLen r
        = .ok (true, fs', r1) →
      r1.off ≤ startPos + d →
      ∃ r2, readFieldsWith rv env reg all startPos d fds idx skip fs readLen r
        = .ok (true, fs', r2) := by
  intro fds
  induction fds with
  | nil =>
    intro idx skip fs readLen r fs' r1 hI e hle
    simp only [readFieldsWith] at e ⊢
    cases e
    exact ⟨_, rfl⟩
  | cons fd rest ih =>
    intro idx skip fs readLen r fs' r1 hI e hle
    cases skip with
    | succ k =>
      simp only [readFieldsWith] at e ⊢
      exact ih _ _ _ _ _ _ _ hI e hle
    | zero =>
      by_cases hg : readLen ≥ d
      · have hz := (readFieldsWith_mono rv hrv env reg all startPos d' _ _ _ _ _ _ _ _ _ e).2
          rfl (by omega)
        refine ⟨r, ?_⟩
        simp only [readFieldsWith, hg, if_true, hz]
      · have hg' : ¬ readLen ≥ d' := by omega
        simp only [readFieldsWith, hg, hg', if_false] at e ⊢
        split at e
        · rename_i hmc
          rw [if_pos hmc]
          split at e
          · cases e
          · rename_i fs1 rl1 r2 hstep
            obtain ⟨m, hinv, -⟩ :=
              readFieldWith_facts rv hrv _ _ _ _ _ _ _ _ _ _ _ _ _ _ hstep
            have m2 := (readFieldsWith_mono rv hrv env reg all startPos d' _ _ _ _ _ _ _ _ _ e).1
            rcases readFieldWith_datalen rv hrv _ _ _ _ _ _ _ _ _ _ _ _ _ _ _ hd hstep
              with h1 | ⟨-, h2⟩
            · rw [h1]
              exact ih _ _ _ _ _ _ _ (hinv rfl hI) e hle
            · exfalso
              omega
          · rename_i fs1 rl1 r2 hstep
            obtain ⟨m, -, -⟩ :=
              readFieldWith_facts rv hrv _ _ _ _ _ _ _ _ _ _ _ _ _ _ hstep
            cases e
            rcases readFieldWith_datalen rv hrv _ _ _ _ _ _ _ _ _ _ _ _ _ _ _ hd hstep
              with h1 | ⟨-, h2⟩
            · rw [h1]
              exact ⟨_, rfl⟩
            · exfalso
              omega
          · cases e
        · rename_i hmc
          rw [if_neg hmc]
          split at e
          · cases e
          · rename_i rn ws r2 hm
            obtain ⟨ho, -⟩ := readMemory_facts _ _ _ _ _ hm
            split at e
            · rename_i hrn
              cases e
              rw [if_pos hrn]
              exact ⟨_, rfl⟩
            · rename_i hrn
              rw [if_neg hrn]
              exact ih _ _ _ _ _ _ _ (by omega) e hle

theorem readVal_mono (env : TypeEnv) (reg : Registry) :
    ∀ fuel, RvMono (readVal env reg fuel) := by
  intro fuel
  induction fuel with
  | zero =>
    intro h fs rtti r b fs' r' _ _ e
    simp only [readVal] at e
    cases e
  | succ f ih =>
    intro h fs rtti r b fs' r' hv hr e
    simp only [readVal, readValWith] at e
    split at e
    · cases e
    · rename_i fs1 r1 hw
      cases e
      exact (readFieldsWith_mono _ ih env reg _ _ _ _ _ _ _ _ _ _ _ _ hw).1
    · cases e
      show r.off ≤ r.off - h.headerLength + h.dataLength
      omega


/-- C16: when `readVal` reports success for a frame whose valid header was read at
`startPos = r0.off`, the reader ends exactly at `startPos + DataLength`.  The record returned
is the one the field loop produced; the loop stopped at some position `r1.off`, and the bytes
of the frame from there on are skipped unread.  They do not influence the record: for every
`DataLength d` below the actual one that still covers `r1.off` (the frame as it would be
without those extra bytes) `readVal` succeeds with the same record and ends at
`startPos + d`. -/
theorem readVal_success_position (env : TypeEnv) (reg : Registry) (fuel : Nat)
    (r0 : ProtocolReader) (h : ProtocolDataHeader) (fs : List Value) (rtti : TRegRttiData)
    (r : ProtocolReader) (fs' : List Value) (r' : ProtocolReader)
    (hh : ReadDataHead r0 = some (h, r)) (hv : h.isValid = true)
    (e : readVal env reg (fuel + 1) h fs rtti r = .ok (true, fs', r')) :
    r'.off = r0.off + h.dataLength ∧
    ∃ r1, readFieldsWith (readVal env reg fuel) env reg rtti.FieldData r0.off h.dataLength
            rtti.FieldData 0 0 fs h.headerLength r = .ok (true, fs', r1) ∧
      r'.buf = r1.buf ∧
      ∀ d, d ≤ h.dataLength → r1.off ≤ r0.off + d →
        ∃ r'', readVal env reg (fuel + 1) { h with dataLength := d } fs rtti r
            = .ok (true, fs', r'') ∧ r''.off = r0.off + d := by
  obtain ⟨-, -, hval⟩ := ReadDataHead_facts _ _ _ hh
  obtain ⟨ho, h6, hle, -⟩ := hval hv
  have hsp : r.off - h.headerLength = r0.off := by omega
  simp only [readVal, readValWith, hsp] at e
  split at e
  · cases e
  · cases e
  · rename_i fs1 r1 hw
    cases e
    refine ⟨rfl, r1, hw, rfl, fun d hd hle' => ?_⟩
    obtain ⟨r2, h2⟩ := readFieldsWith_datalen (readVal env reg fuel) (readVal_mono env reg fuel)
      env reg rtti.FieldData r0.off d h.dataLength hd _ _ _ _ _ _ _ _ (by omega) hw hle'
    refine ⟨{ r2 with off := r0.off + d }, ?_, rfl⟩
    simp only [readVal, readValWith, hsp, h2]

/-- Witness of C16: the frame `98 6D E8 03 0D 00 04 03 02 01 AA BB CC` of class id 1000
(schema `{a int32}`), whose payload has three bytes the schema does not describe. -/
theorem readVal_success_position_witness :
    (ReadDataHead ⟨[0x98, 0x6D, 0xE8, 0x03, 0x0D, 0x00, 4, 3, 2, 1, 0xAA, 0xBB, 0xCC], 0⟩
        = some (⟨true, 6, 1000, 13⟩,
                ⟨[0x98, 0x6D, 0xE8, 0x03, 0x0D, 0x00, 4, 3, 2, 1, 0xAA, 0xBB, 0xCC], 6⟩) ∧
     readVal exEnv exReg (0 + 1) ⟨true, 6, 1000, 13⟩ [.pod [0, 0, 0, 0]]
        ⟨1000, false, .named 0,
          [⟨.basic .Int32, .Int32, .basic .Int32, 0, 1, 4, 0, 0, .Invalid, none⟩]⟩
        ⟨[0x98, 0x6D, 0xE8, 0x03, 0x0D, 0x00, 4, 3, 2, 1, 0xAA, 0xBB, 0xCC], 6⟩
      = .ok (true, [.pod [4, 3, 2, 1]],
          ⟨[0x98, 0x6D, 0xE8, 0x03, 0x0D, 0x00, 4, 3, 2, 1, 0xAA, 0xBB, 0xCC], 13⟩)) ∧
    ((13 : Nat) = 0 + 13 ∧
     ∃ r1, readFieldsWith (readVal exEnv exReg 0) exEnv exReg
            [⟨.basic .Int32, .Int32, .basic .Int32, 0, 1, 4, 0, 0, .Invalid, none⟩] 0 13
            [⟨.basic .Int32, .Int32, .basic .Int32, 0, 1, 4, 0, 0, .Invalid, none⟩] 0 0
            [.pod [0, 0, 0, 0]] 6
            ⟨[0x98, 0x6D, 0xE8, 0x03, 0x0D, 0x00, 4, 3, 2, 1, 0xAA, 0xBB, 0xCC], 6⟩
          = .ok (true, [.pod [4, 3, 2, 1]], r1) ∧
       [0x98, 0x6D, 0xE8, 0x03, 0x0D, 0x00, 4, 3, 2, 1, 0xAA, 0xBB, 0xCC] = r1.buf ∧
       ∀ d, d ≤ 13 → r1.off ≤ 0 + d →
         ∃ r'', readVal exEnv exReg (0 + 1) ⟨true, 6, 1000, d⟩ [.pod [0, 0, 0, 0]]
             ⟨1000, false, .named 0,
               [⟨.basic .Int32, .Int32, .basic .Int32, 0, 1, 4, 0, 0, .Invalid, none⟩]⟩
             ⟨[0x98, 0x6D, 0xE8, 0x03, 0x0D, 0x00, 4, 3, 2, 1, 0xAA, 0xBB, 0xCC], 6⟩
           = .ok (true, [.pod [4, 3, 2, 1]], r'') ∧ r''.off = 0 + d) :=
  ⟨⟨rfl, rfl⟩,
   readVal_success_position exEnv exReg 0
     ⟨[0x98, 0x6D, 0xE8, 0x03, 0x0D, 0x00, 4, 3, 2, 1, 0xAA, 0xBB, 0xCC], 0⟩
     ⟨true, 6, 1000, 13⟩ [.pod [0, 0, 0, 0]]
     ⟨1000, false, .named 0,
       [⟨.basic .Int32, .Int32, .basic .Int32, 0, 1, 4, 0, 0, .Invalid, none⟩]⟩
     ⟨[0x98, 0x6D, 0xE8, 0x03, 0x0D, 0x00, 4, 3, 2, 1, 0xAA, 0xBB, 0xCC], 6⟩
     [.pod [4, 3, 2, 1]]
     ⟨[0x98, 0x6D, 0xE8, 0x03, 0x0D, 0x00, 4, 3, 2, 1, 0xAA, 0xBB, 0xCC], 13⟩
     rfl rfl rfl⟩

/-! ## The primitives of the reader -/

theorem ReadDataHead_ne_none (r : ProtocolReader) : ReadDataHead r ≠ none := by
  intro e
  obtain ⟨buf, off⟩ := r
  simp only [ReadDataHead, Len_lt_six, Len_lt_four, Len_lt_two] at e
  by_cases hlen : buf.length < off + 6
  · simp [hlen] at e
  · have e0 := readUint16_eq ⟨buf, off⟩ (by simp; omega)
    have e1 := readUint16_eq ⟨buf, off + 2⟩ (by simp; omega)
    have e1' := readUint32_eq ⟨buf, off + 2⟩ (by simp; omega)
    have e2 := readUint16_eq ⟨buf, off + 2 + 2⟩ (by simp; omega)
    have e2' := readUint16_eq ⟨buf, off + 2 + 4⟩
    have e3 := readUint32_eq ⟨buf, off + 2 + 2⟩
    have e3' := readUint32_eq ⟨buf, off + 2 + 4⟩
    simp only [] at e0 e1 e1' e2 e2' e3 e3'
    simp only [hlen, if_false, e0] at e
    by_cases hs : u16At buf off &&& cSignFlagMask = cSignFlag
    · by_cases hb0 : u16At buf off &&& 1 = 1 <;> by_cases hb1 : u16At buf off &&& 2 = 2 <;>
        simp only [Nat.and_one_is_mod] at hb0
      · by_cases hl : buf.length < off + 2 + 4 + 4
        · simp [hs, hb0, hb1, e1', hl] at e
        · simp [hs, hb0, hb1, e1', hl, e3' (by omega)] at e
      · by_cases hl : buf.length < off + 2 + 4 + 2
        · simp [hs, hb0, hb1, e1', hl] at e
        · simp [hs, hb0, hb1, e1', hl, e2' (by omega)] at e
      · by_cases hl : buf.length < off + 2 + 2 + 4
        · simp [hs, hb0, hb1, e1, hl] at e
        · simp [hs, hb0, hb1, e1, hl, e3 (by omega)] at e
      · have hl : ¬ buf.length < off + 2 + 2 + 2 := by omega
        simp [hs, hb0, hb1, e1, hl, e2] at e
    · simp [hs] at e

theorem ReadDataHead_off (r : ProtocolReader) (h : ProtocolDataHeader) (r' : ProtocolReader)
    (e : ReadDataHead r = some (h, r')) :
    r'.off = r.off ∨ r'.off ≤ r.buf.length := by
  obtain ⟨buf, off⟩ := r
  simp only [ReadDataHead, Len_lt_six, Len_lt_four, Len_lt_two] at e
  by_cases hlen : buf.length < off + 6
  · simp [hlen, ProtocolDataHeader.init] at e
    obtain ⟨rfl, rfl⟩ := e
    simp
  · have e0 := readUint16_eq ⟨buf, off⟩ (by simp; omega)
    have e1 := readUint16_eq ⟨buf, off + 2⟩ (by simp; omega)
    have e1' := readUint32_eq ⟨buf, off + 2⟩ (by simp; omega)
    have e2 := readUint16_eq ⟨buf, off + 2 + 2⟩ (by simp; omega)
    have e2' := readUint16_eq ⟨buf, off + 2 + 4⟩
    have e3 := readUint32_eq ⟨buf, off + 2 + 2⟩
    have e3' := readUint32_eq ⟨buf, off + 2 + 4⟩
    simp only [] at e0 e1 e1' e2 e2' e3 e3'
    simp only [hlen, if_false, e0] at e
    right
    by_cases hs : u16At buf off &&& cSignFlagMask = cSignFlag
    · by_cases hb0 : u16At buf off &&& 1 = 1 <;> by_cases hb1 : u16At buf off &&& 2 = 2 <;>
        simp only [Nat.and_one_is_mod] at hb0
      · by_cases hl : buf.length < off + 2 + 4 + 4
        · simp [hs, hb0, hb1, e1', hl, ProtocolDataHeader.init] at e
          obtain ⟨rfl, rfl⟩ := e
          show off + 2 + 4 ≤ buf.length
          omega
        · simp [hs, hb0, hb1, e1', hl, e3' (by omega), ProtocolDataHeader.init] at e
          obtain ⟨rfl, rfl⟩ := e
          show off + 2 + 4 + 4 ≤ buf.length
          omega
      · by_cases hl : buf.length < off + 2 + 4 + 2
        · simp [hs, hb0, hb1, e1', hl, ProtocolDataHeader.init] at e
          obtain ⟨rfl, rfl⟩ := e
          show off + 2 + 4 ≤ buf.length
          omega
        · simp [hs, hb0, hb1, e1', hl, e2' (by omega), ProtocolDataHeader.init] at e
          obtain ⟨rfl, rfl⟩ := e
          show off + 2 + 4 + 2 ≤ buf.length
          omega
      · by_cases hl : buf.length < off + 2 + 2 + 4
        · simp [hs, hb0, hb1, e1, hl, ProtocolDataHeader.init] at e
          obtain ⟨rfl, rfl⟩ := e
          show off + 2 + 2 ≤ buf.length
          omega
        · simp [hs, hb0, hb1, e1, hl, e3 (by omega), ProtocolDataHeader.init] at e
          obtain ⟨rfl, rfl⟩ := e
          show off + 2 + 2 + 4 ≤ buf.length
          omega
      · have hl : ¬ buf.length < off + 2 + 2 + 2 := by omega
        simp [hs, hb0, hb1, e1, hl, e2, ProtocolDataHeader.init] at e
        obtain ⟨rfl, rfl⟩ := e
        show off + 2 + 2 + 2 ≤ buf.length
        omega
    · simp [hs, ProtocolDataHeader.init] at e
      obtain ⟨rfl, rfl⟩ := e
      show off + 2 ≤ buf.length
      omega

/-- C25: for every buffer and every read offset, also one at or past the end of the buffer,
`ReadDataHead` returns without an out-of-range access (every `readUint16` and `readUint32`
it performs finds its bytes in the buffer); it leaves the buffer unchanged, and the offset
either where it was or at a position inside the buffer. -/
theorem ReadDataHead_in_range (r : ProtocolReader) :
    ∃ h r', ReadDataHead r = some (h, r') ∧ r'.buf = r.buf ∧
      (r'.off = r.off ∨ r'.off ≤ r.buf.length) := by
  cases e : ReadDataHead r with
  | none => exact absurd e (ReadDataHead_ne_none r)
  | some x =>
    obtain ⟨h, r'⟩ := x
    exact ⟨h, r', rfl, (ReadDataHead_facts r h r' e).1, ReadDataHead_off r h r' e⟩

theorem readMemoryLoop_far (buf : List Nat) (off len : Nat) :
    ∀ (fuel i : Nat) (acc : List (Nat × List Nat)), 64 ≤ i → i < len → len ≤ i + fuel →
      readMemoryLoop buf off len fuel i acc = none := by
  intro fuel
  induction fuel with
  | zero =>
    intro i acc _ h2 h3
    omega
  | succ f ih =>
    intro i acc h1 h2 h3
    simp only [readMemoryLoop, h2, if_true]
    by_cases hle : off + i * 64 ≤ off + len
    · rw [if_pos hle]
      exact ih _ _ (by omega) (by omega) (by omega)
    · rw [if_neg hle]

theorem readMemory_panics (r : ProtocolReader) (len : Nat) (h1 : 64 < len)
    (h2 : r.off + 64 < r.buf.length) : readMemory r len = .error .panic := by
  unfold readMemory
  simp only [ProtocolReader.Len]
  generalize hn : (if (r.buf.length : Int) - (r.off : Int) < (len : Int)
    then (r.buf.length : Int) - (r.off : Int) else (len : Int)) = n
  have hpos : (64 : Int) < n := by
    rw [← hn]
    split <;> omega
  have hn0 : ¬ n ≤ 0 := by omega
  rw [if_neg hn0]
  obtain ⟨k, hk⟩ : ∃ k, n.toNat = k + 1 := ⟨n.toNat - 1, by omega⟩
  have hloop : readMemoryLoop r.buf r.off n.toNat n.toNat 0 [] = none := by
    rw [hk]
    simp only [readMemoryLoop]
    rw [if_pos (by omega), if_pos (by omega)]
    exact readMemoryLoop_far _ _ _ _ _ _ (by omega) (by omega) (by omega)
  rw [hloop]

theorem readMemory_small (r : ProtocolReader) (len : Nat) (h0 : 0 < len) (h1 : len ≤ 64)
    (h2 : r.off + len ≤ r.buf.length) :
    readMemory r len =
      .ok (len, [(0, ((r.buf.take (r.off + len)).drop r.off).take 64)],
            { r with off := r.off + len }) := by
  unfold readMemory
  simp only [ProtocolReader.Len]
  have hlt : ¬ ((r.buf.length : Int) - (r.off : Int) < (len : Int)) := by omega
  rw [if_neg hlt]
  have hn0 : ¬ ((len : Int) ≤ 0) := by omega
  rw [if_neg hn0]
  simp only [Int.toNat_ofNat]
  obtain ⟨k, hk⟩ : ∃ k, len = k + 1 := ⟨len - 1, by omega⟩
  have hloop : readMemoryLoop r.buf r.off len len 0 [] =
      some [(0, ((r.buf.take (r.off + len)).drop r.off).take 64)] := by
    rw [hk]
    simp only [readMemoryLoop]
    rw [if_pos (by omega), if_pos (by omega)]
    cases k with
    | zero => simp [readMemoryLoop]
    | succ j =>
      simp only [readMemoryLoop]
      rw [if_neg (by omega)]
      simp
  rw [hloop]

/-- C23 (code defect): `readMemory` panics when it has to copy 65 bytes.  On a reader with 65
unread bytes, `readMemory` of length 65 panics in the second round of its loop (the slice
`buf[off + 64*64 : off + 65]` has its low bound above its high bound), where the claim says
it copies the 65 bytes and returns 65; a length of 64 on the same reader copies the first 64
bytes to the destination and returns 64. -/
theorem readMemory_panics_at_65_bytes :
    readMemory ⟨List.replicate 65 7, 0⟩ 65 = .error .panic ∧
    readMemory ⟨List.replicate 65 7, 0⟩ 64
      = .ok (64, [(0, List.replicate 64 7)], ⟨List.replicate 65 7, 64⟩) :=
  ⟨rfl, rfl⟩

theorem readString_of_prefix (r : ProtocolReader) (l : Nat) (hl : 0 < l)
    (h2 : r.off + 2 + l ≤ r.buf.length) (hu : u16At r.buf r.off = l) :
    readString r = .ok ((r.buf.drop (r.off + 2)).take l, 2 + l, true,
      { r with off := r.off + 2 + l }) := by
  unfold readString
  rw [readUint16_eq r (by omega), hu]
  simp only [ProtocolReader.Len, stringLenSize]
  have : l > 0 ∧ ((r.buf.length : Int) - ((r.off + 2 : Nat) : Int)) ≥ (l : Int) := by
    constructor
    · exact hl
    · omega
  rw [if_pos this]

/-- C24 (code defect): `readString` reports failure for the length 0.  `writeString` encodes
the empty string as `00 00`; on a reader whose unread bytes are `00 00` (whether or not more
bytes follow) `readString` consumes the two bytes and returns `ok = false`, where the claim
says it returns the empty string.  A length of 1 followed by one byte is read as the claim
says. -/
theorem readString_rejects_empty_string :
    writeString [] [] = [0, 0] ∧
    readString ⟨[0, 0], 0⟩ = .ok ([], 2, false, ⟨[0, 0], 2⟩) ∧
    readString ⟨[0, 0, 7, 7], 0⟩ = .ok ([], 2, false, ⟨[0, 0, 7, 7], 2⟩) ∧
    readString ⟨[1, 0, 7, 7], 0⟩ = .ok ([7], 3, true, ⟨[1, 0, 7, 7], 3⟩) :=
  ⟨rfl, rfl, rfl, rfl⟩

/-! ## The class id of a nested record -/

theorem readStructWith_rejects (rv : ReadValFn) (reg : Registry) (T : RType) (v : Value)
    (r : ProtocolReader) (h : ProtocolDataHeader) (r1 : ProtocolReader)
    (hh : ReadDataHead r = some (h, r1))
    (hbad : ∀ d, GetRegRttiDataByClassId reg h.classId = some d → d.rType ≠ T) :
    readStructWith rv reg (some T) v r = .ok (false, v, r1) := by
  unfold readStructWith
  rw [hh]
  simp only
  by_cases hv : (!h.isValid) = true
  · rw [if_pos hv]
  · rw [if_neg hv]
    cases hl : GetRegRttiDataByClassId reg h.classId with
    | none => rfl
    | some d =>
      have hne : some d.rType ≠ some T := fun e => hbad d hl (Option.some.inj e)
      simp only [hne, ne_eq, not_false_eq_true, if_true]

/-- C21, amended: when the record type declared for a nested struct field is registered under
one class id only (every registered descriptor of that type has the class id `enc.ClassId`
the encoder writes for the field), a framed sub-record whose header carries another class id
makes `readStruct` return `false`, and the field loop of `readVal` returns `false` at that
field. -/
theorem nested_classId_mismatch_fails (rv : ReadValFn) (env : TypeEnv) (reg : Registry)
    (all : List TRegFieldOffsetData) (fd : TRegFieldOffsetData) (idx startPos datalen : Nat)
    (fs : List Value) (readLen : Nat) (r : ProtocolReader) (h : ProtocolDataHeader)
    (r1 : ProtocolReader) (enc : TRegRttiData)
    (hpod : fd.isPod = false) (hk : fd.Kind = .Struct)
    (hh : ReadDataHead r = some (h, r1))
    (henc : lookupDataClass reg fd.typeHash = some enc)
    (huniq : ∀ c d, GetRegRttiDataByClassId reg c = some d → d.rType = fd.rType →
      c = enc.ClassId)
    (hne : h.classId ≠ enc.ClassId) :
    readStructWith rv reg (some fd.rType) (fs.getD idx .other) r
      = .ok (false, fs.getD idx .other, r1) ∧
    readFieldWith rv env reg all fd idx startPos datalen fs readLen r
      = .ok (.ret, fs.set idx (fs.getD idx .other), readLen, r1) := by
  have hs := readStructWith_rejects rv reg fd.rType (fs.getD idx .other) r h r1 hh
    (fun d hd ht => hne (huniq _ d hd ht))
  refine ⟨hs, ?_⟩
  simp only [readFieldWith, hpod, hk, Bool.false_eq_true, if_false, hs]
  rfl

/-- Witness of C21, amended: `T0` registered under class id 10 only, and a sub-record frame
with class id 11. -/
theorem nested_classId_mismatch_fails_witness :
    (ReadDataHead ⟨[0x98, 0x6D, 11, 0, 10, 0, 5, 0, 0, 0], 0⟩
        = some (⟨true, 6, 11, 10⟩, ⟨[0x98, 0x6D, 11, 0, 10, 0, 5, 0, 0, 0], 6⟩) ∧
     lookupDataClass
        ((RegisterDataClass exEnv3 Registry.empty 10 (.ptr (.named 0))).getD Registry.empty)
        (.named 0)
       = some ⟨10, false, .named 0,
           [⟨.basic .Int32, .Int32, .basic .Int32, 0, 1, 4, 0, 0, .Invalid, none⟩]⟩ ∧
     (11 : Nat) ≠ 10) ∧
    readFieldWith (readVal exEnv3
          ((RegisterDataClass exEnv3 Registry.empty 10 (.ptr (.named 0))).getD Registry.empty) 1)
        exEnv3
        ((RegisterDataClass exEnv3 Registry.empty 10 (.ptr (.named 0))).getD Registry.empty)
        [⟨.named 0, .Struct, .named 0, 0, 1, 4, 0, 0, .Invalid, none⟩]
        ⟨.named 0, .Struct, .named 0, 0, 1, 4, 0, 0, .Invalid, none⟩ 0 0 16
        [.struct [.pod [0, 0, 0, 0]]] 6 ⟨[0x98, 0x6D, 11, 0, 10, 0, 5, 0, 0, 0], 0⟩
      = .ok (.ret, [.struct [.pod [0, 0, 0, 0]]], 6,
          ⟨[0x98, 0x6D, 11, 0, 10, 0, 5, 0, 0, 0], 6⟩) :=
  ⟨⟨rfl, by decide, by decide⟩,
   (nested_classId_mismatch_fails
      (readVal exEnv3
        ((RegisterDataClass exEnv3 Registry.empty 10 (.ptr (.named 0))).getD Registry.empty) 1)
      exEnv3
      ((RegisterDataClass exEnv3 Registry.empty 10 (.ptr (.named 0))).getD Registry.empty)
      [⟨.named 0, .Struct, .named 0, 0, 1, 4, 0, 0, .Invalid, none⟩]
      ⟨.named 0, .Struct, .named 0, 0, 1, 4, 0, 0, .Invalid, none⟩ 0 0 16
      [.struct [.pod [0, 0, 0, 0]]] 6 ⟨[0x98, 0x6D, 11, 0, 10, 0, 5, 0, 0, 0], 0⟩
      ⟨true, 6, 11, 10⟩ ⟨[0x98, 0x6D, 11, 0, 10, 0, 5, 0, 0, 0], 6⟩
      ⟨10, false, .named 0,
        [⟨.basic .Int32, .Int32, .basic .Int32, 0, 1, 4, 0, 0, .Invalid, none⟩]⟩
      rfl rfl rfl (by decide)
      (by
        intro c d hl _
        have hreg : ((RegisterDataClass exEnv3 Registry.empty 10 (.ptr (.named 0))).getD
            Registry.empty).G_ClassId = [(10, ⟨10, false, .named 0,
              [⟨.basic .Int32, .Int32, .basic .Int32, 0, 1, 4, 0, 0, .Invalid, none⟩]⟩)] := by
          decide
        simp only [GetRegRttiDataByClassId, hreg, List.lookup] at hl
        split at hl
        · rename_i hc
          exact of_decide_eq_true hc
        · cases hl)
      (by decide)).2⟩

/-- C21, counterexample: with the record type `T0` registered under the class ids 10 and 11,
the encoder writes class id 11 for a nested field of type `T0`, yet a frame whose sub-record
header carries class id 10 decodes successfully. -/
theorem nested_classId_mismatch_accepted :
    Marshal exReg3 (.iface (.ptr (.named 1)) (.ptr (.struct [.struct [.pod [5, 0, 0, 0]]])))
      = some (exReg3, .ok [0x98, 0x6D, 20, 0, 16, 0, 0x98, 0x6D, 11, 0, 10, 0, 5, 0, 0, 0]) ∧
    Unmarshal exEnv3 exReg3 [0x98, 0x6D, 20, 0, 16, 0, 0x98, 0x6D, 10, 0, 10, 0, 5, 0, 0, 0]
      = .ok (.ok (.iface (.ptr (.named 1)) (.ptr (.struct [.struct [.pod [5, 0, 0, 0]]])))) :=
  ⟨rfl, rfl⟩

/-! ## The buffer of the reader -/

theorem readUint16_buf (r : ProtocolReader) (v : Nat) (r1 : ProtocolReader)
    (e : readUint16 r = some (v, r1)) : r1.buf = r.buf := by
  unfold readUint16 at e
  split at e
  · cases e; rfl
  · cases e

theorem readUint32_buf (r : ProtocolReader) (v : Nat) (r1 : ProtocolReader)
    (e : readUint32 r = some (v, r1)) : r1.buf = r.buf := by
  unfold readUint32 at e
  split at e
  · cases e; rfl
  · cases e

theorem readMemory_buf (r : ProtocolReader) (len rn : Nat) (ws : List (Nat × List Nat))
    (r1 : ProtocolReader) (e : readMemory r len = .ok (rn, ws, r1)) : r1.buf = r.buf := by
  unfold readMemory at e
  simp only at e
  generalize (if r.Len < (len : Int) then r.Len else (len : Int)) = n at e
  by_cases hn : n ≤ 0
  · rw [if_pos hn] at e
    cases e
    rfl
  · rw [if_neg hn] at e
    split at e
    · cases e
    · cases e
      rfl

theorem readString_buf (r : ProtocolReader) (s : List Nat) (slen : Nat) (ok : Bool)
    (r1 : ProtocolReader) (e : readString r = .ok (s, slen, ok, r1)) : r1.buf = r.buf := by
  unfold readString at e
  split at e
  · cases e
  · rename_i l r0 h0
    have h2 := readUint16_buf _ _ _ h0
    split at e
    · cases e
      exact h2
    · cases e
      exact h2

theorem readAnyWith_buf (rv : ReadValFn) (hrv : RvBuf rv) (env : TypeEnv) (reg : Registry)
    (r : ProtocolReader) (res : Except String Value) (r1 : ProtocolReader)
    (e : readAnyWith rv env reg r = .ok (res, r1)) : r1.buf = r.buf := by
  unfold readAnyWith at e
  simp only at e
  split at e
  · cases e
  · rename_i dataHead r0 hh
    have hb := (ReadDataHead_facts _ _ _ hh).1
    split at e
    · cases e
      exact hb
    · split at e
      · cases e
        exact hb
      · split at e
        · cases e
          exact hb
        · split at e
          · cases e
            exact hb
          · split at e
            · cases e
            · rename_i fs r2 hr
              cases e
              exact (hrv _ _ _ _ _ _ _ hr).trans hb
            · rename_i fs r2 hr
              cases e
              exact (hrv _ _ _ _ _ _ _ hr).trans hb

theorem readStructWith_buf (rv : ReadValFn) (hrv : RvBuf rv) (reg : Registry)
    (t : Option RType) (v : Value) (r : ProtocolReader) (ok : Bool) (v1 : Value)
    (r1 : ProtocolReader) (e : readStructWith rv reg t v r = .ok (ok, v1, r1)) :
    r1.buf = r.buf := by
  unfold readStructWith at e
  split at e
  · cases e
  · rename_i dataHead r0 hh
    have hb := (ReadDataHead_facts _ _ _ hh).1
    split at e
    · cases e
      exact hb
    · split at e
      · cases e
        exact hb
      · split at e
        · cases e
          exact hb
        · split at e
          · cases e
          · rename_i b fs r2 hr
            cases e
            exact (hrv _ _ _ _ _ _ _ hr).trans hb

theorem readPointerWith_buf (rv : ReadValFn) (hrv : RvBuf rv) (env : TypeEnv)
    (reg : Registry) (t : Option RType) (v : Value) (r : ProtocolReader) (ok : Bool)
    (v1 : Value) (r1 : ProtocolReader) (e : readPointerWith rv env reg t v r = .ok (ok, v1, r1)) :
    r1.buf = r.buf := by
  unfold readPointerWith at e
  split at e
  · cases e
  · rename_i dataHead r0 hh
    have hb := (ReadDataHead_facts _ _ _ hh).1
    split at e
    · cases e
      exact hb
    · split at e
      · cases e
        exact hb
      · split at e
        · cases e
          exact hb
        · split at e
          · simp only at e
            split at e
            · cases e
            · rename_i b fs r2 hr
              cases e
              exact (hrv _ _ _ _ _ _ _ hr).trans hb
          · cases e
            exact hb

theorem elemLoop_buf (step : Nat → List Value → Nat → ProtocolReader → ElemRes)
    (hs : StepBuf step) :
    ∀ (n i : Nat) (es : List Value) (rl : Nat) (r : ProtocolReader) (b : Bool)
      (es1 : List Value) (rl1 : Nat) (r1 : ProtocolReader),
      elemLoop step n i es rl r = .ok (b, es1, rl1, r1) → r1.buf = r.buf := by
  intro n
  induction n with
  | zero =>
    intro i es rl r b es1 rl1 r1 e
    simp only [elemLoop] at e
    cases e
    rfl
  | succ n ih =>
    intro i es rl r b es1 rl1 r1 e
    simp only [elemLoop] at e
    split at e
    · cases e
    · rename_i es2 rl2 r2 h2
      cases e
      exact hs _ _ _ _ _ _ _ _ h2
    · rename_i es2 rl2 r2 h2
      exact (ih _ _ _ _ _ _ _ _ e).trans (hs _ _ _ _ _ _ _ _ h2)

theorem strStep_buf (limit : Nat) : StepBuf (strStep limit) := by
  intro i es rl r b es1 rl1 r1 e
  unfold strStep at e
  split at e
  · cases e
  · rename_i s slen ok r2 h2
    have hb := readString_buf _ _ _ _ _ h2
    simp only at e
    split at e
    · cases e
      exact hb
    · cases e
      exact hb

theorem structStep_buf (rv : ReadValFn) (hrv : RvBuf rv) (env : TypeEnv) (reg : Registry)
    (t : Option RType) (limit startPos : Nat) :
    StepBuf (structStep rv env reg t limit startPos) := by
  intro i es rl r b es1 rl1 r1 e
  unfold structStep at e
  split at e
  · split at e
    · cases e
    · rename_i ok v r2 h2
      have hb := readStructWith_buf rv hrv _ _ _ _ _ _ _ h2
      split at e
      · cases e
        exact hb
      · cases e
        exact hb
  · split at e
    · cases e
    · rename_i r2 h2
      cases e
      exact readAnyWith_buf rv hrv _ _ _ _ _ h2
    · rename_i r2 h2
      cases e
      exact readAnyWith_buf rv hrv _ _ _ _ _ h2

theorem ifaceStep_buf (rv : ReadValFn) (hrv : RvBuf rv) (env : TypeEnv) (reg : Registry)
    (limit startPos : Nat) :
    StepBuf (ifaceStep rv env reg limit startPos) := by
  intro i es rl r b es1 rl1 r1 e
  unfold ifaceStep at e
  split at e
  · cases e
  · rename_i r2 h2
    cases e
    exact readAnyWith_buf rv hrv _ _ _ _ _ h2
  · rename_i r2 h2
    cases e
    exact readAnyWith_buf rv hrv _ _ _ _ _ h2

theorem ptrStep_buf (rv : ReadValFn) (hrv : RvBuf rv) (env : TypeEnv) (reg : Registry)
    (t : Option RType) (limit startPos : Nat) :
    StepBuf (ptrStep rv env reg t limit startPos) := by
  intro i es rl r b es1 rl1 r1 e
  unfold ptrStep at e
  split at e
  · split at e
    · cases e
    · rename_i ok v r2 h2
      have hb := readPointerWith_buf rv hrv _ _ _ _ _ _ _ _ h2
      split at e
      · cases e
        exact hb
      · cases e
        exact hb
  · split at e
    · cases e
    · rename_i r2 h2
      cases e
      exact readAnyWith_buf rv hrv _ _ _ _ _ h2
    · rename_i r2 h2
      cases e
      exact readAnyWith_buf rv hrv _ _ _ _ _ h2

theorem readElemsWith_buf (rv : ReadValFn) (hrv : RvBuf rv) (env : TypeEnv) (reg : Registry)
    (fd : TRegFieldOffsetData) (limit startPos arrlen : Nat) (es : List Value) (rl : Nat)
    (r : ProtocolReader) (b : Bool) (es1 : List Value) (rl1 : Nat) (r1 : ProtocolReader)
    (e : readElemsWith rv env reg fd limit startPos arrlen es rl r = .ok (b, es1, rl1, r1)) :
    r1.buf = r.buf := by
  unfold readElemsWith at e
  split at e
  · exact elemLoop_buf _ (strStep_buf limit) _ _ _ _ _ _ _ _ _ e
  · exact elemLoop_buf _ (structStep_buf rv hrv env reg _ limit startPos) _ _ _ _ _ _ _ _ _ e
  · exact elemLoop_buf _ (ifaceStep_buf rv hrv env reg limit startPos) _ _ _ _ _ _ _ _ _ e
  · exact elemLoop_buf _ (ptrStep_buf rv hrv env reg _ limit startPos) _ _ _ _ _ _ _ _ _ e
  · cases e
    rfl

theorem readFieldWith_buf (rv : ReadValFn) (hrv : RvBuf rv) (env : TypeEnv)
    (reg : Registry) (all : List TRegFieldOffsetData) (fd : TRegFieldOffsetData)
    (idx startPos datalen : Nat) (fs : List Value) (readLen : Nat) (r : ProtocolReader)
    (flow : Flow) (fs1 : List Value) (rl1 : Nat) (r1 : ProtocolReader)
    (e : readFieldWith rv env reg all fd idx startPos datalen fs readLen r
          = .ok (flow, fs1, rl1, r1)) :
    r1.buf = r.buf := by
  by_cases hp : fd.isPod = true
  · rw [readFieldWith_pod _ _ _ _ _ _ _ _ _ _ _ hp] at e
    split at e
    · cases e
    · rename_i rn ws r2 hm
      have hb := readMemory_buf _ _ _ _ _ hm
      split at e
      · cases e
        exact hb
      · cases e
        exact hb
  · have hpod := isPod_false_of_not fd hp
    cases hk : fd.Kind with
    | String =>
      simp only [readFieldWith, hpod, hk, Bool.false_eq_true, if_false] at e
      split at e
      · cases e
        rfl
      · split at e
        · cases e
        · rename_i s slen ok r2 h2
          have hb := readString_buf _ _ _ _ _ h2
          split at e
          · cases e
            exact hb
          · cases e
            exact hb
    | Array =>
      simp only [readFieldWith, hpod, hk, Bool.false_eq_true, if_false] at e
      split at e
      · cases e
        rfl
      · split at e
        · cases e
        · rename_i arrlen r0 h0
          have h4 := readUint32_buf _ _ _ h0
          split at e
          · split at e
            · split at e
              · cases e
              · rename_i rn ws r2 hm
                have hb := readMemory_buf _ _ _ _ _ hm
                split at e
                · cases e
                  exact hb.trans h4
                · cases e
                  exact hb.trans h4
            · split at e
              · cases e
              · rename_i rn ws r2 hm
                have hb := readMemory_buf _ _ _ _ _ hm
                split at e
                · cases e
                  exact hb.trans h4
                · cases e
                  exact hb.trans h4
          · obtain ⟨b, es, he, -⟩ := elemsToField_facts _ _ _ _ _ _ _ _ e
            exact (readElemsWith_buf rv hrv _ _ _ _ _ _ _ _ _ _ _ _ _ he).trans h4
    | Slice =>
      simp only [readFieldWith, hpod, hk, Bool.false_eq_true, if_false] at e
      split at e
      · cases e
        rfl
      · split at e
        · cases e
        · rename_i arrlen r0 h0
          have h4 := readUint32_buf _ _ _ h0
          split at e
          · cases e
            exact h4
          · split at e
            · split at e
              · cases e
              · rename_i rn ws r2 hm
                have hb := readMemory_buf _ _ _ _ _ hm
                split at e
                · cases e
                  exact hb.trans h4
                · cases e
                  exact hb.trans h4
            · obtain ⟨b, es, he, -⟩ := elemsToField_facts _ _ _ _ _ _ _ _ e
              exact (readElemsWith_buf rv hrv _ _ _ _ _ _ _ _ _ _ _ _ _ he).trans h4
    | Struct =>
      simp only [readFieldWith, hpod, hk, Bool.false_eq_true, if_false] at e
      split at e
      · cases e
      · rename_i ok v r2 h2
        have hb := readStructWith_buf rv hrv _ _ _ _ _ _ _ h2
        split at e
        · cases e
          exact hb
        · cases e
          exact hb
    | Interface =>
      simp only [readFieldWith, hpod, hk, Bool.false_eq_true, if_false] at e
      split at e
      · cases e
      · rename_i r2 h2
        cases e
        exact readAnyWith_buf rv hrv _ _ _ _ _ h2
      · rename_i r2 h2
        cases e
        exact readAnyWith_buf rv hrv _ _ _ _ _ h2
    | Ptr =>
      simp only [readFieldWith, hpod, hk, Bool.false_eq_true, if_false] at e
      split at e
      · cases e
      · rename_i ok v r2 h2
        have hb := readPointerWith_buf rv hrv _ _ _ _ _ _ _ _ h2
        split at e
        · cases e
          exact hb
        · cases e
          exact hb
    | _ =>
      simp only [readFieldWith, hpod, hk, Bool.false_eq_true, if_false] at e
      cases e
      rfl

theorem readFieldsWith_buf (rv : ReadValFn) (hrv : RvBuf rv) (env : TypeEnv)
    (reg : Registry) (all : List TRegFieldOffsetData) (startPos datalen : Nat) :
    ∀ (fds : List TRegFieldOffsetData) (idx skip : Nat) (fs : List Value) (readLen : Nat)
      (r : ProtocolReader) (b : Bool) (fs1 : List Value) (r1 : ProtocolReader),
      readFieldsWith rv env reg all startPos datalen fds idx skip fs readLen r
        = .ok (b, fs1, r1) → r1.buf = r.buf := by
  intro fds
  induction fds with
  | nil =>
    intro idx skip fs readLen r b fs1 r1 e
    simp only [readFieldsWith] at e
    cases e
    rfl
  | cons fd rest ih =>
    intro idx skip fs readLen r b fs1 r1 e
    cases skip with
    | succ k =>
      simp only [readFieldsWith] at e
      exact ih _ _ _ _ _ _ _ _ e
    | zero =>
      simp only [readFieldsWith] at e
      split at e
      · cases e
        rfl
      · split at e
        · split at e
          · cases e
          · rename_i fs2 rl2 r2 h2
            have hb := readFieldWith_buf rv hrv _ _ _ _ _ _ _ _ _ _ _ _ _ _ h2
            exact (ih _ _ _ _ _ _ _ _ e).trans hb
          · rename_i fs2 rl2 r2 h2
            have hb := readFieldWith_buf rv hrv _ _ _ _ _ _ _ _ _ _ _ _ _ _ h2
            cases e
            exact hb
          · rename_i fs2 rl2 r2 h2
            have hb := readFieldWith_buf rv hrv _ _ _ _ _ _ _ _ _ _ _ _ _ _ h2
            cases e
            exact hb
        · split at e
          · cases e
          · rename_i rn ws r2 hm
            have hb := readMemory_buf _ _ _ _ _ hm
            split at e
            · cases e
              exact hb
            · exact (ih _ _ _ _ _ _ _ _ e).trans hb

theorem readValWith_buf (rv : ReadValFn) (hrv : RvBuf rv) (env : TypeEnv) (reg : Registry) :
    RvBuf (readValWith rv env reg) := by
  intro h fs rtti r b fs1 r1 e
  unfold readValWith at e
  simp only at e
  split at e
  · cases e
  · rename_i fs2 r2 h2
    cases e
    exact readFieldsWith_buf rv hrv _ _ _ _ _ _ _ _ _ _ _ _ _ _ h2
  · rename_i fs2 r2 h2
    have hb := readFieldsWith_buf rv hrv _ _ _ _ _ _ _ _ _ _ _ _ _ _ h2
    cases e
    exact hb

theorem readVal_buf (env : TypeEnv) (reg : Registry) : ∀ fuel, RvBuf (readVal env reg fuel) := by
  intro fuel
  induction fuel with
  | zero =>
    intro h fs rtti r b fs1 r1 e
    cases e
  | succ f ih => exact readValWith_buf _ ih env reg

/-! ## Readers of the same bytes behind another prefix -/

theorem Moved.len (M : Moved) : M.C.length + M.p = M.B.length + M.q := by
  have h := congrArg List.length M.same
  simp only [List.length_drop] at h
  have h1 := M.hp
  have h2 := M.hq
  omega

theorem Moved.drop_sh (M : Moved) (o k : Nat) (h : M.p ≤ o) :
    M.C.drop (o - M.p + M.q + k) = M.B.drop (o + k) := by
  have e1 : o - M.p + M.q + k = M.q + (o - M.p + k) := by omega
  have e2 : o + k = M.p + (o - M.p + k) := by omega
  have hd : ∀ (l : List Nat) (a b : Nat), l.drop (a + b) = (l.drop a).drop b :=
    fun l a b => (List.drop_drop b a l).symm
  rw [e1, e2, hd M.C M.q, hd M.B M.p, M.same]

theorem Moved.get_sh (M : Moved) (o k : Nat) (h : M.p ≤ o) :
    M.C[o - M.p + M.q + k]? = M.B[o + k]? := by
  rw [← List.head?_drop, ← List.head?_drop, M.drop_sh o k h]

theorem Moved.get_sh0 (M : Moved) (o : Nat) (h : M.p ≤ o) :
    M.C[o - M.p + M.q]? = M.B[o]? := M.get_sh o 0 h

theorem Moved.Len_sh (M : Moved) (r : ProtocolReader) (hg : M.Good r) :
    (M.sh r).Len = r.Len := by
  obtain ⟨hb, hp⟩ := hg
  have := M.len
  simp only [ProtocolReader.Len, Moved.sh, hb]
  omega

theorem Moved.readUint16_sh (M : Moved) (r : ProtocolReader) (hg : M.Good r) :
    readUint16 (M.sh r) = (readUint16 r).map (sh1 M.sh) := by
  obtain ⟨hb, hp⟩ := hg
  simp only [readUint16, Moved.sh, hb, M.get_sh0 _ hp, M.get_sh _ 1 hp]
  cases M.B[r.off]? <;> cases M.B[r.off + 1]? <;> simp [sh1, Moved.sh]
  omega

theorem Moved.readUint32_sh (M : Moved) (r : ProtocolReader) (hg : M.Good r) :
    readUint32 (M.sh r) = (readUint32 r).map (sh1 M.sh) := by
  obtain ⟨hb, hp⟩ := hg
  simp only [readUint32, Moved.sh, hb, M.get_sh0 _ hp, M.get_sh _ 1 hp, M.get_sh _ 2 hp,
    M.get_sh _ 3 hp]
  cases M.B[r.off]? <;> cases M.B[r.off + 1]? <;> cases M.B[r.off + 2]? <;>
    cases M.B[r.off + 3]? <;> simp [sh1, Moved.sh]
  omega

theorem Moved.window_sh (M : Moved) (o len k : Nat) (h : M.p ≤ o) :
    (M.C.take (o - M.p + M.q + len)).drop (o - M.p + M.q + k)
      = (M.B.take (o + len)).drop (o + k) := by
  rw [List.drop_take, List.drop_take, M.drop_sh o k h]
  congr 1
  omega

theorem Moved.readMemoryLoop_sh (M : Moved) (o len : Nat) (h : M.p ≤ o) :
    ∀ (fuel i : Nat) (acc : List (Nat × List Nat)),
      readMemoryLoop M.C (o - M.p + M.q) len fuel i acc = readMemoryLoop M.B o len fuel i acc := by
  intro fuel
  induction fuel with
  | zero => intro i acc; rfl
  | succ f ih =>
    intro i acc
    simp only [readMemoryLoop, M.window_sh o len (i * 64) h, ih]
    by_cases h1 : i < len
    · rw [if_pos h1, if_pos h1]
      by_cases h2 : o + i * 64 ≤ o + len
      · rw [if_pos h2, if_pos (by omega)]
      · rw [if_neg h2, if_neg (by omega)]
    · rw [if_neg h1, if_neg h1]

theorem Moved.readMemory_sh (M : Moved) (r : ProtocolReader) (len : Nat) (hg : M.Good r) :
    readMemory (M.sh r) len = (readMemory r len).map (sh2 M.sh) := by
  have hL := M.Len_sh r hg
  obtain ⟨hb, hp⟩ := hg
  unfold readMemory
  simp only [hL]
  generalize (if r.Len < (len : Int) then r.Len else (len : Int)) = n
  by_cases hn : n ≤ 0
  · rw [if_pos hn, if_pos hn]
    rfl
  · rw [if_neg hn, if_neg hn]
    have e : readMemoryLoop (M.sh r).buf (M.sh r).off n.toNat n.toNat 0 []
        = readMemoryLoop r.buf r.off n.toNat n.toNat 0 [] := by
      rw [hb]
      exact M.readMemoryLoop_sh r.off n.toNat hp _ _ _
    rw [e]
    cases readMemoryLoop r.buf r.off n.toNat n.toNat 0 [] with
    | none => rfl
    | some ws =>
      simp only [Except.map, sh2, Moved.sh]
      congr 4
      omega

theorem Moved.readString_sh (M : Moved) (r : ProtocolReader) (hg : M.Good r) :
    readString (M.sh r) = (readString r).map (sh3 M.sh) := by
  unfold readString
  rw [M.readUint16_sh r hg]
  cases e : readUint16 r with
  | none => rfl
  | some x =>
    obtain ⟨l, r1⟩ := x
    have ho := readUint16_off _ _ _ e
    have hb1 : r1.buf = r.buf := by
      unfold readUint16 at e
      split at e
      · cases e; rfl
      · cases e
    have hg1 : M.Good r1 := ⟨hb1.trans hg.1, by have := hg.2; omega⟩
    simp only [Option.map, sh1, M.Len_sh r1 hg1]
    by_cases hc : l > 0 ∧ r1.Len ≥ (l : Int)
    · rw [if_pos hc, if_pos hc]
      have hd := M.drop_sh r1.off 0 hg1.2
      simp only [Nat.add_zero] at hd
      simp only [Except.map, sh3, Moved.sh, hd, hg1.1]
      have h2 : M.p ≤ r1.off := hg1.2
      have ha : r1.off - M.p + M.q + l = r1.off + l - M.p + M.q := by omega
      rw [ha]
    · rw [if_neg hc, if_neg hc]
      rfl

theorem Moved.good_u16 (M : Moved) (r : ProtocolReader) (v : Nat) (r1 : ProtocolReader)
    (hg : M.Good r) (e : readUint16 r = some (v, r1)) : M.Good r1 :=
  ⟨(readUint16_buf r v r1 e).trans hg.1, by
    have := readUint16_off r v r1 e
    have := hg.2
    omega⟩

theorem Moved.good_u32 (M : Moved) (r : ProtocolReader) (v : Nat) (r1 : ProtocolReader)
    (hg : M.Good r) (e : readUint32 r = some (v, r1)) : M.Good r1 :=
  ⟨(readUint32_buf r v r1 e).trans hg.1, by
    have := readUint32_off r v r1 e
    have := hg.2
    omega⟩

theorem Moved.lengthPart16_sh (M : Moved) (r2 : ProtocolReader) (h2 : ProtocolDataHeader)
    (g2 : M.Good r2) :
    (if (M.sh r2).Len < 2 then some (h2, M.sh r2)
     else
      match readUint16 (M.sh r2) with
      | none => none
      | some (d, r3) =>
        some ({ h2 with dataLength := d, isValid := decide (d ≥ h2.headerLength) }, r3))
    = Option.map (sh1 M.sh)
      (if r2.Len < 2 then some (h2, r2)
       else
        match readUint16 r2 with
        | none => none
        | some (d, r3) =>
          some ({ h2 with dataLength := d, isValid := decide (d ≥ h2.headerLength) }, r3)) := by
  rw [M.Len_sh r2 g2, M.readUint16_sh r2 g2]
  by_cases h : r2.Len < 2
  · rw [if_pos h, if_pos h]; rfl
  · rw [if_neg h, if_neg h]
    cases readUint16 r2 with
    | none => rfl
    | some x => rfl

theorem Moved.lengthPart32_sh (M : Moved) (r2 : ProtocolReader) (h2 : ProtocolDataHeader)
    (g2 : M.Good r2) :
    (if (M.sh r2).Len < 4 then some (h2, M.sh r2)
     else
      match readUint32 (M.sh r2) with
      | none => none
      | some (d, r3) =>
        some ({ h2 with headerLength := h2.headerLength + 2, dataLength := d,
                        isValid := decide (d ≥ h2.headerLength + 2) }, r3))
    = Option.map (sh1 M.sh)
      (if r2.Len < 4 then some (h2, r2)
       else
        match readUint32 r2 with
        | none => none
        | some (d, r3) =>
          some ({ h2 with headerLength := h2.headerLength + 2, dataLength := d,
                          isValid := decide (d ≥ h2.headerLength + 2) }, r3)) := by
  rw [M.Len_sh r2 g2, M.readUint32_sh r2 g2]
  by_cases h : r2.Len < 4
  · rw [if_pos h, if_pos h]; rfl
  · rw [if_neg h, if_neg h]
    cases readUint32 r2 with
    | none => rfl
    | some x => rfl

theorem Moved.ReadDataHead_sh (M : Moved) (r : ProtocolReader) (hg : M.Good r) :
    ReadDataHead (M.sh r) = (ReadDataHead r).map (sh1 M.sh) := by
  unfold ReadDataHead
  simp only [M.Len_sh r hg, M.readUint16_sh r hg]
  by_cases h6 : r.Len < 6
  · rw [if_pos h6, if_pos h6]; rfl
  · rw [if_neg h6, if_neg h6]
    cases e0 : readUint16 r with
    | none => rfl
    | some x =>
      obtain ⟨sign, r1⟩ := x
      have g1 := M.good_u16 _ _ _ hg e0
      simp only [Option.map, sh1]
      by_cases hs : sign &&& cSignFlagMask ≠ cSignFlag
      · rw [if_pos hs, if_pos hs]
      · rw [if_neg hs, if_neg hs]
        by_cases hb0 : sign &&& 1 = 1
        · rw [if_pos hb0, if_pos hb0, M.readUint32_sh r1 g1]
          cases e1 : readUint32 r1 with
          | none => rfl
          | some y =>
            obtain ⟨c, r2⟩ := y
            have g2 := M.good_u32 _ _ _ g1 e1
            simp only [Option.map, sh1]
            by_cases hb1 : sign &&& 2 = 2
            · rw [if_pos hb1, if_pos hb1]
              exact M.lengthPart32_sh r2 _ g2
            · rw [if_neg hb1, if_neg hb1]
              exact M.lengthPart16_sh r2 _ g2
        · rw [if_neg hb0, if_neg hb0, M.readUint16_sh r1 g1]
          cases e1 : readUint16 r1 with
          | none => rfl
          | some y =>
            obtain ⟨c, r2⟩ := y
            have g2 := M.good_u16 _ _ _ g1 e1
            simp only [Option.map, sh1]
            by_cases hb1 : sign &&& 2 = 2
            · rw [if_pos hb1, if_pos hb1]
              exact M.lengthPart32_sh r2 _ g2
            · rw [if_neg hb1, if_neg hb1]
              exact M.lengthPart16_sh r2 _ g2

/-! ## Decoding the same bytes behind another prefix -/

theorem Moved.readAnyWith_sh (M : Moved) (lo : Nat) (rv rv' : ReadValFn)
    (hsim : M.RvSh lo rv rv') (env : TypeEnv) (reg : Registry) (r : ProtocolReader)
    (hg : M.Good r) (hlo : lo ≤ r.off) :
    readAnyWith rv' env reg (M.sh r) = (readAnyWith rv env reg r).map (sh1 M.sh) := by
  simp only [readAnyWith]
  rw [M.ReadDataHead_sh r hg]
  cases hh : ReadDataHead r with
  | none => rfl
  | some x =>
    obtain ⟨h, r1⟩ := x
    obtain ⟨hbuf, hoff, hval⟩ := ReadDataHead_facts _ _ _ hh
    simp only [Option.map, sh1]
    by_cases h1 : (!h.isValid) = true
    · rw [if_pos h1, if_pos h1]
      rfl
    · rw [if_neg h1, if_neg h1]
      obtain ⟨ho, h6, hle, hin⟩ := hval (valid_of_not _ h1)
      have hp := hg.2
      have g1 : M.Good r1 := ⟨hbuf.trans hg.1, by omega⟩
      have hlen : ((M.sh r1).buf.length : Int) - ((M.sh r).off : Int)
          = (r1.buf.length : Int) - (r.off : Int) := by
        have := M.len
        simp only [Moved.sh, g1.1]
        omega
      rw [hlen]
      by_cases h2 : ((r1.buf.length : Int) - (r.off : Int)) % 4294967296 < (h.dataLength : Int)
      · rw [if_pos h2, if_pos h2]
        rfl
      · rw [if_neg h2, if_neg h2]
        cases GetRegRttiDataByClassId reg h.classId with
        | none => rfl
        | some rtti =>
          simp only
          by_cases h3 : h.dataLength = h.headerLength
          · rw [if_pos h3, if_pos h3]
            rfl
          · rw [if_neg h3, if_neg h3]
            rw [hsim h _ rtti r1 g1 (by omega) (by rw [← hg.1]; exact hin) hle (by omega)]
            cases rv h (zeroValue env rtti.rType).fields rtti r1 with
            | error f => rfl
            | ok y =>
              obtain ⟨b, fs, r2⟩ := y
              cases b <;> rfl

theorem Moved.readStructWith_sh (M : Moved) (lo : Nat) (rv rv' : ReadValFn)
    (hsim : M.RvSh lo rv rv') (reg : Registry) (t : Option RType) (v : Value)
    (r : ProtocolReader) (hg : M.Good r) (hlo : lo ≤ r.off) :
    readStructWith rv' reg t v (M.sh r) = (readStructWith rv reg t v r).map (sh2 M.sh) := by
  simp only [readStructWith]
  rw [M.ReadDataHead_sh r hg]
  cases hh : ReadDataHead r with
  | none => rfl
  | some x =>
    obtain ⟨h, r1⟩ := x
    obtain ⟨hbuf, hoff, hval⟩ := ReadDataHead_facts _ _ _ hh
    simp only [Option.map, sh1]
    by_cases h1 : (!h.isValid) = true
    · rw [if_pos h1, if_pos h1]
      rfl
    · rw [if_neg h1, if_neg h1]
      obtain ⟨ho, h6, hle, hin⟩ := hval (valid_of_not _ h1)
      have hp := hg.2
      have g1 : M.Good r1 := ⟨hbuf.trans hg.1, by omega⟩
      cases GetRegRttiDataByClassId reg h.classId with
      | none => rfl
      | some rtti =>
        simp only
        by_cases h3 : some rtti.rType ≠ t
        · rw [if_pos h3, if_pos h3]
          rfl
        · rw [if_neg h3, if_neg h3]
          rw [hsim h _ rtti r1 g1 (by omega) (by rw [← hg.1]; exact hin) hle (by omega)]
          cases rv h v.fields rtti r1 with
          | error f => rfl
          | ok y => rfl

theorem Moved.readPointerWith_sh (M : Moved) (lo : Nat) (rv rv' : ReadValFn)
    (hsim : M.RvSh lo rv rv') (env : TypeEnv) (reg : Registry) (t : Option RType) (v : Value)
    (r : ProtocolReader) (hg : M.Good r) (hlo : lo ≤ r.off) :
    readPointerWith rv' env reg t v (M.sh r)
      = (readPointerWith rv env reg t v r).map (sh2 M.sh) := by
  simp only [readPointerWith]
  rw [M.ReadDataHead_sh r hg]
  cases hh : ReadDataHead r with
  | none => rfl
  | some x =>
    obtain ⟨h, r1⟩ := x
    obtain ⟨hbuf, hoff, hval⟩ := ReadDataHead_facts _ _ _ hh
    simp only [Option.map, sh1]
    by_cases h1 : (!h.isValid) = true
    · rw [if_pos h1, if_pos h1]
      rfl
    · rw [if_neg h1, if_neg h1]
      obtain ⟨ho, h6, hle, hin⟩ := hval (valid_of_not _ h1)
      have hp := hg.2
      have g1 : M.Good r1 := ⟨hbuf.trans hg.1, by omega⟩
      cases t.bind (lookupDataClass reg) with
      | none => rfl
      | some rtti =>
        simp only
        by_cases h3 : rtti.ClassId ≠ h.classId
        · rw [if_pos h3, if_pos h3]
          rfl
        · rw [if_neg h3, if_neg h3]
          by_cases h4 : h.dataLength > h.headerLength
          · rw [if_pos h4, if_pos h4]
            rw [hsim h _ rtti r1 g1 (by omega) (by rw [← hg.1]; exact hin) hle (by omega)]
            generalize rv h _ rtti r1 = res
            cases res with
            | error f => rfl
            | ok y => rfl
          · rw [if_neg h4, if_neg h4]
            rfl

theorem Moved.sub_sh (M : Moved) (a startPos startPos' : Nat)
    (hc : startPos' + M.p + a = startPos + M.q) (r1 : ProtocolReader)
    (h1 : M.p ≤ r1.off) (h2 : startPos ≤ r1.off) :
    (M.sh r1).off - startPos' = r1.off - startPos + a := by
  simp only [Moved.sh]
  omega

theorem Moved.strStep_sh (M : Moved) (a lo startPos limit : Nat) :
    M.StepSh a lo startPos (strStep limit) (strStep limit) := by
  intro i es rl r hg _ _
  unfold strStep
  rw [M.readString_sh r hg]
  cases readString r with
  | error f => rfl
  | ok y =>
    obtain ⟨s, slen, ok, r1⟩ := y
    cases ok
    · rfl
    · simp only [Except.map, sh3, shRound, Bool.not_true, Bool.false_eq_true, if_false,
        Nat.add_right_comm]

theorem Moved.anyStep_sh (M : Moved) (a lo startPos startPos' : Nat)
    (hc : startPos' + M.p + a = startPos + M.q) (rv rv' : ReadValFn) (hm : RvMono rv)
    (hsim : M.RvSh lo rv rv') (env : TypeEnv) (reg : Registry) (es : List Value) (rl : Nat)
    (r : ProtocolReader) (hg : M.Good r) (hlo : lo ≤ r.off) (hsp : startPos ≤ r.off) :
    (match readAnyWith rv' env reg (M.sh r) with
      | .error f => .error f
      | .ok (.error _, r1) => .ok (false, es, rl + a, r1)
      | .ok (.ok _, r1) => .ok (true, es, r1.off - startPos', r1) : ElemRes)
    = Except.map (shRound a M.sh)
      (match readAnyWith rv env reg r with
        | .error f => .error f
        | .ok (.error _, r1) => .ok (false, es, rl, r1)
        | .ok (.ok _, r1) => .ok (true, es, r1.off - startPos, r1) : ElemRes) := by
  rw [M.readAnyWith_sh lo rv rv' hsim env reg r hg hlo]
  cases hs : readAnyWith rv env reg r with
  | error f => rfl
  | ok y =>
    obtain ⟨res, r1⟩ := y
    have m := (readAnyWith_mono rv hm _ _ _ _ _ hs).1
    have hp := hg.2
    cases res with
    | error _ => rfl
    | ok obj =>
      simp only [Except.map, sh1, shRound]
      rw [M.sub_sh a startPos startPos' hc r1 (by omega) (by omega)]

theorem Moved.structStep_sh (M : Moved) (a lo startPos startPos' : Nat)
    (hc : startPos' + M.p + a = startPos + M.q) (rv rv' : ReadValFn) (hm : RvMono rv)
    (hsim : M.RvSh lo rv rv') (env : TypeEnv) (reg : Registry) (t : Option RType)
    (limit : Nat) :
    M.StepSh a lo startPos (structStep rv env reg t limit startPos)
      (structStep rv' env reg t limit startPos') := by
  intro i es rl r hg hlo hsp
  unfold structStep
  by_cases hi : i < limit
  · rw [if_pos hi, if_pos hi, M.readStructWith_sh lo rv rv' hsim reg t _ r hg hlo]
    cases hs : readStructWith rv reg t (es.getD i .other) r with
    | error f => rfl
    | ok y =>
      obtain ⟨ok, v, r1⟩ := y
      have m := (readStructWith_mono rv hm _ _ _ _ _ _ _ hs).1
      have hp := hg.2
      cases ok
      · rfl
      · simp only [Except.map, sh2, shRound, Bool.not_true, Bool.false_eq_true, if_false]
        rw [M.sub_sh a startPos startPos' hc r1 (by omega) (by omega)]
  · rw [if_neg hi, if_neg hi]
    exact M.anyStep_sh a lo startPos startPos' hc rv rv' hm hsim env reg es rl r hg hlo hsp

theorem Moved.ifaceStep_sh (M : Moved) (a lo startPos startPos' : Nat)
    (hc : startPos' + M.p + a = startPos + M.q) (rv rv' : ReadValFn) (hm : RvMono rv)
    (hsim : M.RvSh lo rv rv') (env : TypeEnv) (reg : Registry) (limit : Nat) :
    M.StepSh a lo startPos (ifaceStep rv env reg limit startPos)
      (ifaceStep rv' env reg limit startPos') := by
  intro i es rl r hg hlo hsp
  unfold ifaceStep
  rw [M.readAnyWith_sh lo rv rv' hsim env reg r hg hlo]
  cases hs : readAnyWith rv env reg r with
  | error f => rfl
  | ok y =>
    obtain ⟨res, r1⟩ := y
    have m := (readAnyWith_mono rv hm _ _ _ _ _ hs).1
    have hp := hg.2
    cases res with
    | error _ => rfl
    | ok obj =>
      simp only [Except.map, sh1, shRound]
      rw [M.sub_sh a startPos startPos' hc r1 (by omega) (by omega)]

theorem Moved.ptrStep_sh (M : Moved) (a lo startPos startPos' : Nat)
    (hc : startPos' + M.p + a = startPos + M.q) (rv rv' : ReadValFn) (hm : RvMono rv)
    (hsim : M.RvSh lo rv rv') (env : TypeEnv) (reg : Registry) (t : Option RType)
    (limit : Nat) :
    M.StepSh a lo startPos (ptrStep rv env reg t limit startPos)
      (ptrStep rv' env reg t limit startPos') := by
  intro i es rl r hg hlo hsp
  unfold ptrStep
  by_cases hi : i < limit
  · rw [if_pos hi, if_pos hi, M.readPointerWith_sh lo rv rv' hsim env reg t _ r hg hlo]
    cases hs : readPointerWith rv env reg t (es.getD i .other) r with
    | error f => rfl
    | ok y =>
      obtain ⟨ok, v, r1⟩ := y
      have m := (readPointerWith_mono rv hm _ _ _ _ _ _ _ _ hs).1
      have hp := hg.2
      cases ok
      · rfl
      · simp only [Except.map, sh2, shRound, Bool.not_true, Bool.false_eq_true, if_false]
        rw [M.sub_sh a startPos startPos' hc r1 (by omega) (by omega)]
  · rw [if_neg hi, if_neg hi]
    exact M.anyStep_sh a lo startPos startPos' hc rv rv' hm hsim env reg es rl r hg hlo hsp

theorem Moved.elemLoop_sh (M : Moved) (a lo startPos : Nat)
    (step step' : Nat → List Value → Nat → ProtocolReader → ElemRes)
    (hs : M.StepSh a lo startPos step step') (hinv : StepInv startPos step)
    (hbuf : StepBuf step) :
    ∀ (n i : Nat) (es : List Value) (rl : Nat) (r : ProtocolReader),
      M.Good r → lo ≤ r.off → startPos ≤ r.off →
      elemLoop step' n i es (rl + a) (M.sh r)
        = (elemLoop step n i es rl r).map (shRound a M.sh) := by
  intro n
  induction n with
  | zero =>
    intro i es rl r _ _ _
    rfl
  | succ n ih =>
    intro i es rl r hg hlo hsp
    simp only [elemLoop]
    rw [hs i es rl r hg hlo hsp]
    cases h1 : step i es rl r with
    | error f => rfl
    | ok y =>
      obtain ⟨b, es1, rl1, r1⟩ := y
      cases b
      · rfl
      · have m := (hinv _ _ _ _ _ _ _ _ h1).1
        have hb := hbuf _ _ _ _ _ _ _ _ h1
        have hp := hg.2
        simp only [Except.map, shRound]
        exact ih (i + 1) es1 rl1 r1 ⟨hb.trans hg.1, by omega⟩ (by omega) (by omega)

theorem Moved.readElemsWith_sh (M : Moved) (a lo startPos startPos' : Nat)
    (hc : startPos' + M.p + a = startPos + M.q) (rv rv' : ReadValFn) (hm : RvMono rv)
    (hb : RvBuf rv) (hsim : M.RvSh lo rv rv') (env : TypeEnv) (reg : Registry)
    (fd : TRegFieldOffsetData) (limit arrlen : Nat) (es : List Value) (rl : Nat)
    (r : ProtocolReader) (hg : M.Good r) (hlo : lo ≤ r.off) (hsp : startPos ≤ r.off) :
    readElemsWith rv' env reg fd limit startPos' arrlen es (rl + a) (M.sh r)
      = (readElemsWith rv env reg fd limit startPos arrlen es rl r).map (shRound a M.sh) := by
  unfold readElemsWith
  cases fd.arrayKind with
  | String =>
    exact M.elemLoop_sh a lo startPos _ _ (M.strStep_sh a lo startPos limit)
      (strStep_inv startPos limit) (strStep_buf limit) _ _ _ _ _ hg hlo hsp
  | Struct =>
    exact M.elemLoop_sh a lo startPos _ _
      (M.structStep_sh a lo startPos startPos' hc rv rv' hm hsim env reg _ limit)
      (structStep_inv rv hm env reg _ limit startPos)
      (structStep_buf rv hb env reg _ limit startPos) _ _ _ _ _ hg hlo hsp
  | Interface =>
    exact M.elemLoop_sh a lo startPos _ _
      (M.ifaceStep_sh a lo startPos startPos' hc rv rv' hm hsim env reg limit)
      (ifaceStep_inv rv hm env reg limit startPos)
      (ifaceStep_buf rv hb env reg limit startPos) _ _ _ _ _ hg hlo hsp
  | Ptr =>
    exact M.elemLoop_sh a lo startPos _ _
      (M.ptrStep_sh a lo startPos startPos' hc rv rv' hm hsim env reg _ limit)
      (ptrStep_inv rv hm env reg _ limit startPos)
      (ptrStep_buf rv hb env reg _ limit startPos) _ _ _ _ _ hg hlo hsp
  | _ => rfl

theorem roundRes_eq {α β : Type} (x : α) (y : β) (n m : Nat) (r r' : ProtocolReader)
    (h1 : n = m) (h2 : r = r') :
    (Except.ok (x, y, n, r) : Except Fault (α × β × Nat × ProtocolReader))
      = .ok (x, y, m, r') := by
  subst h1 h2
  rfl

theorem elemsToField_map (mk : List Value → Value) (fs : List Value) (idx a : Nat)
    (σ : ProtocolReader → ProtocolReader) (res : ElemRes) :
    elemsToField mk fs idx (res.map (shRound a σ))
      = (elemsToField mk fs idx res).map (shRound a σ) := by
  cases res with
  | error f => rfl
  | ok y =>
    obtain ⟨b, es, rl, r⟩ := y
    cases b <;> rfl

theorem Moved.readFieldWith_sh_pod (M : Moved) (a : Nat) (rv rv' : ReadValFn)
    (env : TypeEnv) (reg : Registry) (all : List TRegFieldOffsetData)
    (fd : TRegFieldOffsetData) (idx startPos startPos' datalen : Nat) (fs : List Value)
    (readLen : Nat) (r : ProtocolReader) (hg : M.Good r) (hp : fd.isPod = true) :
    readFieldWith rv' env reg all fd idx startPos' (datalen + a) fs (readLen + a) (M.sh r)
      = (readFieldWith rv env reg all fd idx startPos datalen fs readLen r).map
          (shRound a M.sh) := by
  rw [readFieldWith_pod _ _ _ _ _ _ _ _ _ _ _ hp, readFieldWith_pod _ _ _ _ _ _ _ _ _ _ _ hp,
    M.readMemory_sh r _ hg]
  cases readMemory r fd.podSize with
  | error f => rfl
  | ok y =>
    obtain ⟨rn, ws, r1⟩ := y
    simp only [Except.map, sh2]
    by_cases hrn : rn ≠ fd.podSize
    · rw [if_pos hrn, if_pos hrn]
      exact roundRes_eq _ _ _ _ _ _ (by dsimp only; omega) rfl
    · rw [if_neg hrn, if_neg hrn]
      exact roundRes_eq _ _ _ _ _ _ (by dsimp only; omega) rfl

theorem Moved.readFieldWith_sh_String (M : Moved) (a : Nat) (rv rv' : ReadValFn)
    (env : TypeEnv) (reg : Registry) (all : List TRegFieldOffsetData)
    (fd : TRegFieldOffsetData) (idx startPos startPos' datalen : Nat) (fs : List Value)
    (readLen : Nat) (r : ProtocolReader) (hg : M.Good r) (hpod : fd.isPod = false)
    (hk : fd.Kind = .String) :
    readFieldWith rv' env reg all fd idx startPos' (datalen + a) fs (readLen + a) (M.sh r)
      = (readFieldWith rv env reg all fd idx startPos datalen fs readLen r).map
          (shRound a M.sh) := by
  simp only [readFieldWith, hpod, hk, Bool.false_eq_true, if_false, stringLenSize]
  by_cases hd : readLen + 2 > datalen
  · rw [if_pos hd, if_pos (by omega)]
    rfl
  · rw [if_neg hd, if_neg (by omega), M.readString_sh r hg]
    cases readString r with
    | error f => rfl
    | ok y =>
      obtain ⟨s, slen, ok, r1⟩ := y
      cases ok
      · rfl
      · exact roundRes_eq _ _ _ _ _ _ (by dsimp only; omega) rfl

theorem Moved.readFieldWith_sh_Array (M : Moved) (a lo startPos startPos' : Nat)
    (hc : startPos' + M.p + a = startPos + M.q) (rv rv' : ReadValFn) (hm : RvMono rv)
    (hb : RvBuf rv) (hsim : M.RvSh lo rv rv') (env : TypeEnv) (reg : Registry)
    (all : List TRegFieldOffsetData) (fd : TRegFieldOffsetData) (idx datalen : Nat)
    (fs : List Value) (readLen : Nat) (r : ProtocolReader) (hg : M.Good r)
    (hlo : lo ≤ r.off) (hsp : startPos ≤ r.off) (hpod : fd.isPod = false)
    (hk : fd.Kind = .Array) :
    readFieldWith rv' env reg all fd idx startPos' (datalen + a) fs (readLen + a) (M.sh r)
      = (readFieldWith rv env reg all fd idx startPos datalen fs readLen r).map
          (shRound a M.sh) := by
  simp only [readFieldWith, hpod, hk, Bool.false_eq_true, if_false, arrayLenSize]
  by_cases hd : readLen + 4 > datalen
  · rw [if_pos hd, if_pos (by omega)]
    rfl
  · rw [if_neg hd, if_neg (by omega), M.readUint32_sh r hg]
    cases e0 : readUint32 r with
    | none => rfl
    | some x =>
      obtain ⟨arrlen, r1⟩ := x
      have g1 := M.good_u32 _ _ _ hg e0
      have h4 := readUint32_off _ _ _ e0
      have hp := hg.2
      simp only [Option.map, sh1]
      by_cases hpk : isPod fd.arrayKind = true
      · rw [if_pos hpk, if_pos hpk]
        by_cases hsz : arrlen * fd.arraySize ≤ fd.podSize
        · rw [if_pos hsz, if_pos hsz, M.readMemory_sh r1 _ g1]
          cases readMemory r1 (arrlen * fd.arraySize) with
          | error f => rfl
          | ok y =>
            obtain ⟨rn, ws, r2⟩ := y
            simp only [Except.map, sh2]
            by_cases hrn : rn ≠ arrlen * fd.arraySize
            · rw [if_pos hrn, if_pos hrn]
              exact roundRes_eq _ _ _ _ _ _ (by dsimp only; omega) rfl
            · rw [if_neg hrn, if_neg hrn]
              exact roundRes_eq _ _ _ _ _ _ (by dsimp only; omega) rfl
        · rw [if_neg hsz, if_neg hsz, M.readMemory_sh r1 _ g1]
          cases readMemory r1 fd.podSize with
          | error f => rfl
          | ok y =>
            obtain ⟨rn, ws, r2⟩ := y
            simp only [Except.map, sh2]
            by_cases hrn : rn ≠ fd.podSize
            · rw [if_pos hrn, if_pos hrn]
              exact roundRes_eq _ _ _ _ _ _ (by dsimp only; omega) rfl
            · rw [if_neg hrn, if_neg hrn]
              refine roundRes_eq _ _ _ _ _ _ ?_ ?_
              · simp only [Moved.sh]
                omega
              · simp only [Moved.sh, shRound]
                congr 1
                omega
      · rw [if_neg hpk, if_neg hpk]
        have e1 : readLen + a + 4 = readLen + 4 + a := by omega
        rw [e1, M.readElemsWith_sh a lo startPos startPos' hc rv rv' hm hb hsim env reg fd _ _ _
          _ r1 g1 (by omega) (by omega)]
        exact elemsToField_map _ _ _ _ _ _

theorem Moved.readFieldWith_sh_Slice (M : Moved) (a lo startPos startPos' : Nat)
    (hc : startPos' + M.p + a = startPos + M.q) (rv rv' : ReadValFn) (hm : RvMono rv)
    (hb : RvBuf rv) (hsim : M.RvSh lo rv rv') (env : TypeEnv) (reg : Registry)
    (all : List TRegFieldOffsetData) (fd : TRegFieldOffsetData) (idx datalen : Nat)
    (fs : List Value) (readLen : Nat) (r : ProtocolReader) (hg : M.Good r)
    (hlo : lo ≤ r.off) (hsp : startPos ≤ r.off) (hpod : fd.isPod = false)
    (hk : fd.Kind = .Slice) :
    readFieldWith rv' env reg all fd idx startPos' (datalen + a) fs (readLen + a) (M.sh r)
      = (readFieldWith rv env reg all fd idx startPos datalen fs readLen r).map
          (shRound a M.sh) := by
  simp only [readFieldWith, hpod, hk, Bool.false_eq_true, if_false, arrayLenSize]
  by_cases hd : readLen + 4 > datalen
  · rw [if_pos hd, if_pos (by omega)]
    rfl
  · rw [if_neg hd, if_neg (by omega), M.readUint32_sh r hg]
    cases e0 : readUint32 r with
    | none => rfl
    | some x =>
      obtain ⟨arrlen, r1⟩ := x
      have g1 := M.good_u32 _ _ _ hg e0
      have h4 := readUint32_off _ _ _ e0
      have hp := hg.2
      simp only [Option.map, sh1]
      by_cases hz : arrlen = 0
      · rw [if_pos hz, if_pos hz]
        exact roundRes_eq _ _ _ _ _ _ (by dsimp only; omega) rfl
      · rw [if_neg hz, if_neg hz]
        by_cases hpk : isPod fd.arrayKind = true
        · rw [if_pos hpk, if_pos hpk, M.readMemory_sh r1 _ g1]
          cases readMemory r1 (arrlen * fd.arraySize) with
          | error f => rfl
          | ok y =>
            obtain ⟨rn, ws, r2⟩ := y
            simp only [Except.map, sh2]
            by_cases hrn : rn ≠ arrlen * fd.arraySize
            · rw [if_pos hrn, if_pos hrn]
              exact roundRes_eq _ _ _ _ _ _ (by dsimp only; omega) rfl
            · rw [if_neg hrn, if_neg hrn]
              exact roundRes_eq _ _ _ _ _ _ (by dsimp only; omega) rfl
        · rw [if_neg hpk, if_neg hpk]
          have e1 : readLen + a + 4 = readLen + 4 + a := by omega
          rw [e1, M.readElemsWith_sh a lo startPos startPos' hc rv rv' hm hb hsim env reg fd _ _
            _ _ r1 g1 (by omega) (by omega)]
          exact elemsToField_map _ _ _ _ _ _

theorem Moved.readFieldWith_sh_Struct (M : Moved) (a lo startPos startPos' : Nat)
    (hc : startPos' + M.p + a = startPos + M.q) (rv rv' : ReadValFn) (hm : RvMono rv)
    (hb : RvBuf rv) (hsim : M.RvSh lo rv rv') (env : TypeEnv) (reg : Registry)
    (all : List TRegFieldOffsetData) (fd : TRegFieldOffsetData) (idx datalen : Nat)
    (fs : List Value) (readLen : Nat) (r : ProtocolReader) (hg : M.Good r)
    (hlo : lo ≤ r.off) (hsp : startPos ≤ r.off) (hpod : fd.isPod = false)
    (hk : fd.Kind = .Struct) :
    readFieldWith rv' env reg all fd idx startPos' (datalen + a) fs (readLen + a) (M.sh r)
      = (readFieldWith rv env reg all fd idx startPos datalen fs readLen r).map
          (shRound a M.sh) := by
  simp only [readFieldWith, hpod, hk, Bool.false_eq_true, if_false]
  rw [M.readStructWith_sh lo rv rv' hsim reg _ _ r hg hlo]
  cases hs : readStructWith rv reg (some fd.rType) (fs.getD idx .other) r with
  | error f => rfl
  | ok y =>
    obtain ⟨ok, v, r1⟩ := y
    have m := (readStructWith_mono rv hm _ _ _ _ _ _ _ hs).1
    have hp := hg.2
    cases ok
    · rfl
    · simp only [Except.map, sh2, shRound, Bool.not_true, Bool.false_eq_true, if_false]
      rw [M.sub_sh a startPos startPos' hc r1 (by omega) (by omega)]

theorem Moved.readFieldWith_sh_Interface (M : Moved) (a lo startPos startPos' : Nat)
    (hc : startPos' + M.p + a = startPos + M.q) (rv rv' : ReadValFn) (hm : RvMono rv)
    (hb : RvBuf rv) (hsim : M.RvSh lo rv rv') (env : TypeEnv) (reg : Registry)
    (all : List TRegFieldOffsetData) (fd : TRegFieldOffsetData) (idx datalen : Nat)
    (fs : List Value) (readLen : Nat) (r : ProtocolReader) (hg : M.Good r)
    (hlo : lo ≤ r.off) (hsp : startPos ≤ r.off) (hpod : fd.isPod = false)
    (hk : fd.Kind = .Interface) :
    readFieldWith rv' env reg all fd idx startPos' (datalen + a) fs (readLen + a) (M.sh r)
      = (readFieldWith rv env reg all fd idx startPos datalen fs readLen r).map
          (shRound a M.sh) := by
  simp only [readFieldWith, hpod, hk, Bool.false_eq_true, if_false]
  rw [M.readAnyWith_sh lo rv rv' hsim env reg r hg hlo]
  cases hs : readAnyWith rv env reg r with
  | error f => rfl
  | ok y =>
    obtain ⟨res, r1⟩ := y
    have m := (readAnyWith_mono rv hm _ _ _ _ _ hs).1
    have hp := hg.2
    cases res with
    | error _ => rfl
    | ok obj =>
      simp only [Except.map, sh1, shRound]
      rw [M.sub_sh a startPos startPos' hc r1 (by omega) (by omega)]

theorem Moved.readFieldWith_sh_Ptr (M : Moved) (a lo startPos startPos' : Nat)
    (hc : startPos' + M.p + a = startPos + M.q) (rv rv' : ReadValFn) (hm : RvMono rv)
    (hb : RvBuf rv) (hsim : M.RvSh lo rv rv') (env : TypeEnv) (reg : Registry)
    (all : List TRegFieldOffsetData) (fd : TRegFieldOffsetData) (idx datalen : Nat)
    (fs : List Value) (readLen : Nat) (r : ProtocolReader) (hg : M.Good r)
    (hlo : lo ≤ r.off) (hsp : startPos ≤ r.off) (hpod : fd.isPod = false)
    (hk : fd.Kind = .Ptr) :
    readFieldWith rv' env reg all fd idx startPos' (datalen + a) fs (readLen + a) (M.sh r)
      = (readFieldWith rv env reg all fd idx startPos datalen fs readLen r).map
          (shRound a M.sh) := by
  simp only [readFieldWith, hpod, hk, Bool.false_eq_true, if_false]
  rw [M.readPointerWith_sh lo rv rv' hsim env reg _ _ r hg hlo]
  cases hs : readPointerWith rv env reg (some fd.typeHash) (fs.getD idx .other) r with
  | error f => rfl
  | ok y =>
    obtain ⟨ok, v, r1⟩ := y
    have m := (readPointerWith_mono rv hm _ _ _ _ _ _ _ _ hs).1
    have hp := hg.2
    cases ok
    · rfl
    · simp only [Except.map, sh2, shRound, Bool.not_true, Bool.false_eq_true, if_false]
      rw [M.sub_sh a startPos startPos' hc r1 (by omega) (by omega)]

theorem Moved.readFieldWith_sh (M : Moved) (a lo startPos startPos' : Nat)
    (hc : startPos' + M.p + a = startPos + M.q) (rv rv' : ReadValFn) (hm : RvMono rv)
    (hb : RvBuf rv) (hsim : M.RvSh lo rv rv') (env : TypeEnv) (reg : Registry)
    (all : List TRegFieldOffsetData) (fd : TRegFieldOffsetData) (idx datalen : Nat)
    (fs : List Value) (readLen : Nat) (r : ProtocolReader) (hg : M.Good r)
    (hlo : lo ≤ r.off) (hsp : startPos ≤ r.off) :
    readFieldWith rv' env reg all fd idx startPos' (datalen + a) fs (readLen + a) (M.sh r)
      = (readFieldWith rv env reg all fd idx startPos datalen fs readLen r).map
          (shRound a M.sh) := by
  by_cases hp : fd.isPod = true
  · exact M.readFieldWith_sh_pod a rv rv' env reg all fd idx startPos startPos' datalen fs
      readLen r hg hp
  · have hpod := isPod_false_of_not fd hp
    cases hk : fd.Kind with
    | String =>
      exact M.readFieldWith_sh_String a rv rv' env reg all fd idx startPos startPos' datalen fs
        readLen r hg hpod hk
    | Array =>
      exact M.readFieldWith_sh_Array a lo startPos startPos' hc rv rv' hm hb hsim env reg all fd
        idx datalen fs readLen r hg hlo hsp hpod hk
    | Slice =>
      exact M.readFieldWith_sh_Slice a lo startPos startPos' hc rv rv' hm hb hsim env reg all fd
        idx datalen fs readLen r hg hlo hsp hpod hk
    | Struct =>
      exact M.readFieldWith_sh_Struct a lo startPos startPos' hc rv rv' hm hb hsim env reg all
        fd idx datalen fs readLen r hg hlo hsp hpod hk
    | Interface =>
      exact M.readFieldWith_sh_Interface a lo startPos startPos' hc rv rv' hm hb hsim env reg
        all fd idx datalen fs readLen r hg hlo hsp hpod hk
    | Ptr =>
      exact M.readFieldWith_sh_Ptr a lo startPos startPos' hc rv rv' hm hb hsim env reg all fd
        idx datalen fs readLen r hg hlo hsp hpod hk
    | _ =>
      simp only [readFieldWith, hpod, hk, Bool.false_eq_true, if_false]
      rfl

theorem Moved.readFieldsWith_sh (M : Moved) (a lo startPos startPos' : Nat)
    (hc : startPos' + M.p + a = startPos + M.q) (rv rv' : ReadValFn) (hm : RvMono rv)
    (hb : RvBuf rv) (hsim : M.RvSh lo rv rv') (env : TypeEnv) (reg : Registry)
    (all : List TRegFieldOffsetData) (datalen : Nat) :
    ∀ (fds : List TRegFieldOffsetData) (idx skip : Nat) (fs : List Value) (readLen : Nat)
      (r : ProtocolReader), M.Good r → lo ≤ r.off → startPos ≤ r.off →
      readFieldsWith rv' env reg all startPos' (datalen + a) fds idx skip fs (readLen + a)
          (M.sh r)
        = (readFieldsWith rv env reg all startPos datalen fds idx skip fs readLen r).map
            (sh2 M.sh) := by
  intro fds
  induction fds with
  | nil =>
    intro idx skip fs readLen r _ _ _
    simp only [readFieldsWith]
    rfl
  | cons fd rest ih =>
    intro idx skip fs readLen r hg hlo hsp
    have hp := hg.2
    cases skip with
    | succ k =>
      simp only [readFieldsWith]
      exact ih _ _ _ _ _ hg hlo hsp
    | zero =>
      simp only [readFieldsWith]
      by_cases hd : readLen ≥ datalen
      · rw [if_pos hd, if_pos (by omega)]
        rfl
      · rw [if_neg hd, if_neg (by omega)]
        by_cases hmc : fd.podMergeCount ≤ 1
        · rw [if_pos hmc, if_pos hmc,
            M.readFieldWith_sh a lo startPos startPos' hc rv rv' hm hb hsim env reg all fd idx
              datalen fs readLen r hg hlo hsp]
          cases hf : readFieldWith rv env reg all fd idx startPos datalen fs readLen r with
          | error f => rfl
          | ok y =>
            obtain ⟨flow, fs1, rl1, r1⟩ := y
            have m := (readFieldWith_facts rv hm _ _ _ _ _ _ _ _ _ _ _ _ _ _ hf).1
            have hbf := readFieldWith_buf rv hb _ _ _ _ _ _ _ _ _ _ _ _ _ _ hf
            cases flow with
            | next =>
              simp only [Except.map, shRound]
              exact ih _ _ _ _ _ ⟨hbf.trans hg.1, by omega⟩ (by omega) (by omega)
            | brk => rfl
            | ret => rfl
        · rw [if_neg hmc, if_neg hmc, M.readMemory_sh r _ hg]
          cases hmem : readMemory r fd.podSize with
          | error f => rfl
          | ok y =>
            obtain ⟨rn, ws, r1⟩ := y
            have m := (readMemory_facts _ _ _ _ _ hmem).1
            have hbf := readMemory_buf _ _ _ _ _ hmem
            simp only [Except.map, sh2]
            by_cases hrn : rn ≠ fd.podSize
            · rw [if_pos hrn, if_pos hrn]
            · rw [if_neg hrn, if_neg hrn]
              have e1 : readLen + a + rn = readLen + rn + a := by omega
              rw [e1]
              exact ih _ _ _ _ _ ⟨hbf.trans hg.1, by omega⟩ (by omega) (by omega)

theorem Moved.readValWith_sh (M : Moved) (a : Nat) (rv rv' : ReadValFn) (hm : RvMono rv)
    (hb : RvBuf rv) (env : TypeEnv) (reg : Registry) (h h' : ProtocolDataHeader)
    (fs : List Value) (rtti : TRegRttiData) (r : ProtocolReader)
    (hsim : M.RvSh r.off rv rv') (hg : M.Good r)
    (hhl : h'.headerLength = h.headerLength + a) (hdl : h'.dataLength = h.dataLength + a)
    (hfit : M.p + h.headerLength + a ≤ r.off + M.q) (hbase : h.headerLength ≤ r.off)
    (hfin : M.p + h.headerLength ≤ r.off + h.dataLength) :
    readValWith rv' env reg h' fs rtti (M.sh r)
      = (readValWith rv env reg h fs rtti r).map (sh2 M.sh) := by
  have hp := hg.2
  have hc : (M.sh r).off - h'.headerLength + M.p + a = r.off - h.headerLength + M.q := by
    simp only [Moved.sh, hhl]
    omega
  have hw := M.readFieldsWith_sh a r.off (r.off - h.headerLength)
    ((M.sh r).off - h'.headerLength) hc rv rv' hm hb hsim env reg rtti.FieldData h.dataLength
    rtti.FieldData 0 0 fs h.headerLength r hg (le_refl _) (by omega)
  rw [hhl] at hw
  simp only [readValWith]
  rw [hdl, hhl, hw]
  cases hf : readFieldsWith rv env reg rtti.FieldData (r.off - h.headerLength) h.dataLength
      rtti.FieldData 0 0 fs h.headerLength r with
  | error f => rfl
  | ok y =>
    obtain ⟨b, fs1, r1⟩ := y
    cases b
    · rfl
    · simp only [Except.map, sh2, Moved.sh]
      congr 4
      simp only [Moved.sh, hhl] at hc
      omega

theorem Moved.readVal_sh (M : Moved) (env : TypeEnv) (reg : Registry) :
    ∀ (f g lo : Nat), M.B.length < lo + 1 + f → M.B.length < lo + 1 + g →
      M.RvSh lo (readVal env reg f) (readVal env reg g) := by
  intro f
  induction f with
  | zero =>
    intro g lo hf _ h fs rtti r _ hlo hin _ _
    omega
  | succ f ih =>
    intro g lo hf hg0 h fs rtti r hg hlo hin hle hbase
    cases g with
    | zero => omega
    | succ g =>
      simp only [readVal]
      exact M.readValWith_sh 0 _ _ (readVal_mono env reg f) (readVal_buf env reg f) env reg h h
        fs rtti r (ih g r.off (by omega) (by omega)) hg rfl rfl (by
          have := M.len
          have := hg.1
          omega) (by omega) (by omega)

/-! ## The depth bound of `Unmarshal` is never reached -/

theorem readMemory_fuel (r : ProtocolReader) (len : Nat) :
    readMemory r len ≠ .error .fuel := by
  intro e
  unfold readMemory at e
  simp only at e
  generalize (if r.Len < (len : Int) then r.Len else (len : Int)) = n at e
  by_cases hn : n ≤ 0
  · rw [if_pos hn] at e
    cases e
  · rw [if_neg hn] at e
    split at e
    · cases e
    · cases e

theorem readString_fuel (r : ProtocolReader) : readString r ≠ .error .fuel := by
  intro e
  unfold readString at e
  split at e
  · cases e
  · split at e
    · cases e
    · cases e

theorem readAnyWith_fuel (B : List Nat) (lo : Nat) (rv : ReadValFn) (hf : RvFuel B lo rv)
    (env : TypeEnv) (reg : Registry) (r : ProtocolReader) (hb : r.buf = B)
    (hlo : lo ≤ r.off) : readAnyWith rv env reg r ≠ .error .fuel := by
  intro e
  unfold readAnyWith at e
  simp only at e
  split at e
  · cases e
  · rename_i dataHead r0 hh
    obtain ⟨hbuf, hoff, hval⟩ := ReadDataHead_facts _ _ _ hh
    by_cases h1 : (!dataHead.isValid) = true
    · rw [if_pos h1] at e
      cases e
    · rw [if_neg h1] at e
      obtain ⟨ho, h6, hle, hin⟩ := hval (valid_of_not _ h1)
      split at e
      · cases e
      · split at e
        · cases e
        · split at e
          · cases e
          · split at e
            · rename_i f hr
              cases e
              exact hf _ _ _ _ (hbuf.trans hb) (by omega) (by rw [← hb]; exact hin) hr
            · cases e
            · cases e

theorem readStructWith_fuel (B : List Nat) (lo : Nat) (rv : ReadValFn) (hf : RvFuel B lo rv)
    (reg : Registry) (t : Option RType) (v : Value) (r : ProtocolReader) (hb : r.buf = B)
    (hlo : lo ≤ r.off) : readStructWith rv reg t v r ≠ .error .fuel := by
  intro e
  unfold readStructWith at e
  split at e
  · cases e
  · rename_i dataHead r0 hh
    obtain ⟨hbuf, hoff, hval⟩ := ReadDataHead_facts _ _ _ hh
    by_cases h1 : (!dataHead.isValid) = true
    · rw [if_pos h1] at e
      cases e
    · rw [if_neg h1] at e
      obtain ⟨ho, h6, hle, hin⟩ := hval (valid_of_not _ h1)
      split at e
      · cases e
      · split at e
        · cases e
        · split at e
          · rename_i f hr
            cases e
            exact hf _ _ _ _ (hbuf.trans hb) (by omega) (by rw [← hb]; exact hin) hr
          · cases e

theorem readPointerWith_fuel (B : List Nat) (lo : Nat) (rv : ReadValFn)
    (hf : RvFuel B lo rv) (env : TypeEnv) (reg : Registry) (t : Option RType) (v : Value)
    (r : ProtocolReader) (hb : r.buf = B) (hlo : lo ≤ r.off) :
    readPointerWith rv env reg t v r ≠ .error .fuel := by
  intro e
  unfold readPointerWith at e
  split at e
  · cases e
  · rename_i dataHead r0 hh
    obtain ⟨hbuf, hoff, hval⟩ := ReadDataHead_facts _ _ _ hh
    by_cases h1 : (!dataHead.isValid) = true
    · rw [if_pos h1] at e
      cases e
    · rw [if_neg h1] at e
      obtain ⟨ho, h6, hle, hin⟩ := hval (valid_of_not _ h1)
      split at e
      · cases e
      · split at e
        · cases e
        · split at e
          · simp only at e
            split at e
            · rename_i f hr
              cases e
              exact hf _ _ _ _ (hbuf.trans hb) (by omega) (by rw [← hb]; exact hin) hr
            · cases e
          · cases e

theorem elemLoop_fuel (B : List Nat) (lo startPos : Nat)
    (step : Nat → List Value → Nat → ProtocolReader → ElemRes)
    (hs : StepFuel B lo step) (hinv : StepInv startPos step) (hbuf : StepBuf step) :
    ∀ (n i : Nat) (es : List Value) (rl : Nat) (r : ProtocolReader),
      r.buf = B → lo ≤ r.off → elemLoop step n i es rl r ≠ .error .fuel := by
  intro n
  induction n with
  | zero =>
    intro i es rl r _ _ e
    simp only [elemLoop] at e
    cases e
  | succ n ih =>
    intro i es rl r hb hlo e
    simp only [elemLoop] at e
    split at e
    · rename_i f h1
      cases e
      exact hs _ _ _ _ hb hlo h1
    · cases e
    · rename_i es2 rl2 r2 h2
      have m := (hinv _ _ _ _ _ _ _ _ h2).1
      exact ih _ _ _ _ ((hbuf _ _ _ _ _ _ _ _ h2).trans hb) (by omega) e

theorem strStep_fuel (B : List Nat) (lo limit : Nat) : StepFuel B lo (strStep limit) := by
  intro i es rl r _ _ e
  unfold strStep at e
  split at e
  · rename_i f h1
    cases e
    exact readString_fuel _ h1
  · simp only at e
    split at e
    · cases e
    · cases e

theorem anyStep_fuel (B : List Nat) (lo : Nat) (rv : ReadValFn) (hf : RvFuel B lo rv)
    (env : TypeEnv) (reg : Registry) (es : List Value) (rl startPos : Nat)
    (r : ProtocolReader) (hb : r.buf = B) (hlo : lo ≤ r.off) :
    (match readAnyWith rv env reg r with
      | .error f => .error f
      | .ok (.error _, r1) => .ok (false, es, rl, r1)
      | .ok (.ok _, r1) => .ok (true, es, r1.off - startPos, r1) : ElemRes)
      ≠ .error .fuel := by
  intro e
  split at e
  · rename_i f h1
    cases e
    exact readAnyWith_fuel B lo rv hf env reg r hb hlo h1
  · cases e
  · cases e

theorem structStep_fuel (B : List Nat) (lo : Nat) (rv : ReadValFn) (hf : RvFuel B lo rv)
    (env : TypeEnv) (reg : Registry) (t : Option RType) (limit startPos : Nat) :
    StepFuel B lo (structStep rv env reg t limit startPos) := by
  intro i es rl r hb hlo e
  unfold structStep at e
  split at e
  · split at e
    · rename_i f h1
      cases e
      exact readStructWith_fuel B lo rv hf reg _ _ r hb hlo h1
    · split at e
      · cases e
      · cases e
  · exact anyStep_fuel B lo rv hf env reg es rl startPos r hb hlo e

theorem ifaceStep_fuel (B : List Nat) (lo : Nat) (rv : ReadValFn) (hf : RvFuel B lo rv)
    (env : TypeEnv) (reg : Registry) (limit startPos : Nat) :
    StepFuel B lo (ifaceStep rv env reg limit startPos) := by
  intro i es rl r hb hlo e
  unfold ifaceStep at e
  split at e
  · rename_i f h1
    cases e
    exact readAnyWith_fuel B lo rv hf env reg r hb hlo h1
  · cases e
  · cases e

theorem ptrStep_fuel (B : List Nat) (lo : Nat) (rv : ReadValFn) (hf : RvFuel B lo rv)
    (env : TypeEnv) (reg : Registry) (t : Option RType) (limit startPos : Nat) :
    StepFuel B lo (ptrStep rv env reg t limit startPos) := by
  intro i es rl r hb hlo e
  unfold ptrStep at e
  split at e
  · split at e
    · rename_i f h1
      cases e
      exact readPointerWith_fuel B lo rv hf env reg _ _ r hb hlo h1
    · split at e
      · cases e
      · cases e
  · exact anyStep_fuel B lo rv hf env reg es rl startPos r hb hlo e

theorem readElemsWith_fuel (B : List Nat) (lo : Nat) (rv : ReadValFn) (hf : RvFuel B lo rv)
    (hm : RvMono rv) (hbv : RvBuf rv) (env : TypeEnv) (reg : Registry)
    (fd : TRegFieldOffsetData) (limit startPos arrlen : Nat) (es : List Value) (rl : Nat)
    (r : ProtocolReader) (hb : r.buf = B) (hlo : lo ≤ r.off) :
    readElemsWith rv env reg fd limit startPos arrlen es rl r ≠ .error .fuel := by
  intro e
  unfold readElemsWith at e
  split at e
  · exact elemLoop_fuel B lo startPos _ (strStep_fuel B lo limit) (strStep_inv startPos limit)
      (strStep_buf limit) _ _ _ _ _ hb hlo e
  · exact elemLoop_fuel B lo startPos _ (structStep_fuel B lo rv hf env reg _ limit startPos)
      (structStep_inv rv hm env reg _ limit startPos)
      (structStep_buf rv hbv env reg _ limit startPos) _ _ _ _ _ hb hlo e
  · exact elemLoop_fuel B lo startPos _ (ifaceStep_fuel B lo rv hf env reg limit startPos)
      (ifaceStep_inv rv hm env reg limit startPos)
      (ifaceStep_buf rv hbv env reg limit startPos) _ _ _ _ _ hb hlo e
  · exact elemLoop_fuel B lo startPos _ (ptrStep_fuel B lo rv hf env reg _ limit startPos)
      (ptrStep_inv rv hm env reg _ limit startPos)
      (ptrStep_buf rv hbv env reg _ limit startPos) _ _ _ _ _ hb hlo e
  · cases e

theorem elemsToField_fuel (mk : List Value → Value) (fs : List Value) (idx : Nat)
    (res : ElemRes) (e : elemsToField mk fs idx res = .error .fuel) : res = .error .fuel := by
  unfold elemsToField at e
  split at e
  · cases e
    rfl
  · cases e
  · cases e

theorem readFieldWith_fuel (B : List Nat) (lo : Nat) (rv : ReadValFn) (hf : RvFuel B lo rv)
    (hm : RvMono rv) (hbv : RvBuf rv) (env : TypeEnv) (reg : Registry)
    (all : List TRegFieldOffsetData) (fd : TRegFieldOffsetData)
    (idx startPos datalen : Nat) (fs : List Value) (readLen : Nat) (r : ProtocolReader)
    (hb : r.buf = B) (hlo : lo ≤ r.off) :
    readFieldWith rv env reg all fd idx startPos datalen fs readLen r ≠ .error .fuel := by
  intro e
  by_cases hp : fd.isPod = true
  · rw [readFieldWith_pod _ _ _ _ _ _ _ _ _ _ _ hp] at e
    split at e
    · rename_i f h1
      cases e
      exact readMemory_fuel _ _ h1
    · split at e
      · cases e
      · cases e
  · have hpod := isPod_false_of_not fd hp
    cases hk : fd.Kind with
    | String =>
      simp only [readFieldWith, hpod, hk, Bool.false_eq_true, if_false] at e
      split at e
      · cases e
      · split at e
        · rename_i f h1
          cases e
          exact readString_fuel _ h1
        · split at e
          · cases e
          · cases e
    | Array =>
      simp only [readFieldWith, hpod, hk, Bool.false_eq_true, if_false] at e
      split at e
      · cases e
      · split at e
        · cases e
        · rename_i arrlen r0 h0
          have h4 := readUint32_buf _ _ _ h0
          have ho := readUint32_off _ _ _ h0
          split at e
          · split at e
            · split at e
              · rename_i f h1
                cases e
                exact readMemory_fuel _ _ h1
              · split at e
                · cases e
                · cases e
            · split at e
              · rename_i f h1
                cases e
                exact readMemory_fuel _ _ h1
              · split at e
                · cases e
                · cases e
          · exact readElemsWith_fuel B lo rv hf hm hbv env reg fd _ _ _ _ _ r0 (h4.trans hb)
              (by omega) (elemsToField_fuel _ _ _ _ e)
    | Slice =>
      simp only [readFieldWith, hpod, hk, Bool.false_eq_true, if_false] at e
      split at e
      · cases e
      · split at e
        · cases e
        · rename_i arrlen r0 h0
          have h4 := readUint32_buf _ _ _ h0
          have ho := readUint32_off _ _ _ h0
          split at e
          · cases e
          · split at e
            · split at e
              · rename_i f h1
                cases e
                exact readMemory_fuel _ _ h1
              · split at e
                · cases e
                · cases e
            · exact readElemsWith_fuel B lo rv hf hm hbv env reg fd _ _ _ _ _ r0 (h4.trans hb)
                (by omega) (elemsToField_fuel _ _ _ _ e)
    | Struct =>
      simp only [readFieldWith, hpod, hk, Bool.false_eq_true, if_false] at e
      split at e
      · rename_i f h1
        cases e
        exact readStructWith_fuel B lo rv hf reg _ _ r hb hlo h1
      · split at e
        · cases e
        · cases e
    | Interface =>
      simp only [readFieldWith, hpod, hk, Bool.false_eq_true, if_false] at e
      split at e
      · rename_i f h1
        cases e
        exact readAnyWith_fuel B lo rv hf env reg r hb hlo h1
      · cases e
      · cases e
    | Ptr =>
      simp only [readFieldWith, hpod, hk, Bool.false_eq_true, if_false] at e
      split at e
      · rename_i f h1
        cases e
        exact readPointerWith_fuel B lo rv hf env reg _ _ r hb hlo h1
      · split at e
        · cases e
        · cases e
    | _ =>
      simp only [readFieldWith, hpod, hk, Bool.false_eq_true, if_false] at e
      cases e

theorem readFieldsWith_fuel (B : List Nat) (lo : Nat) (rv : ReadValFn) (hf : RvFuel B lo rv)
    (hm : RvMono rv) (hbv : RvBuf rv) (env : TypeEnv) (reg : Registry)
    (all : List TRegFieldOffsetData) (startPos datalen : Nat) :
    ∀ (fds : List TRegFieldOffsetData) (idx skip : Nat) (fs : List Value) (readLen : Nat)
      (r : ProtocolReader), r.buf = B → lo ≤ r.off →
      readFieldsWith rv env reg all startPos datalen fds idx skip fs readLen r
        ≠ .error .fuel := by
  intro fds
  induction fds with
  | nil =>
    intro idx skip fs readLen r _ _ e
    simp only [readFieldsWith] at e
    cases e
  | cons fd rest ih =>
    intro idx skip fs readLen r hb hlo e
    cases skip with
    | succ k =>
      simp only [readFieldsWith] at e
      exact ih _ _ _ _ _ hb hlo e
    | zero =>
      simp only [readFieldsWith] at e
      split at e
      · cases e
      · split at e
        · split at e
          · rename_i f h1
            cases e
            exact readFieldWith_fuel B lo rv hf hm hbv env reg all fd idx startPos datalen fs
              readLen r hb hlo h1
          · rename_i fs2 rl2 r2 h2
            have m := (readFieldWith_facts rv hm _ _ _ _ _ _ _ _ _ _ _ _ _ _ h2).1
            have hb2 := readFieldWith_buf rv hbv _ _ _ _ _ _ _ _ _ _ _ _ _ _ h2
            exact ih _ _ _ _ _ (hb2.trans hb) (by omega) e
          · cases e
          · cases e
        · split at e
          · rename_i f h1
            cases e
            exact readMemory_fuel _ _ h1
          · rename_i rn ws r2 hmem
            have m := (readMemory_facts _ _ _ _ _ hmem).1
            have hb2 := readMemory_buf _ _ _ _ _ hmem
            split at e
            · cases e
            · exact ih _ _ _ _ _ (hb2.trans hb) (by omega) e

theorem readValWith_fuel (B : List Nat) (rv : ReadValFn) (hm : RvMono rv) (hbv : RvBuf rv)
    (env : TypeEnv) (reg : Registry) (h : ProtocolDataHeader) (fs : List Value)
    (rtti : TRegRttiData) (r : ProtocolReader) (hf : RvFuel B r.off rv) (hb : r.buf = B) :
    readValWith rv env reg h fs rtti r ≠ .error .fuel := by
  intro e
  unfold readValWith at e
  simp only at e
  split at e
  · rename_i f h1
    cases e
    exact readFieldsWith_fuel B r.off rv hf hm hbv env reg _ _ _ _ _ _ _ _ r hb (le_refl _) h1
  · cases e
  · cases e

theorem readVal_fuel (B : List Nat) (env : TypeEnv) (reg : Registry) :
    ∀ (f lo : Nat), B.length < lo + 1 + f → RvFuel B lo (readVal env reg f) := by
  intro f
  induction f with
  | zero =>
    intro lo hf h fs rtti r _ hlo hin
    exact absurd hin (by omega)
  | succ f ih =>
    intro lo hf h fs rtti r hb hlo hin
    simp only [readVal]
    exact readValWith_fuel B _ (readVal_mono env reg f) (readVal_buf env reg f) env reg h fs
      rtti r (ih r.off (by omega)) hb

theorem Unmarshal_ne_fuel (env : TypeEnv) (reg : Registry) (data : List Nat) :
    Unmarshal env reg data ≠ .error .fuel := by
  intro e
  unfold Unmarshal readAny at e
  split at e
  · rename_i f h1
    cases e
    exact readAnyWith_fuel data 0 _ (readVal_fuel data env reg data.length 0 (by omega)) env
      reg (NewProtocolReader data) rfl (Nat.zero_le _) h1
  · cases e

/-! ## Short-length and long-length headers -/

theorem headerLen_long (longC : Bool) : headerLen longC true = headerLen longC false + 2 := by
  cases longC <;> rfl

theorem headerLen_ge (longC longL : Bool) : 6 ≤ headerLen longC longL := by
  cases longC <;> cases longL <;> decide

theorem Unmarshal_frames_eq (env : TypeEnv) (reg : Registry) (longC : Bool) (c : Nat)
    (P : List Nat) (hc : c < if longC then 4294967296 else 65536)
    (hP : headerLen longC false + P.length < 65536) :
    Unmarshal env reg (headerBytes longC false c (headerLen longC false + P.length) ++ P)
      = Unmarshal env reg (headerBytes longC true c (headerLen longC true + P.length) ++ P) := by
  have hl6 := headerLen_ge longC false
  rw [headerLen_long]
  have hBl : (headerBytes longC false c (headerLen longC false + P.length) ++ P).length
      = headerLen longC false + P.length := by
    rw [List.length_append, headerBytes_length]
  have hCl : (headerBytes longC true c (headerLen longC false + 2 + P.length) ++ P).length
      = headerLen longC false + 2 + P.length := by
    rw [List.length_append, headerBytes_length, headerLen_long]
  have hL := ReadDataHead_headerBytes [] P longC false c (headerLen longC false + P.length) hc
    (by simpa using hP)
  have hR := ReadDataHead_headerBytes [] P longC true c (headerLen longC false + 2 + P.length)
    hc (by simp only [if_true]; omega)
  have hv1 : decide (headerLen longC false ≤ headerLen longC false + P.length) = true :=
    decide_eq_true (by omega)
  have hv2 : decide (headerLen longC false + 2 ≤ headerLen longC false + 2 + P.length)
      = true := decide_eq_true (by omega)
  simp only [List.nil_append, List.length_nil, Nat.zero_add, headerLen_long, hv1, hv2]
    at hL hR
  generalize hB : headerBytes longC false c (headerLen longC false + P.length) ++ P = B
    at hL hBl ⊢
  generalize hC : headerBytes longC true c (headerLen longC false + 2 + P.length) ++ P = C
    at hR hCl ⊢
  have same : B.drop (headerLen longC false) = C.drop (headerLen longC false + 2) := by
    rw [← hB, ← hC, ← headerLen_long]
    rw [List.drop_left' (headerBytes_length _ _ _ _), List.drop_left' (headerBytes_length _ _ _ _)]
  obtain ⟨M, hMp, hMq, hMB, hMC⟩ : ∃ M : Moved, M.p = headerLen longC false ∧
      M.q = headerLen longC false + 2 ∧ M.B = B ∧ M.C = C :=
    ⟨⟨headerLen longC false, headerLen longC false + 2, B, C, same, by omega, by omega⟩,
      rfl, rfl, rfl, rfl⟩
  generalize headerLen longC false = hl at *
  simp only [Unmarshal, readAny, NewProtocolReader, readAnyWith, hL, hR, Bool.not_true,
    Bool.false_eq_true, if_false]
  rw [if_neg (by omega), if_neg (by omega)]
  cases GetRegRttiDataByClassId reg c with
  | none => rfl
  | some rtti =>
    simp only
    by_cases hP0 : P.length = 0
    · rw [if_pos (by omega), if_pos (by omega)]
    · rw [if_neg (by omega), if_neg (by omega)]
      obtain ⟨k, hk⟩ : ∃ k, B.length = k + 1 := ⟨B.length - 1, by omega⟩
      obtain ⟨g, hk2⟩ : ∃ g, C.length = g + 1 := ⟨C.length - 1, by omega⟩
      rw [hk, hk2]
      simp only [readVal]
      have hsim : M.RvSh hl (readVal env reg k) (readVal env reg g) :=
        M.readVal_sh env reg k g hl (by rw [hMB]; omega) (by rw [hMB]; omega)
      have key := M.readValWith_sh 2 _ _ (readVal_mono env reg k) (readVal_buf env reg k)
        env reg ⟨true, hl, c, hl + P.length⟩ ⟨true, hl + 2, c, hl + 2 + P.length⟩
        (zeroValue env rtti.rType).fields rtti ⟨B, hl⟩ hsim ⟨hMB.symm, by rw [hMp]⟩ rfl
        (by dsimp only; omega) (by dsimp only; omega) (by dsimp only; omega)
        (by dsimp only; omega)
      have hsh : M.sh ⟨B, hl⟩ = ⟨C, hl + 2⟩ := by
        simp only [Moved.sh, hMp, hMq, hMC]
        congr 1
        omega
      rw [hsh] at key
      rw [key]
      cases readValWith (readVal env reg k) env reg ⟨true, hl, c, hl + P.length⟩
          (zeroValue env rtti.rType).fields rtti ⟨B, hl⟩ with
      | error f => rfl
      | ok y =>
        obtain ⟨b, fs1, r2⟩ := y
        cases b <;> rfl

/-- C22: for every class id `c` that fits the class-id field of the header, registered or
not, and every payload `P` whose frame a 16-bit `DataLength` can announce
(`headerLen + |P| < 65536`), `Unmarshal` of the frame that carries `P` behind the
short-length header and `Unmarshal` of the frame that carries `P` behind the long-length
header give the same outcome: the same record, the same error or the same panic.  The
outcome is one of the decoder itself: the bound on the nesting depth is not reached. -/
theorem Unmarshal_short_long_header (env : TypeEnv) (reg : Registry) (longC : Bool) (c : Nat)
    (P : List Nat) (hc : c < if longC then 4294967296 else 65536)
    (hP : headerLen longC false + P.length < 65536) :
    Unmarshal env reg (headerBytes longC false c (headerLen longC false + P.length) ++ P)
      = Unmarshal env reg (headerBytes longC true c (headerLen longC true + P.length) ++ P) ∧
    Unmarshal env reg (headerBytes longC false c (headerLen longC false + P.length) ++ P)
      ≠ .error .fuel :=
  ⟨Unmarshal_frames_eq env reg longC c P hc hP, Unmarshal_ne_fuel env reg _⟩

/-- Witness of C22: the record of class 1000 with the payload `04 03 02 01`. -/
theorem Unmarshal_short_long_header_witness :
    ((1000 : Nat) < if false = true then 4294967296 else 65536) ∧
    headerLen false false + [4, 3, 2, 1].length < 65536 ∧
    (Unmarshal exEnv exReg
        (headerBytes false false 1000 (headerLen false false + [4, 3, 2, 1].length)
          ++ [4, 3, 2, 1])
      = Unmarshal exEnv exReg
        (headerBytes false true 1000 (headerLen false true + [4, 3, 2, 1].length)
          ++ [4, 3, 2, 1]) ∧
     Unmarshal exEnv exReg
        (headerBytes false false 1000 (headerLen false false + [4, 3, 2, 1].length)
          ++ [4, 3, 2, 1])
      ≠ .error .fuel) :=
  ⟨by decide, by decide,
    Unmarshal_short_long_header exEnv exReg false 1000 [4, 3, 2, 1] (by decide) (by decide)⟩

end Protocol
